import Mathlib

/-! # A shallow embedding of the bcachefs image reader (`bcachefs/bcachefs.c`)

The C program walks packed, length-prefixed records inside byte buffers.  The
embedding keeps the program's view of the machine:

* memory is a map from byte addresses to bytes (`Mem`); pointers are addresses
  (`Nat`), the null pointer is address `0`;
* multi-byte loads are little-endian (the on-disk format is little-endian and
  the program reads it with plain casts, i.e. on a little-endian host);
* `uint64_t`, `uint32_t` arithmetic is reduced `% 2 ^ 64`, `% 2 ^ 32` where the
  C expression is evaluated at that width; arithmetic on pointers themselves is
  arithmetic on addresses, which stay below `2 ^ 64` in a run of the program
  (`benz_bch_next_sibling_ptr64` is the walker with the wrap of a 64-bit
  pointer, which an 8-byte length prefix can reach);
* loops that the C code does not bound are given fuel and return `none` when it
  runs out.

The header `bcachefs.h` (struct layouts, enum values, the `U64S_*` width
specifications, `BKEY_FORMAT_SHORT`, `BKEY_U64s`) is not part of the sources,
so everything it declares is a field of the parameter `Header`.
-/

namespace Bcachefs

/-! ## Memory -/

/-- Byte-addressed memory: the byte stored at each address. -/
abbrev Mem := Nat → Nat

/-- The null pointer. -/
abbrev NULL : Nat := 0

/-- The byte at address `a` (`*(const uint8_t*)a`). -/
def byteAt (m : Mem) (a : Nat) : Nat := m a % 256

/-- Little-endian load of `n` bytes starting at address `a`. -/
def loadLE (m : Mem) (a : Nat) : Nat → Nat
  | 0 => 0
  | n + 1 => byteAt m a + 256 * loadLE m (a + 1) n

/-- A struct member: byte offset, width of the storage unit in bytes and, for
bit-fields, the position and width of the bits inside the unit. -/
structure Field where
  off : Nat
  bytes : Nat
  lsb : Nat
  width : Nat

/-- Read member `f` of the struct at address `p` (`p->f`). -/
def Field.get (f : Field) (m : Mem) (p : Nat) : Nat :=
  (loadLE m (p + f.off) f.bytes / 2 ^ f.lsb) % 2 ^ f.width

/-- An ordinary (non bit-field) member of `n` bytes at offset `off`. -/
def Field.plain (off n : Nat) : Field := ⟨off, n, 0, 8 * n⟩

/-- Width specification of an element length prefix (`struct u64s_spec`). -/
structure u64s_spec where
  size : Nat
  start : Nat

/-- Modelled from the spec: `BCH_U64S_SIZE` is defined in the missing header
`bcachefs.h`; the spec gives the unit `W = 8 bytes`. -/
def BCH_U64S_SIZE : Nat := 8

/-- Modelled from the spec: `BCH_SECTOR_SIZE` is defined in the missing header
`bcachefs.h`; the spec gives the sector `S = 512 bytes`.  Products with it are
evaluated at the 64-bit width of the values they are stored into. -/
def BCH_SECTOR_SIZE : Nat := 512

/-- Number of packed key fields (`BKEY_NR_FIELDS`): inode, offset, snapshot,
size, version.hi, version.lo. -/
def BKEY_NR_FIELDS : Nat := 6

/-- What `bcachefs.h` declares and the program uses: struct sizes, member
positions, enum values and constants. -/
structure Header where
  /-- `sizeof(struct bch_sb)` -/
  sizeof_bch_sb : Nat
  /-- `struct bch_sb`, member `u64s` -/
  sb_u64s : Field
  /-- `struct bch_sb`, member `block_size` -/
  sb_block_size : Field
  /-- `struct bch_sb`, member `flags[0]` -/
  sb_flags0 : Field
  /-- `offsetof(struct bch_sb, magic)` -/
  sb_magic : Nat
  /-- the bytes of the constant `BCACHE_MAGIC` -/
  BCACHE_MAGIC : Nat → Nat
  /-- `sizeof(BCACHE_MAGIC)` -/
  sizeof_BCACHE_MAGIC : Nat
  /-- `struct bch_sb_field`, member `u64s` -/
  sb_field_u64s : Field
  /-- `struct bch_sb_field`, member `type` -/
  sb_field_type : Field
  U64S_BCH_SB_FIELD : u64s_spec
  U64S_JSET_ENTRY : u64s_spec
  U64S_BKEY : u64s_spec
  BCH_SB_FIELD_NR : Nat
  BCH_SB_FIELD_clean : Nat
  /-- `sizeof(struct bset)` -/
  sizeof_bset : Nat
  /-- `struct bset`, member `u64s` -/
  bset_u64s : Field
  /-- `sizeof(struct bch_csum)` -/
  sizeof_bch_csum : Nat
  /-- `offsetof(struct btree_node, keys)` -/
  btree_node_keys : Nat
  /-- `offsetof(struct btree_node, format)` -/
  btree_node_format : Nat
  /-- `sizeof(struct bkey_format)` -/
  sizeof_bkey_format : Nat
  /-- `struct bkey_format`, member `key_u64s` -/
  format_key_u64s : Field
  /-- `offsetof(struct bkey_format, bits_per_field)`, elements of one byte -/
  format_bits_per_field : Nat
  /-- `offsetof(struct bkey_format, field_offset)`, elements of eight bytes -/
  format_field_offset : Nat
  /-- the bytes of the constant `BKEY_FORMAT_SHORT` -/
  BKEY_FORMAT_SHORT : Nat → Nat
  /-- `struct bkey`, its members -/
  bkey_u64s : Field
  bkey_format : Field
  bkey_needs_whiteout : Field
  bkey_type : Field
  bkey_version_hi : Field
  bkey_version_lo : Field
  bkey_size : Field
  bkey_p_inode : Field
  bkey_p_offset : Field
  bkey_p_snapshot : Field
  /-- `struct bkey_short`, the members of its `p` -/
  short_p_inode : Field
  short_p_offset : Field
  short_p_snapshot : Field
  BKEY_U64s : Nat
  KEY_FORMAT_LOCAL_BTREE : Nat
  KEY_FORMAT_CURRENT : Nat
  KEY_TYPE_extent : Nat
  KEY_TYPE_inline_data : Nat
  KEY_TYPE_btree_ptr_v2 : Nat
  KEY_TYPE_MAX : Nat
  /-- `sizeof(struct bch_btree_ptr_v2)` -/
  sizeof_bch_btree_ptr_v2 : Nat
  /-- `struct bch_btree_ptr_v2`, member `sectors_written` -/
  ptr_sectors_written : Field
  /-- `offsetof(struct bch_btree_ptr_v2, start)` -/
  ptr_start : Nat
  /-- `struct bch_extent_ptr`, bit-field `offset` -/
  extent_ptr_offset : Field
  /-- `struct bch_extent_ptr`, bit-field `unused` -/
  extent_ptr_unused : Field
  BTREE_ID_extents : Nat
  BTREE_ID_dirents : Nat
  BTREE_ID_NR : Nat
  /-- `sizeof(struct bch_sb_field_clean)` -/
  sizeof_bch_sb_field_clean : Nat
  /-- `struct jset_entry`, member `type` -/
  jset_entry_type : Field
  /-- `struct jset_entry`, member `btree_id` -/
  jset_entry_btree_id : Field
  /-- `offsetof(struct jset_entry, start)`, where the key `start->k` lies -/
  jset_entry_start : Nat
  BCH_JSET_ENTRY_btree_root : Nat
  BCH_JSET_ENTRY_NR : Nat
  /-- `struct bch_dirent`, member `d_inum` -/
  dirent_d_inum : Field
  /-- `struct bch_dirent`, member `d_type` -/
  dirent_d_type : Field
  /-- `offsetof(struct bch_dirent, d_name)` -/
  dirent_d_name : Nat

/-! ## The packed-container walker -/

/-- `read_u64s`: the length prefix of the element at `c`, read with the width
`u64s_spec.size`; any width other than 1, 2, 4, 8 yields 0. -/
def read_u64s (m : Mem) (c : Nat) (spec : u64s_spec) : Nat :=
  if spec.size = 1 then loadLE m c 1
  else if spec.size = 2 then loadLE m c 2
  else if spec.size = 4 then loadLE m c 4
  else if spec.size = 8 then loadLE m c 8
  else 0

/-- `benz_bch_next_sibling`: first element when `c` is null, otherwise the
element after `c`; null when that address is at or past `p_end`.  The length
`u64s` and the product `u64s * BCH_U64S_SIZE` are `uint64_t`.  Addresses are
natural numbers here: this is the code as long as its two pointer additions
stay below `2 ^ 64` (`next_sibling_ptr64_eq`); `benz_bch_next_sibling_ptr64` has
the additions as a 64-bit machine performs them. -/
def benz_bch_next_sibling (m : Mem) (p sizeof_p p_end c : Nat) (spec : u64s_spec) : Nat :=
  let c1 :=
    if c = NULL then p + sizeof_p
    else
      let u64s := (read_u64s m c spec + spec.start) % 2 ^ 64
      c + (u64s * BCH_U64S_SIZE) % 2 ^ 64
  if c1 ≥ p_end then NULL else c1

/-- The walker as the specification words it: with `L` the little-endian
length prefix of `spec.size` bytes at `current`, the candidate is
`current + (L + start) * 8` (or `base + header_size` from null), kept when it
is before `end_`. -/
def reference_next_sibling (m : Mem) (base header_size end_ current : Nat)
    (spec : u64s_spec) : Nat :=
  let candidate :=
    if current = NULL then base + header_size
    else current + (loadLE m current spec.size + spec.start) * 8
  if candidate < end_ then candidate else NULL

/-- Pointer addition on a machine with 64-bit addresses: the sum wraps at
`2 ^ 64`. -/
def ptr_add (p n : Nat) : Nat := (p + n) % 2 ^ 64

/-- `benz_bch_next_sibling` with its pointer additions `p + sizeof_p` and
`c + u64s * BCH_U64S_SIZE` performed on 64-bit addresses (`ptr_add`), the
length and the product being `uint64_t` as before. -/
def benz_bch_next_sibling_ptr64 (m : Mem) (p sizeof_p p_end c : Nat) (spec : u64s_spec) : Nat :=
  let c1 :=
    if c = NULL then ptr_add p sizeof_p
    else
      let u64s := (read_u64s m c spec + spec.start) % 2 ^ 64
      ptr_add c ((u64s * BCH_U64S_SIZE) % 2 ^ 64)
  if c1 ≥ p_end then NULL else c1

/-- `benz_bch_next_sb_field`, its loop with fuel: step to the next field until
the walk ends or the field has the wanted type (`BCH_SB_FIELD_NR` accepts
any).  The end of the walked region is `p + p->u64s * BCH_U64S_SIZE`. -/
def next_sb_field_loop (h : Header) (m : Mem) (p type : Nat) : Nat → Nat → Option Nat
  | 0, _ => none
  | fuel + 1, c =>
    let p_end := p + h.sb_u64s.get m p * BCH_U64S_SIZE
    let c1 := benz_bch_next_sibling m p h.sizeof_bch_sb p_end c h.U64S_BCH_SB_FIELD
    if c1 ≠ NULL ∧ type ≠ h.BCH_SB_FIELD_NR ∧ h.sb_field_type.get m c1 ≠ type then
      next_sb_field_loop h m p type fuel c1
    else some c1

/-- `benz_bch_next_sb_field(p, c, type)`, run for at most `fuel` iterations. -/
def benz_bch_next_sb_field (h : Header) (m : Mem) (fuel p c type : Nat) : Option Nat :=
  next_sb_field_loop h m p type fuel c

/-- `memcmp(&sb->magic, &BCACHE_MAGIC, sizeof(BCACHE_MAGIC)) == 0` -/
def sb_magic_matches (h : Header) (m : Mem) (sb : Nat) : Bool :=
  (List.range h.sizeof_BCACHE_MAGIC).all fun j =>
    byteAt m (sb + h.sb_magic + j) = h.BCACHE_MAGIC j % 256

/-- `benz_bch_get_sb_size`: the minimal size `sizeof(struct bch_sb)` for a null
superblock, `sizeof(struct bch_sb) + sb->u64s * BCH_U64S_SIZE` when the magic
matches, 0 otherwise. -/
def benz_bch_get_sb_size (h : Header) (m : Mem) (sb : Nat) : Nat :=
  if sb = NULL then h.sizeof_bch_sb
  else if sb_magic_matches h m sb = true then
    (h.sizeof_bch_sb + h.sb_u64s.get m sb * BCH_U64S_SIZE) % 2 ^ 64
  else 0

/-- `benz_bch_next_bkey`, its loop with fuel; the end of the walked region is
`p + p->u64s * BCH_U64S_SIZE`, `p` being the bset. -/
def next_bkey_loop (h : Header) (m : Mem) (p type : Nat) : Nat → Nat → Option Nat
  | 0, _ => none
  | fuel + 1, c =>
    let p_end := p + h.bset_u64s.get m p * BCH_U64S_SIZE
    let c1 := benz_bch_next_sibling m p h.sizeof_bset p_end c h.U64S_BKEY
    if c1 ≠ NULL ∧ type ≠ h.KEY_TYPE_MAX ∧ h.bkey_type.get m c1 ≠ type then
      next_bkey_loop h m p type fuel c1
    else some c1

/-- `benz_bch_next_bkey(p, c, type)`, run for at most `fuel` iterations. -/
def benz_bch_next_bkey (h : Header) (m : Mem) (fuel p c type : Nat) : Option Nat :=
  next_bkey_loop h m p type fuel c

/-! ## Values of a key -/

/-- `benz_bch_first_bch_val`: the first value held by the key at `p`, null when
the key body reaches the end of the key. -/
def benz_bch_first_bch_val (h : Header) (m : Mem) (p key_u64s : Nat) : Nat :=
  let p_end := p + h.bkey_u64s.get m p * BCH_U64S_SIZE
  let c := p + key_u64s * BCH_U64S_SIZE
  if c ≥ p_end then NULL else c

/-- `benz_bch_next_bch_val`: the value `sizeof_c` bytes after `c`, null at the
end of the key. -/
def benz_bch_next_bch_val (h : Header) (m : Mem) (p c sizeof_c : Nat) : Nat :=
  let p_end := p + h.bkey_u64s.get m p * BCH_U64S_SIZE
  let c1 := c + sizeof_c
  if c1 ≥ p_end then NULL else c1

/-- `_Bcachefs_iter_next_bch_val`: the first value of `bkey`, the key body
length (a `uint8_t`) taken from the node format for a key in local-btree
format and `BKEY_U64s` otherwise. -/
def _Bcachefs_iter_next_bch_val (h : Header) (m : Mem) (bkey format : Nat) : Nat :=
  if bkey = NULL then NULL
  else
    let key_u64s :=
      if h.bkey_format.get m bkey = h.KEY_FORMAT_LOCAL_BTREE then
        h.format_key_u64s.get m format % 256
      else h.BKEY_U64s % 256
    benz_bch_first_bch_val h m bkey key_u64s

/-! ## The bset walker -/

/-- `benz_bch_get_block_size`: `(uint64_t)sb->block_size * BCH_SECTOR_SIZE`. -/
def benz_bch_get_block_size (h : Header) (m : Mem) (sb : Nat) : Nat :=
  (h.sb_block_size.get m sb * BCH_SECTOR_SIZE) % 2 ^ 64

/-- The candidate computed in the body of the loop of `benz_bch_next_bset`:
from null it is `&p->keys`; otherwise the offset of `c` in the node (`c - p`,
`c` being a bset of the node `p`) is moved past the bset, then by
`block_size - offset % block_size` and by the size of a checksum. -/
def next_bset_candidate (h : Header) (m : Mem) (p block_size c : Nat) : Nat :=
  if c = NULL then p + h.btree_node_keys
  else
    let cb := c - p
    let cb := cb + (h.sizeof_bset + h.bset_u64s.get m c * BCH_U64S_SIZE)
    let cb := cb + (block_size - cb % block_size + h.sizeof_bch_csum)
    cb + p

/-- One pass through the body of the loop of `benz_bch_next_bset`: a candidate
at or past `p_end` becomes null. -/
def next_bset_step (h : Header) (m : Mem) (p p_end block_size c : Nat) : Nat :=
  let c1 := next_bset_candidate h m p block_size c
  if c1 ≥ p_end then NULL else c1

/-- The `do ... while (c && !c->u64s)` loop of `benz_bch_next_bset`. -/
def next_bset_loop (h : Header) (m : Mem) (p p_end block_size : Nat) : Nat → Nat → Option Nat
  | 0, _ => none
  | fuel + 1, c =>
    let c1 := next_bset_step h m p p_end block_size c
    if c1 ≠ NULL ∧ h.bset_u64s.get m c1 = 0 then next_bset_loop h m p p_end block_size fuel c1
    else some c1

/-- `benz_bch_next_bset(p, p_end, c, sb)`: the next bset of the node `p` that
has `u64s != 0`.  The loop gets `p_end + 1` iterations, which is enough
whenever the block size is positive (`next_bset_loop_total`). -/
def benz_bch_next_bset (h : Header) (m : Mem) (p p_end c sb : Nat) : Option Nat :=
  next_bset_loop h m p p_end (benz_bch_get_block_size h m sb) (p_end + 1) c

/-! ## The key decoder -/

/-- The decoded key (`struct bkey_local`); `struct bkey` has the same members
apart from `key_u64s`, and the program also reads a `bkey_local` through a
`struct bkey` pointer. -/
structure bkey_local where
  u64s : Nat
  format : Nat
  needs_whiteout : Nat
  type : Nat
  key_u64s : Nat
  version_hi : Nat
  version_lo : Nat
  size : Nat
  p_inode : Nat
  p_offset : Nat
  p_snapshot : Nat
  deriving DecidableEq

/-- Subtraction of `uint64_t` values: `a - b` modulo `2 ^ 64`. -/
def sub64 (a b : Nat) : Nat := (a % 2 ^ 64 + 2 ^ 64 - b % 2 ^ 64) % 2 ^ 64

/-- `benz_uintXX_as_uint64`: the unsigned integer of `sizeof_uint` bits at
`bytes`; only 64, 32, 16 and 8 bits are read, every other width gives
`(uint64_t)-1`. -/
def benz_uintXX_as_uint64 (m : Mem) (bytes sizeof_uint : Nat) : Nat :=
  if sizeof_uint = 64 then loadLE m bytes 8
  else if sizeof_uint = 32 then loadLE m bytes 4
  else if sizeof_uint = 16 then loadLE m bytes 2
  else if sizeof_uint = 8 then loadLE m bytes 1
  else 2 ^ 64 - 1

/-- `format->field_offset[i]` -/
def format_field_offset (h : Header) (m : Mem) (format i : Nat) : Nat :=
  loadLE m (format + h.format_field_offset + 8 * i) 8

/-- `format->bits_per_field[i]` -/
def format_bits_per_field (h : Header) (m : Mem) (format i : Nat) : Nat :=
  loadLE m (format + h.format_bits_per_field + i) 1

/-- The `switch (i)` of `benz_bch_parse_bkey`: store `value` into logical field
`i`, the 32-bit members through a `(uint32_t)` cast. -/
def parse_assign (i value : Nat) (ret : bkey_local) : bkey_local :=
  if i = 0 then { ret with p_inode := value }
  else if i = 1 then { ret with p_offset := value }
  else if i = 2 then { ret with p_snapshot := value % 2 ^ 32 }
  else if i = 3 then { ret with size := value % 2 ^ 32 }
  else if i = 4 then { ret with version_hi := value % 2 ^ 32 }
  else if i = 5 then { ret with version_lo := value }
  else ret

/-- One iteration of the field loop of `benz_bch_parse_bkey`; the state is the
read position `bytes` and the key decoded so far. -/
def parse_field (h : Header) (m : Mem) (format : Nat) (st : Nat × bkey_local) (i : Nat) :
    Nat × bkey_local :=
  let value := format_field_offset h m format i
  let bits := format_bits_per_field h m format i
  if (value + bits) % 2 ^ 64 = 0 then st
  else
    let bytes := st.1 - bits / 8
    let value := if bits ≠ 0 then (value + benz_uintXX_as_uint64 m bytes bits) % 2 ^ 64 else value
    (bytes, parse_assign i value st.2)

/-- `memcmp(format, &BKEY_FORMAT_SHORT, sizeof(struct bkey_format)) == 0` -/
def format_is_short (h : Header) (m : Mem) (format : Nat) : Bool :=
  (List.range h.sizeof_bkey_format).all fun j => byteAt m (format + j) = h.BKEY_FORMAT_SHORT j % 256

/-- `benz_bch_parse_bkey`: the logical key of the on-disk key `bkey` under the
node format `format`. -/
def benz_bch_parse_bkey (h : Header) (m : Mem) (bkey format : Nat) : bkey_local :=
  let ret : bkey_local :=
    { u64s := h.bkey_u64s.get m bkey, format := h.bkey_format.get m bkey,
      needs_whiteout := h.bkey_needs_whiteout.get m bkey, type := h.bkey_type.get m bkey,
      key_u64s := 0, version_hi := 0, version_lo := 0, size := 0,
      p_inode := 0, p_offset := 0, p_snapshot := 0 }
  if h.bkey_format.get m bkey = h.KEY_FORMAT_LOCAL_BTREE ∧ format_is_short h m format = true then
    { ret with
      p_inode := h.short_p_inode.get m bkey, p_offset := h.short_p_offset.get m bkey,
      p_snapshot := h.short_p_snapshot.get m bkey, key_u64s := h.format_key_u64s.get m format }
  else if h.bkey_format.get m bkey = h.KEY_FORMAT_LOCAL_BTREE then
    let bytes := bkey + h.format_key_u64s.get m format * BCH_U64S_SIZE
    let st := (List.range BKEY_NR_FIELDS).foldl (parse_field h m format) (bytes, ret)
    { st.2 with key_u64s := h.format_key_u64s.get m format }
  else if h.bkey_format.get m bkey = h.KEY_FORMAT_CURRENT then
    { ret with
      version_hi := h.bkey_version_hi.get m bkey, version_lo := h.bkey_version_lo.get m bkey,
      size := h.bkey_size.get m bkey, p_inode := h.bkey_p_inode.get m bkey,
      p_offset := h.bkey_p_offset.get m bkey, p_snapshot := h.bkey_p_snapshot.get m bkey,
      key_u64s := h.BKEY_U64s }
  else ret

/-- Logical field `i` of a decoded key, in the order inode, offset, snapshot,
size, version.hi, version.lo. -/
def bkey_local.field (k : bkey_local) (i : Nat) : Nat :=
  if i = 0 then k.p_inode
  else if i = 1 then k.p_offset
  else if i = 2 then k.p_snapshot
  else if i = 3 then k.size
  else if i = 4 then k.version_hi
  else k.version_lo

/-! ### The decoder as the specification words it -/

/-- A field is present unless its width and its offset are both zero. -/
def spec_field_present (h : Header) (m : Mem) (format i : Nat) : Prop :=
  ¬ (format_bits_per_field h m format i = 0 ∧ format_field_offset h m format i = 0)

instance (h : Header) (m : Mem) (format i : Nat) : Decidable (spec_field_present h m format i) := by
  unfold spec_field_present
  exact inferInstance

/-- Total byte width of the present fields before field `i`. -/
def spec_bytes_before (h : Header) (m : Mem) (format : Nat) : Nat → Nat
  | 0 => 0
  | i + 1 =>
    spec_bytes_before h m format i +
      (if spec_field_present h m format i then format_bits_per_field h m format i / 8 else 0)

/-- The value the specification gives field `i` of key `k`: the little-endian
integer of the `bits / 8` bytes that end `spec_bytes_before` bytes before byte
`key_u64s * 8` of the key, plus the field offset, modulo `2 ^ 64`, cut to 32
bits for snapshot, size and version.hi. -/
def spec_field_value (h : Header) (m : Mem) (k format i : Nat) : Nat :=
  let width := format_bits_per_field h m format i / 8
  let end_ := k + h.format_key_u64s.get m format * 8 - spec_bytes_before h m format i
  let value := (loadLE m (end_ - width) width + format_field_offset h m format i) % 2 ^ 64
  if i = 2 ∨ i = 3 ∨ i = 4 then value % 2 ^ 32 else value

/-! ## File and handle -/

/-- The image file behind a `FILE*`: its bytes by file offset and its length. -/
structure File where
  bytes : Mem
  len : Nat

/-- The filesystem handle (`Bcachefs`): the open image, its size, the address
of the superblock buffer. -/
structure Handle where
  fp : Option File
  size : Nat
  sb : Nat

/-! ## The iterator -/

/-- The scalar members of `Bcachefs_iterator`. -/
structure IterState where
  type : Nat
  jset_entry : Nat
  btree_ptr : Nat
  bset : Nat
  bkey : Nat
  bch_val : Nat
  btree_node : Nat
  deriving DecidableEq

/-- A `Bcachefs_iterator` with its chain of children (`next_it`). -/
inductive Bcachefs_iterator where
  | mk (s : IterState) (next_it : Option Bcachefs_iterator)

/-- The scalar members of an iterator. -/
def Bcachefs_iterator.s : Bcachefs_iterator → IterState
  | .mk s _ => s

/-- The child of an iterator (`iter->next_it`). -/
def Bcachefs_iterator.next_it : Bcachefs_iterator → Option Bcachefs_iterator
  | .mk _ n => n

/-- The loop `while (iter->next_it) iter = iter->next_it;`. -/
def Bcachefs_iterator.deepest : Bcachefs_iterator → IterState
  | .mk s none => s
  | .mk _ (some n) => n.deepest

/-! ## Record materializers -/

/-- The extent record (`Bcachefs_extent`). -/
structure Bcachefs_extent where
  inode : Nat
  file_offset : Nat
  offset : Nat
  size : Nat
  deriving DecidableEq

/-- `benz_bch_get_extent_offset`: `bch_extent_ptr->offset * BCH_SECTOR_SIZE`. -/
def benz_bch_get_extent_offset (h : Header) (m : Mem) (bch_extent_ptr : Nat) : Nat :=
  (h.extent_ptr_offset.get m bch_extent_ptr * BCH_SECTOR_SIZE) % 2 ^ 64

/-- `benz_bch_file_offset_size`: fills `file_offset`, `offset` and `size` of the
record for an extent or inline-data key that has a value, and leaves the
record alone otherwise. -/
def benz_bch_file_offset_size (h : Header) (m : Mem) (bkey : bkey_local) (bch_val : Nat)
    (e : Bcachefs_extent) : Bcachefs_extent :=
  if bch_val ≠ NULL ∧ bkey.type = h.KEY_TYPE_extent then
    { e with
      file_offset := (sub64 bkey.p_offset bkey.size * BCH_SECTOR_SIZE) % 2 ^ 64
      offset := benz_bch_get_extent_offset h m bch_val
      size := (bkey.size * BCH_SECTOR_SIZE) % 2 ^ 64 }
  else if bch_val ≠ NULL ∧ bkey.type = h.KEY_TYPE_inline_data then
    { e with
      file_offset := (sub64 bkey.p_offset bkey.size * BCH_SECTOR_SIZE) % 2 ^ 64
      offset := 0
      size := (bkey.u64s * BCH_U64S_SIZE) % 2 ^ 64 }
  else e

/-- `benz_bch_inline_data_offset`: distance of the value from the node start
plus the device offset of the node. -/
def benz_bch_inline_data_offset (start bch_val start_offset : Nat) : Nat :=
  (sub64 bch_val start + start_offset) % 2 ^ 64

/-- `Bcachefs_iter_make_extent`: the extent record of the key the deepest
iterator of the chain stands on. -/
def Bcachefs_iter_make_extent (h : Header) (m : Mem) (iter : Bcachefs_iterator) :
    Bcachefs_extent :=
  let it := iter.deepest
  let bkey_local := benz_bch_parse_bkey h m it.bkey (it.btree_node + h.btree_node_format)
  let extent : Bcachefs_extent :=
    { inode := bkey_local.p_inode, file_offset := 0, offset := 0, size := 0 }
  let extent := benz_bch_file_offset_size h m bkey_local it.bch_val extent
  if bkey_local.type = h.KEY_TYPE_inline_data then
    { extent with
      offset := benz_bch_inline_data_offset it.btree_node it.bch_val
        (benz_bch_get_extent_offset h m (it.btree_ptr + h.ptr_start))
      size := sub64 extent.size (sub64 it.bch_val it.bkey) }
  else extent

/-- `benz_get_flag_bits`: bits `[first_bit, last_bit)` of a 64-bit word, by a
left shift of `64 - last_bit` and a right shift of `64 - last_bit + first_bit`. -/
def benz_get_flag_bits (bitfield first_bit last_bit : Nat) : Nat :=
  (bitfield * 2 ^ (64 - last_bit)) % 2 ^ 64 / 2 ^ (64 - last_bit + first_bit)

/-- `benz_bch_get_btree_node_size`:
`(uint64_t)(uint16_t)benz_get_flag_bits(sb->flags[0], 12, 28) * BCH_SECTOR_SIZE`. -/
def benz_bch_get_btree_node_size (h : Header) (m : Mem) (sb : Nat) : Nat :=
  (benz_get_flag_bits (h.sb_flags0.get m sb) 12 28 % 2 ^ 16 * BCH_SECTOR_SIZE) % 2 ^ 64

/-! ## Loading a node -/

/-- The part of the process state the traversal changes: memory, and how many
node buffers have been allocated. -/
structure World where
  mem : Mem
  nalloc : Nat

/-- `benz_bch_fread_btree_node`: zero the node buffer (`memset` of the node
size), then `fread` one item of `sectors_written * BCH_SECTOR_SIZE` bytes from
the file offset `start->offset * BCH_SECTOR_SIZE`.  Returns the item count of
`fread` (1 when the whole item was read, 0 otherwise, also for an item of 0
bytes) and the memory afterwards; on a short read the bytes before the end of
the file are in the buffer.  Reading through a null `FILE*` is not modelled:
no item is read. -/
def benz_bch_fread_btree_node (h : Header) (m : Mem) (btree_node sb btree_ptr : Nat)
    (fp : Option File) : Nat × Mem :=
  let offset := benz_bch_get_extent_offset h m (btree_ptr + h.ptr_start)
  let node_size := benz_bch_get_btree_node_size h m sb
  let n := h.ptr_sectors_written.get m btree_ptr * BCH_SECTOR_SIZE
  match fp with
  | none => (0, m)
  | some f =>
    let got := min n (f.len - offset)
    (if 0 < n ∧ offset + n ≤ f.len then 1 else 0,
     fun a =>
      if btree_node ≤ a ∧ a < btree_node + got then f.bytes (offset + (a - btree_node))
      else if btree_node ≤ a ∧ a < btree_node + node_size then 0
      else m a)

/-- `Bcachefs_iter_fini`: close the child, release the node buffer, reset every
other member; returns 1 when the iterator has no child and no buffer left. -/
def Bcachefs_iter_fini (h : Header) : Bcachefs_iterator → Nat × Bcachefs_iterator
  | .mk s next_it =>
    let next_it1 : Option Bcachefs_iterator :=
      match next_it with
      | none => none
      | some n => if (Bcachefs_iter_fini h n).1 ≠ 0 then none else some (Bcachefs_iter_fini h n).2
    let btree_node1 := if s.btree_node ≠ NULL then NULL else s.btree_node
    (if next_it1.isNone ∧ btree_node1 = NULL then 1 else 0,
     .mk { type := h.BTREE_ID_NR, jset_entry := NULL, btree_ptr := NULL, bset := NULL,
           bkey := NULL, bch_val := NULL, btree_node := btree_node1 } next_it1)

/-- `Bcachefs_next_iter`: allocate a child iterator for the node `btree_ptr`
points at and load the node; on success the child becomes `iter->next_it` and
1 is returned, otherwise the child is closed and freed and 0 is returned.
`malloc k` is the address the `k`-th allocation of a node buffer returns.  The
code sets only `type`, `btree_node` and `btree_ptr` of the child; the memory
`malloc` returns for it is taken as zero-filled, so its other members are
null. -/
def Bcachefs_next_iter (h : Header) (malloc : Nat → Nat) (this : Handle) (w : World)
    (iter : Bcachefs_iterator) (btree_ptr : Nat) : Nat × World × Bcachefs_iterator :=
  let node := malloc w.nalloc
  let rd :=
    if btree_ptr ≠ NULL then benz_bch_fread_btree_node h w.mem node this.sb btree_ptr this.fp
    else (0, w.mem)
  let ptr := if btree_ptr ≠ NULL ∧ rd.1 = 0 then NULL else btree_ptr
  let w1 : World := { mem := rd.2, nalloc := w.nalloc + 1 }
  let next_it : Bcachefs_iterator :=
    .mk { type := iter.s.type, jset_entry := NULL, btree_ptr := ptr, bset := NULL, bkey := NULL,
          bch_val := NULL, btree_node := node } none
  if node ≠ NULL ∧ ptr ≠ NULL then (1, w1, .mk iter.s (some next_it))
  else (0, w1, iter)

/-! ## Traversal -/

/-- `Bcachefs_iter_bset_end`: the end of the valid part of the node,
`btree_node + btree_ptr->sectors_written * BCH_SECTOR_SIZE`. -/
def Bcachefs_iter_bset_end (h : Header) (m : Mem) (s : IterState) : Nat :=
  s.btree_node + h.ptr_sectors_written.get m s.btree_ptr * BCH_SECTOR_SIZE

/-- `Bcachefs_iter_next_bset`: the next bset of the iterator's node. -/
def Bcachefs_iter_next_bset (h : Header) (m : Mem) (this : Handle) (s : IterState) : Option Nat :=
  benz_bch_next_bset h m s.btree_node (Bcachefs_iter_bset_end h m s) s.bset this.sb

/-- The `do ... while (iter->bkey && bch_val == NULL)` loop of
`bch_val_from_bset`: advance to the next key of the bset, stop with null when
the key is at or past `bset_end`, go on while the key has no value. -/
def bch_val_from_bset_loop (h : Header) (m : Mem) (bset_end : Nat) :
    Nat → IterState → Option (Nat × IterState)
  | 0, _ => none
  | fuel + 1, s =>
    match benz_bch_next_bkey h m (fuel + 1) s.bset s.bkey h.KEY_TYPE_MAX with
    | none => none
    | some bkey =>
      let bch_val := _Bcachefs_iter_next_bch_val h m bkey (s.btree_node + h.btree_node_format)
      if bkey ≥ bset_end then some (NULL, { s with bkey := bkey })
      else if bkey ≠ NULL ∧ bch_val = NULL then
        bch_val_from_bset_loop h m bset_end fuel { s with bkey := bkey }
      else some (bch_val, { s with bkey := bkey })

/-- `bch_val_from_bset`: the next value of the current bset, null when there
is no current bset or it is exhausted. -/
def bch_val_from_bset (h : Header) (m : Mem) (fuel : Nat) (s : IterState) :
    Option (Nat × IterState) :=
  if s.bset = NULL then some (NULL, s)
  else bch_val_from_bset_loop h m (Bcachefs_iter_bset_end h m s) fuel s

/-- What a step of the iterator produces: the value returned (null at the
end), the process state and the iterator afterwards; `none` when the fuel
runs out. -/
abbrev IterResult := Option (Nat × World × Bcachefs_iterator)

/-- `bch_val_from_nested_btree`: the next value of the child iterator, if there
is a child; a child that returns null is closed and freed.  `next` is
`Bcachefs_iter_next`. -/
def bch_val_from_nested_btree (next : World → Bcachefs_iterator → IterResult) (w : World)
    (iter : Bcachefs_iterator) : IterResult :=
  match iter.next_it with
  | some child =>
    match next w child with
    | none => none
    | some (bch_val, w1, child1) =>
      if bch_val ≠ NULL then some (bch_val, w1, .mk iter.s (some child1))
      else some (NULL, w1, .mk iter.s none)
  | none => some (NULL, w, iter)

/-- `_Bcachefs_iter_next`: a value of the child, else a value of the current
bset, else move to the next bset and start over with `Bcachefs_iter_next`
(`next`), else clear `bset` and return null. -/
def _Bcachefs_iter_next (h : Header) (this : Handle) (fuel : Nat)
    (next : World → Bcachefs_iterator → IterResult) (w : World) (iter : Bcachefs_iterator) :
    IterResult :=
  match bch_val_from_nested_btree next w iter with
  | none => none
  | some (bval, w1, iter1) =>
    if bval ≠ NULL then some (bval, w1, iter1)
    else
      match bch_val_from_bset h w1.mem fuel iter1.s with
      | none => none
      | some (bval, s2) =>
        if bval ≠ NULL then some (bval, w1, .mk s2 iter1.next_it)
        else
          match Bcachefs_iter_next_bset h w1.mem this s2 with
          | none => none
          | some bset =>
            if bset ≠ NULL then next w1 (.mk { s2 with bset := bset } iter1.next_it)
            else some (NULL, w1, .mk { s2 with bset := NULL } iter1.next_it)

/-- `Bcachefs_iter_next`: the next value of the traversal.  For the extents and
dirents trees the value is recorded in `bch_val` and, when the type of the
iterator's current key is `btree_ptr_v2`, a child iterator is opened on the
value and the traversal starts over; for every other tree null is returned. -/
def Bcachefs_iter_next (h : Header) (malloc : Nat → Nat) (this : Handle) :
    Nat → World → Bcachefs_iterator → IterResult
  | 0 => fun _ _ => none
  | fuel + 1 => fun w iter =>
    match _Bcachefs_iter_next h this (fuel + 1) (Bcachefs_iter_next h malloc this fuel) w iter with
    | none => none
    | some (bch_val, w1, iter1) =>
      if bch_val = NULL then some (NULL, w1, iter1)
      else if iter1.s.type = h.BTREE_ID_extents ∨ iter1.s.type = h.BTREE_ID_dirents then
        if h.bkey_type.get w1.mem iter1.s.bkey = h.KEY_TYPE_btree_ptr_v2 then
          let r := Bcachefs_next_iter h malloc this w1
            (.mk { iter1.s with bch_val := bch_val } iter1.next_it) bch_val
          if r.1 ≠ 0 then Bcachefs_iter_next h malloc this fuel r.2.1 r.2.2
          else some (NULL, r.2.1, r.2.2)
        else some (bch_val, w1, .mk { iter1.s with bch_val := bch_val } iter1.next_it)
      else some (NULL, w1, iter1)

/-- The values returned by `n` successive calls of `Bcachefs_iter_next`. -/
def iter_next_values (h : Header) (malloc : Nat → Nat) (this : Handle) (fuel : Nat) :
    Nat → World → Bcachefs_iterator → Option (List Nat)
  | 0, _, _ => some []
  | n + 1, w, iter =>
    match Bcachefs_iter_next h malloc this fuel w iter with
    | none => none
    | some (v, w1, iter1) => (iter_next_values h malloc this fuel n w1 iter1).map (v :: ·)

/-! ## Journal entries of the clean field -/

/-- `benz_bch_next_jset_entry`, its loop with fuel: step to the next entry of
the field `p` until the walk ends or the entry has the wanted type
(`BCH_JSET_ENTRY_NR` accepts any).  The end of the walked region is
`p + p->u64s * BCH_U64S_SIZE`. -/
def next_jset_entry_loop (h : Header) (m : Mem) (p sizeof_p type : Nat) : Nat → Nat → Option Nat
  | 0, _ => none
  | fuel + 1, c =>
    let p_end := p + h.sb_field_u64s.get m p * BCH_U64S_SIZE
    let c1 := benz_bch_next_sibling m p sizeof_p p_end c h.U64S_JSET_ENTRY
    if c1 ≠ NULL ∧ type ≠ h.BCH_JSET_ENTRY_NR ∧ h.jset_entry_type.get m c1 ≠ type then
      next_jset_entry_loop h m p sizeof_p type fuel c1
    else some c1

/-- `benz_bch_next_jset_entry(p, sizeof_p, c, type)`, run for at most `fuel`
iterations. -/
def benz_bch_next_jset_entry (h : Header) (m : Mem) (fuel p sizeof_p c type : Nat) : Option Nat :=
  next_jset_entry_loop h m p sizeof_p type fuel c

/-- The `for` loop of `Bcachefs_iter_next_jset_entry`: while the entry is not
null and its `btree_id` is not the iterator's type, take the next entry of type
`BCH_JSET_ENTRY_btree_root`. -/
def jset_entry_for_loop (h : Header) (m : Mem) (sb_field_clean type : Nat) :
    Nat → Nat → Option Nat
  | 0, _ => none
  | fuel + 1, jset_entry =>
    if jset_entry ≠ NULL ∧ h.jset_entry_btree_id.get m jset_entry ≠ type then
      match benz_bch_next_jset_entry h m (fuel + 1) sb_field_clean h.sizeof_bch_sb_field_clean
          jset_entry h.BCH_JSET_ENTRY_btree_root with
      | none => none
      | some next => jset_entry_for_loop h m sb_field_clean type fuel next
    else some jset_entry

/-- `Bcachefs_iter_next_jset_entry`: look up the clean field of the superblock,
then from `iter->jset_entry` the next entry of type `BCH_JSET_ENTRY_btree_root`
whose `btree_id` is `iter->type`. -/
def Bcachefs_iter_next_jset_entry (h : Header) (m : Mem) (fuel : Nat) (this : Handle)
    (s : IterState) : Option Nat :=
  match benz_bch_next_sb_field h m fuel this.sb NULL h.BCH_SB_FIELD_clean with
  | none => none
  | some sb_field_clean =>
    match benz_bch_next_jset_entry h m fuel sb_field_clean h.sizeof_bch_sb_field_clean
        s.jset_entry h.BCH_JSET_ENTRY_btree_root with
    | none => none
    | some jset_entry => jset_entry_for_loop h m sb_field_clean s.type fuel jset_entry

/-- The search as the specification words it: go through the entries of the
clean field in on-disk order, starting after `c`, and return the first one that
has type `BCH_JSET_ENTRY_btree_root` and the wanted `btree_id`, null when the
end of the field is reached; `n` bounds the number of entries looked at. -/
def first_root_entry (h : Header) (m : Mem) (sb_field_clean id : Nat) : Nat → Nat → Option Nat
  | 0, _ => none
  | n + 1, c =>
    let e := benz_bch_next_sibling m sb_field_clean h.sizeof_bch_sb_field_clean
      (sb_field_clean + h.sb_field_u64s.get m sb_field_clean * BCH_U64S_SIZE) c h.U64S_JSET_ENTRY
    if e = NULL then some NULL
    else if h.jset_entry_type.get m e = h.BCH_JSET_ENTRY_btree_root ∧
        h.jset_entry_btree_id.get m e = id then some e
    else first_root_entry h m sb_field_clean id n e

/-! ## The root pointer of a tree -/

/-- The key of a journal entry, `&jset_entry->start->k`. -/
def jset_entry_key (h : Header) (jset_entry : Nat) : Nat := jset_entry + h.jset_entry_start

/-- The `for` loop of `Bcachefs_iter_next_btree_ptr`: while the value is not
null and its `start->unused` flag is set, take the value
`sizeof(struct bch_btree_ptr_v2)` bytes further in the key `k`. -/
def next_btree_ptr_loop (h : Header) (m : Mem) (k : Nat) : Nat → Nat → Option Nat
  | 0, _ => none
  | fuel + 1, bch_val =>
    if bch_val ≠ NULL ∧ h.extent_ptr_unused.get m (bch_val + h.ptr_start) ≠ 0 then
      next_btree_ptr_loop h m k fuel (benz_bch_next_bch_val h m k bch_val h.sizeof_bch_btree_ptr_v2)
    else some bch_val

/-- `Bcachefs_iter_next_btree_ptr`: from `iter->btree_ptr` (or from the first
value of the key of `iter->jset_entry` when it is null) the next B-tree pointer
whose `start->unused` flag is not set. -/
def Bcachefs_iter_next_btree_ptr (h : Header) (m : Mem) (fuel : Nat) (s : IterState) :
    Option Nat :=
  let k := jset_entry_key h s.jset_entry
  let btree_ptr :=
    if s.btree_ptr ≠ NULL then benz_bch_next_bch_val h m k s.btree_ptr h.sizeof_bch_btree_ptr_v2
    else benz_bch_first_bch_val h m k (h.BKEY_U64s % 256)
  next_btree_ptr_loop h m k fuel btree_ptr

/-- The directory entry record (`Bcachefs_dirent`); `name` is the address of
the name bytes. -/
structure Bcachefs_dirent where
  parent_inode : Nat
  inode : Nat
  type : Nat
  name : Nat
  deriving DecidableEq

/-- `Bcachefs_iter_make_dirent`: the directory entry of the key and value the
deepest iterator of the chain stands on. -/
def Bcachefs_iter_make_dirent (h : Header) (m : Mem) (iter : Bcachefs_iterator) :
    Bcachefs_dirent :=
  let it := iter.deepest
  let bkey_local := benz_bch_parse_bkey h m it.bkey (it.btree_node + h.btree_node_format)
  let bch_dirent := it.bch_val
  { parent_inode := bkey_local.p_inode
    inode := h.dirent_d_inum.get m bch_dirent
    type := h.dirent_d_type.get m bch_dirent
    name := bch_dirent + h.dirent_d_name }

/-- The `n`-th key of a bset: `benz_bch_next_bkey(bset, c, KEY_TYPE_MAX)`
applied `n + 1` times, starting from null and following its own results. -/
def nth_bkey (h : Header) (m : Mem) (bset : Nat) : Nat → Option Nat
  | 0 => benz_bch_next_bkey h m 1 bset NULL h.KEY_TYPE_MAX
  | n + 1 =>
    match nth_bkey h m bset n with
    | none => none
    | some c => benz_bch_next_bkey h m 1 bset c h.KEY_TYPE_MAX

/-! ## Opening an iterator -/

/-- `Bcachefs_iter`: set the type, allocate the node buffer, look up the root
entry and the root pointer of the tree, read the root node; returns
`iter->jset_entry && iter->btree_node && iter->btree_ptr`.  The members
`bset`, `bkey` and `bch_val` are left as they were. -/
def Bcachefs_iter (h : Header) (malloc : Nat → Nat) (fuel : Nat) (this : Handle) (w : World)
    (iter : Bcachefs_iterator) (type : Nat) : Option (Nat × World × Bcachefs_iterator) :=
  let s0 : IterState := { iter.s with type := type, btree_node := malloc w.nalloc }
  match Bcachefs_iter_next_jset_entry h w.mem fuel this s0 with
  | none => none
  | some jset_entry =>
    let s1 : IterState := { s0 with jset_entry := jset_entry }
    match Bcachefs_iter_next_btree_ptr h w.mem fuel s1 with
    | none => none
    | some btree_ptr =>
      let rd := benz_bch_fread_btree_node h w.mem s1.btree_node this.sb btree_ptr this.fp
      let btree_ptr1 := if btree_ptr ≠ NULL ∧ rd.1 = 0 then NULL else btree_ptr
      some (if jset_entry ≠ NULL ∧ s1.btree_node ≠ NULL ∧ btree_ptr1 ≠ NULL then 1 else 0,
            { mem := rd.2, nalloc := w.nalloc + 1 },
            .mk { s1 with btree_ptr := btree_ptr1 } none)

/-! ## Opening and closing the filesystem handle -/

/-- Modelled from the spec: `BCH_SB_SECTOR` is defined in the missing header
`bcachefs.h`; the spec puts the superblock at sector 8 of the image. -/
def BCH_SB_SECTOR : Nat := 8

/-- What `realloc(ptr, 0)` does with a non-null `ptr`; the C standard leaves the
choice to the implementation: free the block and return null (glibc), or free
it and return a new object of size zero. -/
inductive ReallocZero where
  | frees_and_returns_null
  | returns_object
  deriving DecidableEq

/-- Memory together with the state of the C allocator: the blocks handed out and
not yet freed, and how many blocks have been handed out. -/
structure Heap where
  mem : Mem
  live : List Nat
  nalloc : Nat

/-- `free(p)`: nothing for null, the block leaves the live blocks; a block that
is not live (a second `free`) is undefined behaviour, `none`. -/
def free_block (hp : Heap) (p : Nat) : Option Heap :=
  if p = NULL then some hp
  else if p ∈ hp.live then some { hp with live := hp.live.erase p }
  else none

/-- `realloc(ptr, size)`: `malloc(size)` for a null `ptr`; for `size = 0` what
`zero` says; otherwise a block at the next address `malloc` gives, holding the
bytes of the old block, which is freed.  Allocation itself does not fail. -/
def realloc_block (zero : ReallocZero) (malloc : Nat → Nat) (hp : Heap) (ptr size : Nat) :
    Option (Nat × Heap) :=
  if ptr = NULL then
    some (malloc hp.nalloc,
      { hp with live := malloc hp.nalloc :: hp.live, nalloc := hp.nalloc + 1 })
  else if ptr ∉ hp.live then none
  else if size = 0 then
    match zero with
    | .frees_and_returns_null => some (NULL, { hp with live := hp.live.erase ptr })
    | .returns_object =>
      some (malloc hp.nalloc,
        { hp with live := malloc hp.nalloc :: hp.live.erase ptr, nalloc := hp.nalloc + 1 })
  else
    some (malloc hp.nalloc,
      { mem := fun a =>
          if malloc hp.nalloc ≤ a ∧ a < malloc hp.nalloc + size then
            hp.mem (ptr + (a - malloc hp.nalloc))
          else hp.mem a
        live := malloc hp.nalloc :: hp.live.erase ptr
        nalloc := hp.nalloc + 1 })

/-- `benz_bch_realloc_sb`: with `size == 0` the size is `benz_bch_get_sb_size(sb)`;
when `realloc` returns null and `sb` is not null, `sb` is freed. -/
def benz_bch_realloc_sb (h : Header) (zero : ReallocZero) (malloc : Nat → Nat) (hp : Heap)
    (sb size : Nat) : Option (Nat × Heap) :=
  let size := if size = 0 then benz_bch_get_sb_size h hp.mem sb else size
  match realloc_block zero malloc hp sb size with
  | none => none
  | some (ret, hp1) =>
    if ret = NULL ∧ sb ≠ NULL then
      match free_block hp1 sb with
      | none => none
      | some hp2 => some (ret, hp2)
    else some (ret, hp1)

/-- `benz_bch_fread_sb`: read one item of `size` bytes (of the minimal superblock
size when `size == 0`) at sector `BCH_SB_SECTOR` of the image into `sb`;
returns the item count of `fread` and the memory afterwards. -/
def benz_bch_fread_sb (h : Header) (m : Mem) (sb size : Nat) (fp : Option File) : Nat × Mem :=
  let size := if size = 0 then benz_bch_get_sb_size h m NULL else size
  let offset := BCH_SB_SECTOR * BCH_SECTOR_SIZE
  match fp with
  | none => (0, m)
  | some f =>
    (if 0 < size ∧ offset + size ≤ f.len then 1 else 0,
     fun a =>
      if sb ≤ a ∧ a < sb + min size (f.len - offset) then f.bytes (offset + (a - sb)) else m a)

/-- `Bcachefs_close`: close the file (`fclose` is taken to succeed), free the
superblock; returns `this->fp == NULL && this->sb == NULL`.  `none` is
undefined behaviour in `free`. -/
def Bcachefs_close (this : Handle) (hp : Heap) : Option (Nat × Handle × Heap) :=
  let this1 : Handle := if this.fp.isSome then { this with fp := none, size := 0 } else this
  if this1.sb ≠ NULL then
    match free_block hp this1.sb with
    | none => none
    | some hp1 => some (if this1.fp.isNone then 1 else 0, { this1 with sb := NULL }, hp1)
  else some (if this1.fp.isNone ∧ this1.sb = NULL then 1 else 0, this1, hp)

/-- `Bcachefs_open`: close the handle, open the image (`fopen` yields `image`),
read the minimal superblock, resize it to its own size and read it again;
on failure the handle is closed (`Bcachefs_fini`).  `none` is undefined
behaviour in `free` or `realloc`. -/
def Bcachefs_open (h : Header) (zero : ReallocZero) (malloc : Nat → Nat) (image : Option File)
    (this : Handle) (hp : Heap) : Option (Nat × Handle × Heap) :=
  match Bcachefs_close this hp with
  | none => none
  | some (closed, this0, hp0) =>
    if closed = 0 then some (0, this0, hp0)
    else
      -- this->fp = fopen(path, "rb"); on success the size and the minimal superblock
      let opened : Option (Handle × Heap) :=
        match image with
        | none => some ({ this0 with fp := none }, hp0)
        | some f =>
          match benz_bch_realloc_sb h zero malloc hp0 NULL 0 with
          | none => none
          | some (sb, hp1) => some ({ fp := some f, size := f.len, sb := sb }, hp1)
      match opened with
      | none => none
      | some (this1, hp1) =>
        let rd := benz_bch_fread_sb h hp1.mem this1.sb 0 this1.fp
        let second : Option (Nat × Handle × Heap) :=
          if this1.sb ≠ NULL ∧ rd.1 ≠ 0 then
            match benz_bch_realloc_sb h zero malloc { hp1 with mem := rd.2 } this1.sb 0 with
            | none => none
            | some (sb, hp2) =>
              if sb ≠ NULL then
                let rd2 := benz_bch_fread_sb h hp2.mem sb (benz_bch_get_sb_size h hp2.mem sb)
                  this1.fp
                some (if rd2.1 ≠ 0 then 1 else 0, { this1 with sb := sb },
                  { hp2 with mem := rd2.2 })
              else some (0, { this1 with sb := sb }, hp2)
          else some (0, this1, hp1)
        match second with
        | none => none
        | some (ret, this2, hp2) =>
          if ret = 0 then
            match Bcachefs_close this2 hp2 with
            | none => none
            | some (_, this3, hp3) => some (0, this3, hp3)
          else some (ret, this2, hp2)

/-- The candidates the loop of `benz_bch_next_bset` examines after `c`, one per
iteration: the candidate computed from `c`, then the candidate computed from
that one, and so on. -/
def bset_candidates (h : Header) (m : Mem) (p block_size c : Nat) : Nat → Nat
  | 0 => next_bset_candidate h m p block_size c
  | i + 1 => next_bset_candidate h m p block_size (bset_candidates h m p block_size c i)

/-- Rounding up as the specification words it: the least multiple of `b` that
is at least `x`. -/
def roundup (x b : Nat) : Nat := (x + b - 1) / b * b

/-- An iterator given by its levels from the root down: the scalar members of
the levels that have a child (`parents`, each the parent of the next) and those
of the level without child (`last`). -/
def Bcachefs_iterator.ofChain : List IterState → IterState → Bcachefs_iterator
  | [], last => .mk last none
  | p :: ps, last => .mk p (some (Bcachefs_iterator.ofChain ps last))

/-! ## Concrete data for the examples -/

/-- Memory holding the given byte strings at the given addresses, zero
elsewhere. -/
def memOf : List (Nat × List Nat) → Mem
  | [] => fun _ => 0
  | (base, bytes) :: rest => fun a =>
    if base ≤ a ∧ a < base + bytes.length then bytes.getD (a - base) 0 else memOf rest a

/-- The little-endian bytes of `v`, `n` of them. -/
def leBytes : Nat → Nat → List Nat
  | 0, _ => []
  | n + 1, v => v % 256 :: leBytes n (v / 256)

/-- A header instance for the examples: struct layouts and enum values of the
bcachefs on-disk format (`struct bch_sb` of 752 bytes, `struct bset` of 24,
`struct bkey` of 40, `struct btree_node` with its format at 80 and its first
bset at 136), the width specifications as the specification lists them; a
journal entry has its 32-bit length first, then `btree_id`, `level`, `type`
and one byte of padding, and its key at byte 8. -/
def hdr : Header where
  sizeof_bch_sb := 752
  sb_u64s := Field.plain 124 4
  sb_block_size := Field.plain 120 2
  sb_flags0 := Field.plain 144 8
  sb_magic := 24
  BCACHE_MAGIC := fun j =>
    [198, 133, 115, 246, 78, 26, 69, 202, 130, 101, 245, 127, 72, 186, 109, 129].getD j 0
  sizeof_BCACHE_MAGIC := 16
  sb_field_u64s := Field.plain 0 4
  sb_field_type := Field.plain 4 4
  U64S_BCH_SB_FIELD := ⟨4, 0⟩
  U64S_JSET_ENTRY := ⟨4, 0⟩
  U64S_BKEY := ⟨1, 0⟩
  BCH_SB_FIELD_NR := 9
  BCH_SB_FIELD_clean := 6
  sizeof_bset := 24
  bset_u64s := Field.plain 22 2
  sizeof_bch_csum := 16
  btree_node_keys := 136
  btree_node_format := 80
  sizeof_bkey_format := 56
  format_key_u64s := Field.plain 0 1
  format_bits_per_field := 2
  format_field_offset := 8
  BKEY_FORMAT_SHORT := fun j => [3, 6, 64, 64].getD j 0
  bkey_u64s := Field.plain 0 1
  bkey_format := ⟨1, 1, 0, 7⟩
  bkey_needs_whiteout := ⟨1, 1, 7, 1⟩
  bkey_type := Field.plain 2 1
  bkey_version_hi := Field.plain 12 4
  bkey_version_lo := Field.plain 4 8
  bkey_size := Field.plain 16 4
  bkey_p_inode := Field.plain 32 8
  bkey_p_offset := Field.plain 24 8
  bkey_p_snapshot := Field.plain 20 4
  short_p_inode := Field.plain 16 8
  short_p_offset := Field.plain 8 8
  short_p_snapshot := Field.plain 4 4
  BKEY_U64s := 5
  KEY_FORMAT_LOCAL_BTREE := 0
  KEY_FORMAT_CURRENT := 1
  KEY_TYPE_extent := 6
  KEY_TYPE_inline_data := 17
  KEY_TYPE_btree_ptr_v2 := 18
  KEY_TYPE_MAX := 19
  sizeof_bch_btree_ptr_v2 := 40
  ptr_sectors_written := Field.plain 16 2
  ptr_start := 40
  extent_ptr_offset := ⟨0, 8, 4, 44⟩
  extent_ptr_unused := ⟨0, 8, 2, 1⟩
  BTREE_ID_extents := 0
  BTREE_ID_dirents := 2
  BTREE_ID_NR := 8
  sizeof_bch_sb_field_clean := 24
  jset_entry_type := Field.plain 6 1
  jset_entry_btree_id := Field.plain 4 1
  jset_entry_start := 8
  BCH_JSET_ENTRY_btree_root := 1
  BCH_JSET_ENTRY_NR := 9
  dirent_d_inum := Field.plain 0 8
  dirent_d_type := Field.plain 8 1
  dirent_d_name := 9

/-- A superblock at address 4096 with the magic of the format and `u64s = 2`,
followed at byte 752 by its only field: two words long, of type 6 (clean). -/
def sbOneField : Mem :=
  memOf [(4096 + 24,
      [198, 133, 115, 246, 78, 26, 69, 202, 130, 101, 245, 127, 72, 186, 109, 129]),
    (4096 + 124, leBytes 4 2), (4096 + 752, leBytes 4 2 ++ leBytes 4 6)]

/-- A node at address 8192 read from two sectors (it ends at 9216): its first
bset, at `&node->keys` (8328), has `u64s = 3`; the next block boundary of the
node is at byte 512, so the second bset is at 8192 + 512 + 16 = 8720 and has
`u64s = 6`.  The superblock at 4096 has `block_size = 1` sector. -/
def nodeTwoBsets : Mem :=
  memOf [(4096 + 120, leBytes 2 1), (8328 + 22, leBytes 2 3), (8720 + 22, leBytes 2 6)]

/-- An on-disk key in the current format: `u64s`, type, size, `p.offset`,
`p.inode`, followed by its value bytes. -/
def currentKey (u64s type size offset inode : Nat) (value : List Nat) : List Nat :=
  [u64s, 1, type, 0] ++ leBytes 8 0 ++ leBytes 4 0 ++ leBytes 4 size ++ leBytes 4 0 ++
    leBytes 8 offset ++ leBytes 8 inode ++ value

/-- An on-disk extent pointer whose `offset` bit-field is `sectors`. -/
def extentPtr (sectors : Nat) : List Nat := leBytes 8 (sectors * 16 + 1)

/-- The superblock members the walkers read, for a superblock at 4096:
`block_size = 1` sector and a node size of 16 sectors in bits 12..27 of
`flags[0]`. -/
def sbBytes : List (Nat × List Nat) :=
  [(4096 + 120, leBytes 2 1), (4096 + 144, leBytes 8 (16 * 4096))]

/-- A B-tree pointer at address 6000: `sectors_written = 16`, the node at
device sector 2048. -/
def rootPtrBytes : List (Nat × List Nat) :=
  [(6000 + 16, leBytes 2 16), (6000 + 40, extentPtr 2048)]

/-- The seed scenario of one extent: a node at 8192 whose first bset (at 8328)
holds at 8352 the key `{p.inode = 1, p.offset = 8, size = 8}` of type extent,
with one extent pointer to device sector 8 as its value (at 8392). -/
def nodeOneExtent : Mem :=
  memOf (sbBytes ++ rootPtrBytes ++
    [(8328 + 22, leBytes 2 6), (8352, currentKey 6 6 8 8 1 (extentPtr 8))])

/-- The iterator standing on the key of `nodeOneExtent`. -/
def iterOneExtent : Bcachefs_iterator :=
  .mk { type := 0, jset_entry := 5000, btree_ptr := 6000, bset := 8328, bkey := 8352,
        bch_val := 8392, btree_node := 8192 } none

/-- The seed scenario of an inline-data key: the node format (at 8192 + 80) has
`key_u64s = 3` and one byte each for inode, offset and size; the key at 8352
has `u64s = 5`, type inline_data, and packs `size = 1`, `p.offset = 1`,
`p.inode = 2` into the last three bytes of its 3-word body; two words of inline
bytes follow at 8376. -/
def nodeInline : Mem :=
  memOf (sbBytes ++ rootPtrBytes ++
    [(8192 + 80, [3, 6, 8, 8, 0, 8, 0, 0]), (8328 + 22, leBytes 2 5),
     (8352, [5, 0, 17, 0] ++ List.replicate 17 0 ++ [1, 1, 2] ++ List.replicate 16 120)])

/-- The iterator standing on the key of `nodeInline`. -/
def iterInline : Bcachefs_iterator :=
  .mk { type := 0, jset_entry := 5000, btree_ptr := 6000, bset := 8328, bkey := 8352,
        bch_val := 8376, btree_node := 8192 } none

/-- A key in local-btree format at 8352 under a node format (at 8272) with
`key_u64s = 3` whose only field is the inode, 24 bits wide with offset 0; the
three bytes that end the 3-word key body are 3, 2, 1. -/
def nodeWidth24 : Mem :=
  memOf [(8272, [3, 6, 24, 0, 0, 0, 0, 0]),
    (8352, [4, 0, 6, 0] ++ List.replicate 17 0 ++ [3, 2, 1])]

/-- A key in local-btree format at 8352 under a node format (at 8272) with
`key_u64s = 3` whose only field is the inode, 8 bits wide with
`field_offset = 2 ^ 64 - 8`; the last byte of the key body is 1. -/
def nodeOffsetWrap : Mem :=
  memOf [(8272, [3, 6, 8, 0, 0, 0, 0, 0] ++ leBytes 8 (2 ^ 64 - 8)),
    (8352, [4, 0, 6, 0] ++ List.replicate 19 0 ++ [1])]

/-- Node buffers for the examples: the `k`-th allocation is at
`65536 + k * 16384`. -/
def mallocEx (k : Nat) : Nat := 65536 + k * 16384

/-- The bytes of a `struct bch_btree_ptr_v2` with one extent pointer:
`sectors_written` and the device sector of the node. -/
def btreePtrV2 (sectors_written sector : Nat) : List Nat :=
  leBytes 8 0 ++ leBytes 8 0 ++ leBytes 2 sectors_written ++ leBytes 2 0 ++
    List.replicate 20 0 ++ extentPtr sector

/-- The seed scenario of interior descent, memory: the root node is loaded at
8192; its first bset (at 8328) holds the single key at 8352, of type
`btree_ptr_v2`, whose value (at 8392) points at the leaf at device sector
4096, 16 sectors long. -/
def memDescent : Mem :=
  memOf (sbBytes ++ rootPtrBytes ++
    [(8328 + 22, leBytes 2 11), (8352, currentKey 11 18 0 0 0 (btreePtrV2 16 4096))])

/-- The seed scenario of interior descent, image: the leaf at byte
`4096 * 512`; its first bset has `u64s = 18` and holds three extent keys of six
words each (40 bytes of key, one extent pointer). -/
def imageDescent : File where
  bytes := memOf [(2097152 + 136 + 22, leBytes 2 18),
    (2097152 + 160, currentKey 6 6 8 8 1 (extentPtr 8) ++ currentKey 6 6 8 16 1 (extentPtr 16) ++
      currentKey 6 6 8 24 1 (extentPtr 24))]
  len := 4194304

/-- A freshly opened iterator of tree `type` on the node loaded at 8192 from
the pointer at 6000. -/
def iterFresh (type : Nat) : Bcachefs_iterator :=
  .mk { type := type, jset_entry := 5000, btree_ptr := 6000, bset := NULL, bkey := NULL,
        bch_val := NULL, btree_node := 8192 } none

/-- A leaf node at 8192 whose node format (at 8272) has `key_u64s = 2` with one
byte each for inode, offset and size; its only bset (at 8328) has `u64s = 3`,
and its payload, the bytes 8352 to 8376, is one key of three words: two words
of key (`size = 8`, `p.offset = 8`, `p.inode = 1`, type extent) and one extent
pointer at 8368. -/
def memShortKey : Mem :=
  memOf (sbBytes ++ rootPtrBytes ++
    [(8272, [2, 6, 8, 8, 0, 8, 0, 0]), (8328 + 22, leBytes 2 3),
     (8352, [3, 0, 6, 0] ++ List.replicate 9 0 ++ [8, 8, 1] ++ extentPtr 8)])

/-- The handle of the examples: the image `imageDescent`, the superblock at
4096. -/
def handleEx : Handle := ⟨some imageDescent, 4194304, 4096⟩

/-- The values a child iterator opened on the value at 8392 of `memDescent`
(the pointer to the leaf) returns on its own in `n` calls. -/
def leafValuesDescent (n : Nat) : Option (List Nat) :=
  match Bcachefs_next_iter hdr mallocEx handleEx ⟨memDescent, 0⟩
      (iterFresh hdr.BTREE_ID_extents) 8392 with
  | (_, w, .mk _ (some child)) => iter_next_values hdr mallocEx handleEx 40 n w child
  | _ => none

/-- A journal entry of type `btree_root` for tree `id`, holding a key in the
current format of `u64s` words followed by the value bytes. -/
def rootEntry (id u64s : Nat) (value : List Nat) : List Nat :=
  leBytes 4 (1 + u64s) ++ [id, 0, 1, 0] ++ currentKey u64s 18 0 0 0 value

/-- A journal entry of another type (`type` 0), one word long. -/
def otherEntry : List Nat := leBytes 4 1 ++ [0, 0, 0, 0]

/-- A superblock at 4096 with `u64s = 200` whose first field, at byte 752, is
the clean field: after its 24 header bytes come an entry of type 0, the root
entry of tree 1 and the root entry of tree 0 (extents); the latter's key (at
4984) has one pointer to a node of `sectors` sectors at device sector
`sector`. -/
def sbClean (sectors sector : Nat) : List (Nat × List Nat) :=
  [(4096 + 24,
      [198, 133, 115, 246, 78, 26, 69, 202, 130, 101, 245, 127, 72, 186, 109, 129]),
   (4096 + 120, leBytes 2 1), (4096 + 124, leBytes 4 200), (4096 + 144, leBytes 8 (16 * 4096)),
   (4096 + 752, leBytes 4 (3 + 1 + 12 + 12) ++ leBytes 4 6 ++ List.replicate 16 0 ++
      otherEntry ++ rootEntry 1 11 (btreePtrV2 16 2048) ++
      rootEntry 0 11 (btreePtrV2 sectors sector))]

/-- An iterator state with every member null, of tree `type`. -/
def stateNull (type : Nat) : IterState :=
  { type := type, jset_entry := NULL, btree_ptr := NULL, bset := NULL, bkey := NULL,
    bch_val := NULL, btree_node := NULL }

/-- A journal root entry at 5000 whose key (at 5008, `u64s = 16`) is followed by
values: the word after the first candidate (at 5048 + 40) has the `unused` bit
set, the word after the second candidate (at 5088 + 40) has not. -/
def memTwoPtrs : Mem :=
  memOf [(5000, leBytes 4 17 ++ [0, 0, 1, 0] ++ currentKey 16 18 0 0 0 []),
    (5048 + 40, leBytes 8 (2048 * 16 + 4 + 1)), (5088 + 40, leBytes 8 (4096 * 16 + 1))]

/-- Memory holding the superblock `sbClean` whose extents root points at a node
of 16 sectors at device sector 4096. -/
def memClean : Mem := memOf (sbClean 16 4096)

/-- The iterator state `Bcachefs_iter_fini` leaves: type `BTREE_ID_NR`, every
other member null, no child. -/
def iterClosed (h : Header) : Bcachefs_iterator :=
  .mk { type := h.BTREE_ID_NR, jset_entry := NULL, btree_ptr := NULL, bset := NULL,
        bkey := NULL, bch_val := NULL, btree_node := NULL } none

/-- The seed scenario of directory entries: a dirents leaf at 8192 whose first
key (at 8352, current format, `p.inode = 100`) has as value (at 8392) the
directory entry `{d_inum = 200, d_type = 8, d_name = "a"}`. -/
def nodeDirent : Mem :=
  memOf (sbBytes ++ rootPtrBytes ++
    [(8328 + 22, leBytes 2 7),
     (8352, currentKey 7 10 0 0 100 (leBytes 8 200 ++ [8, 97, 0, 0, 0, 0, 0, 0]))])

/-- The iterator standing on the key of `nodeDirent`, below a parent that
stands elsewhere. -/
def iterDirent : Bcachefs_iterator :=
  .mk { type := 2, jset_entry := 5000, btree_ptr := 6000, bset := 70000, bkey := 70024,
        bch_val := 70064, btree_node := 69864 }
    (some (.mk
      { type := 2, jset_entry := NULL, btree_ptr := 70064, bset := 8328, bkey := 8352,
        bch_val := 8392, btree_node := 8192 } none))

/-- The memory `memClean` with the byte at address 8 changed to 7. -/
def memCleanPoked : Mem := fun a => if a = 8 then 7 else memClean a

/-- Memory holding the superblock `sbClean` whose extents root points at a node
of 16 sectors at device sector 100000, past the end of the 4 MiB image. -/
def memCleanFar : Mem := memOf (sbClean 16 100000)

/-- What `Bcachefs_iter` returns and the scalar members it leaves, for a closed
iterator opened on tree `type` over memory `m`. -/
def iterOpened (m : Mem) (type : Nat) : Option (Nat × IterState) :=
  (Bcachefs_iter hdr mallocEx 200 handleEx ⟨m, 0⟩ (iterClosed hdr) type).map
    fun r => (r.1, r.2.2.s)

/-- An image of 8192 bytes whose superblock at sector 8 has `u64s = 2` and a
magic that is not `BCACHE_MAGIC` (its first byte is 0). -/
def imageBadMagic : File where
  bytes := memOf [(4096 + 24,
      [0, 133, 115, 246, 78, 26, 69, 202, 130, 101, 245, 127, 72, 186, 109, 129]),
    (4096 + 124, leBytes 4 2)]
  len := 8192

/-- The same image with the magic of the format. -/
def imageGoodMagic : File where
  bytes := memOf [(4096 + 24,
      [198, 133, 115, 246, 78, 26, 69, 202, 130, 101, 245, 127, 72, 186, 109, 129]),
    (4096 + 124, leBytes 4 2)]
  len := 8192

/-- A closed handle. -/
def handleClosed : Handle := { fp := none, size := 0, sb := NULL }

/-- An empty heap: zero memory, no block handed out. -/
def heapEmpty : Heap := { mem := fun _ => 0, live := [], nalloc := 0 }

/-- What `Bcachefs_open` returns and the handle it leaves (is the file open, the
size, the superblock pointer), for a closed handle and an empty heap. -/
def openOutcome (zero : ReallocZero) (image : File) : Option (Nat × Bool × Nat × Nat) :=
  (Bcachefs_open hdr zero mallocEx (some image) handleClosed heapEmpty).map
    fun r => (r.1, r.2.1.fp.isSome, r.2.1.size, r.2.1.sb)

/-- A node at address 8192 read from two sectors (it ends at 9216), block size
512: its first bset, at `&node->keys` (8328, offset 136), has `u64s = 44`, so
its keys end at offset 136 + 24 + 44 * 8 = 512 of the node, on a block
boundary; the second bset follows the checksum that starts there, at
8192 + 512 + 16 = 8720, and has `u64s = 3`. -/
def nodeAlignedEnd : Mem :=
  memOf [(4096 + 120, leBytes 2 1), (8328 + 22, leBytes 2 44), (8720 + 22, leBytes 2 3)]

/-- The key and node format of `nodeOffsetWrap` with `field_offset` one less,
`2 ^ 64 - 9`. -/
def nodeOffsetBelow : Mem :=
  memOf [(8272, [3, 6, 8, 0, 0, 0, 0, 0] ++ leBytes 8 (2 ^ 64 - 9)),
    (8352, [4, 0, 6, 0] ++ List.replicate 19 0 ++ [1])]

/-- Regions whose first element has length 0: the superblock at 4096 has
`u64s = 200` and nothing but zeros in its field region (which starts at 4848);
the field at 20000 has `u64s = 10` and zeros after its header; the first bset
(at 8328) of the node at 8192 has `u64s = 10` and zeros as its keys. -/
def memZeroLength : Mem :=
  memOf (sbBytes ++ rootPtrBytes ++
    [(4096 + 124, leBytes 4 200), (8328 + 22, leBytes 2 10), (20000, leBytes 4 10)])

/-- Memory whose bytes 1000 to 1007 hold `2 ^ 61` as a 64-bit length. -/
def memLength61 : Mem := fun a => if a = 1007 then 32 else 0

/-- Memory whose bytes 5000 to 5007 hold `2 ^ 64 - 1` as a 64-bit length. -/
def memLengthMax : Mem := fun a => if 5000 ≤ a ∧ a < 5008 then 255 else 0

/-- Memory whose byte 1000 holds the length 3. -/
def memLength3 : Mem := fun a => if a = 1000 then 3 else 0

/-- A superblock at 4096 with the magic of the format and `u64s = 15`: its field
region, the 120 bytes from byte 752 (address 4848), is one field of 15 words
of type 6 (clean) that holds, after its 24 header bytes, the root entry of
tree 0 (extents) at 4872. -/
def memCleanSmall : Mem :=
  memOf [(4096 + 24,
      [198, 133, 115, 246, 78, 26, 69, 202, 130, 101, 245, 127, 72, 186, 109, 129]),
    (4096 + 120, leBytes 2 1), (4096 + 124, leBytes 4 15), (4096 + 144, leBytes 8 (16 * 4096)),
    (4096 + 752, leBytes 4 15 ++ leBytes 4 6 ++ List.replicate 16 0 ++
      rootEntry 0 11 (btreePtrV2 16 4096))]

/-- The memory `memCleanSmall` with two bytes of the page at address 0 changed:
byte 0 to 10 and byte 30 to 1. -/
def memCleanSmallPoked : Mem :=
  fun a => if a = 0 then 10 else if a = 30 then 1 else memCleanSmall a

/-- An iterator of tree 1 on the node loaded at 8192, in its first bset (8328),
before the first key. -/
def iterOtherTree : Bcachefs_iterator :=
  .mk { type := 1, jset_entry := 5000, btree_ptr := 6000, bset := 8328, bkey := NULL,
        bch_val := NULL, btree_node := 8192 } none

theorem read_u64s_eq_loadLE (m : Mem) (c : Nat) (spec : u64s_spec)
    (h : spec.size = 1 ∨ spec.size = 2 ∨ spec.size = 4 ∨ spec.size = 8) :
    read_u64s m c spec = loadLE m c spec.size := by
  rcases h with h | h | h | h <;> simp [read_u64s, h]

/-- While its two pointer additions stay below `2 ^ 64`, the walker on natural
numbers is the walker on 64-bit addresses. -/
theorem next_sibling_ptr64_eq (m : Mem) (p sizeof_p p_end c : Nat) (spec : u64s_spec)
    (hfit : (if c = NULL then p + sizeof_p
      else c + ((read_u64s m c spec + spec.start) % 2 ^ 64 * BCH_U64S_SIZE) % 2 ^ 64) < 2 ^ 64) :
    benz_bch_next_sibling_ptr64 m p sizeof_p p_end c spec =
      benz_bch_next_sibling m p sizeof_p p_end c spec := by
  simp only [benz_bch_next_sibling_ptr64, benz_bch_next_sibling, ptr_add]
  by_cases hc : c = NULL
  · simp only [hc, if_true] at hfit ⊢
    rw [Nat.mod_eq_of_lt hfit]
  · simp only [hc, if_false] at hfit ⊢
    rw [Nat.mod_eq_of_lt hfit]

/-- C4 (as stated, refuted), on 64-bit addresses.  With an 8-byte length prefix
holding `L = 2 ^ 61` the product `L * 8` wraps to 0 in `uint64_t`, so the code
returns the current element again, while the reference walker, advancing by
`(L + start) * 8` bytes, is past the end and returns null.  With
`L = 2 ^ 64 - 1` at address 5000 the product is `2 ^ 64 - 8` and the pointer
addition wraps: the code returns 4992, the reference walker null. -/
theorem C4_next_sibling_counterexample :
    (loadLE memLength61 1000 8 = 2 ^ 61 ∧
     benz_bch_next_sibling_ptr64 memLength61 900 100 2000 1000 ⟨8, 0⟩ = 1000 ∧
     reference_next_sibling memLength61 900 100 2000 1000 ⟨8, 0⟩ = NULL) ∧
    (loadLE memLengthMax 5000 8 = 2 ^ 64 - 1 ∧
     benz_bch_next_sibling_ptr64 memLengthMax 4900 100 6000 5000 ⟨8, 0⟩ = 4992 ∧
     reference_next_sibling memLengthMax 4900 100 6000 5000 ⟨8, 0⟩ = NULL) := by
  decide

/-- C4 (amended): for a width in {1, 2, 4, 8}, `benz_bch_next_sibling` on 64-bit
addresses takes as candidate `base + header_size` when `current` is null and
otherwise `current + (L + start) * 8`, `L` being the little-endian integer of
`spec.size` bytes at `current`, both modulo `2 ^ 64`; it returns the candidate
when it is before `end` and null otherwise.  Hence it equals the reference
walker whenever the reference walker's candidate is below `2 ^ 64`. -/
theorem C4_next_sibling_amended (m : Mem) (base header_size end_ current : Nat)
    (spec : u64s_spec)
    (hsize : spec.size = 1 ∨ spec.size = 2 ∨ spec.size = 4 ∨ spec.size = 8) :
    benz_bch_next_sibling_ptr64 m base header_size end_ current spec =
      (let candidate :=
        if current = NULL then (base + header_size) % 2 ^ 64
        else (current + (loadLE m current spec.size + spec.start) * 8) % 2 ^ 64
       if candidate < end_ then candidate else NULL) ∧
    ((if current = NULL then base + header_size
        else current + (loadLE m current spec.size + spec.start) * 8) < 2 ^ 64 →
      benz_bch_next_sibling_ptr64 m base header_size end_ current spec =
        reference_next_sibling m base header_size end_ current spec) := by
  simp only [benz_bch_next_sibling_ptr64, reference_next_sibling, ptr_add,
    read_u64s_eq_loadLE m current spec hsize, BCH_U64S_SIZE, Nat.mod_mul_mod, Nat.add_mod_mod]
  by_cases hc : current = NULL
  · simp only [hc, if_true]
    refine ⟨?_, fun hlt => ?_⟩
    · split <;> split <;> omega
    · rw [Nat.mod_eq_of_lt hlt]
      split <;> split <;> omega
  · simp only [hc, if_false]
    refine ⟨?_, fun hlt => ?_⟩
    · split <;> split <;> omega
    · rw [Nat.mod_eq_of_lt hlt]
      split <;> split <;> omega

/-- C4 (amended), at concrete inputs: a one-byte length prefix 3 at address
1000 moves the walker to address 1024, as the reference walker; the 8-byte
prefix `2 ^ 64 - 1` at address 5000 moves it to `(5000 + (2 ^ 64 - 1) * 8) mod
2 ^ 64 = 4992`. -/
theorem C4_next_sibling_amended_witness :
    benz_bch_next_sibling_ptr64 memLength3 900 100 2000 1000 ⟨1, 0⟩ = 1024 ∧
    reference_next_sibling memLength3 900 100 2000 1000 ⟨1, 0⟩ = 1024 ∧
    benz_bch_next_sibling_ptr64 memLengthMax 4900 100 6000 5000 ⟨8, 0⟩ =
      (5000 + (2 ^ 64 - 1) * 8) % 2 ^ 64 := by
  have h := C4_next_sibling_amended memLength3 900 100 2000 1000 ⟨1, 0⟩ (Or.inl rfl)
  have h2 := C4_next_sibling_amended memLengthMax 4900 100 6000 5000 ⟨8, 0⟩
    (Or.inr (Or.inr (Or.inr rfl)))
  refine ⟨?_, ?_, ?_⟩
  · rw [h.1]; decide
  · rw [← h.2 (by decide), h.1]; decide
  · rw [h2.1]; decide

/-! ## Values of a key (C8) -/

theorem Field.get_lt (f : Field) (m : Mem) (p : Nat) : f.get m p < 2 ^ f.width :=
  Nat.mod_lt _ (Nat.pos_pow_of_pos _ (by decide))

theorem first_bch_val_eq (h : Header) (m : Mem) (k key_u64s : Nat) :
    benz_bch_first_bch_val h m k key_u64s =
      if h.bkey_u64s.get m k > key_u64s then k + key_u64s * 8 else NULL := by
  simp only [benz_bch_first_bch_val, BCH_U64S_SIZE, NULL]
  split <;> split <;> omega

theorem next_bch_val_eq (h : Header) (m : Mem) (k F : Nat) (hk : k ≠ NULL)
    (hB : h.BKEY_U64s < 256) (hF : h.format_key_u64s.width ≤ 8) :
    _Bcachefs_iter_next_bch_val h m k F =
      if h.bkey_u64s.get m k >
          (if h.bkey_format.get m k = h.KEY_FORMAT_LOCAL_BTREE then h.format_key_u64s.get m F
           else h.BKEY_U64s) then
        k + (if h.bkey_format.get m k = h.KEY_FORMAT_LOCAL_BTREE then h.format_key_u64s.get m F
           else h.BKEY_U64s) * 8
      else NULL := by
  have h1 : h.format_key_u64s.get m F < 256 :=
    lt_of_lt_of_le (Field.get_lt _ m F) (Nat.pow_le_pow_right (by decide) hF)
  simp only [_Bcachefs_iter_next_bch_val]
  rw [if_neg hk, first_bch_val_eq, Nat.mod_eq_of_lt h1, Nat.mod_eq_of_lt hB]

/-! ## The bset walker (C9) -/

theorem roundup_block (x bs : Nat) (hbs : 0 < bs) :
    x + (bs - x % bs) = (x / bs + 1) * bs := by
  have h1 := Nat.div_add_mod x bs
  have h2 := Nat.mod_lt x hbs
  have h3 : (x / bs + 1) * bs = bs * (x / bs) + bs := by ring
  omega

theorem next_bset_step_nonnull (h : Header) (m : Mem) (N node_end bs c : Nat)
    (hnn : next_bset_step h m N node_end bs c ≠ NULL) :
    next_bset_step h m N node_end bs c = next_bset_candidate h m N bs c ∧
      next_bset_candidate h m N bs c < node_end := by
  by_cases hge : next_bset_candidate h m N bs c ≥ node_end
  · simp [next_bset_step, hge] at hnn
  · have hs : next_bset_step h m N node_end bs c = next_bset_candidate h m N bs c := by
      simp only [next_bset_step, if_neg hge]
    exact ⟨hs, by omega⟩

theorem next_bset_candidate_form (h : Header) (m : Mem) (N bs c : Nat) (hbs : 0 < bs)
    (hc : c ≠ NULL) :
    c < next_bset_candidate h m N bs c ∧ ∃ k, 1 ≤ k ∧
      next_bset_candidate h m N bs c = N + (k * bs + h.sizeof_bch_csum) := by
  simp only [next_bset_candidate, if_neg hc]
  have hr := roundup_block (c - N + (h.sizeof_bset + h.bset_u64s.get m c * BCH_U64S_SIZE)) bs hbs
  have h2 := Nat.mod_lt (c - N + (h.sizeof_bset + h.bset_u64s.get m c * BCH_U64S_SIZE)) hbs
  refine ⟨?_, (c - N + (h.sizeof_bset + h.bset_u64s.get m c * BCH_U64S_SIZE)) / bs + 1,
    Nat.le_add_left 1 _, ?_⟩
  · generalize (c - N + (h.sizeof_bset + h.bset_u64s.get m c * BCH_U64S_SIZE)) % bs = r at h2 ⊢
    generalize h.bset_u64s.get m c * BCH_U64S_SIZE = u
    have hc0 : c ≠ 0 := hc
    omega
  · rw [← hr]
    omega

theorem next_bset_loop_succ (h : Header) (m : Mem) (N node_end bs fuel c : Nat) :
    next_bset_loop h m N node_end bs (fuel + 1) c =
      if next_bset_step h m N node_end bs c ≠ NULL ∧
          h.bset_u64s.get m (next_bset_step h m N node_end bs c) = 0 then
        next_bset_loop h m N node_end bs fuel (next_bset_step h m N node_end bs c)
      else some (next_bset_step h m N node_end bs c) := rfl

theorem next_bset_loop_form (h : Header) (m : Mem) (N node_end bs : Nat) (hbs : 0 < bs) :
    ∀ (fuel c r : Nat), next_bset_loop h m N node_end bs fuel c = some r → r ≠ NULL →
      (c = NULL ∧ r = N + h.btree_node_keys) ∨
      ∃ k, 1 ≤ k ∧ r = N + (k * bs + h.sizeof_bch_csum) := by
  intro fuel
  induction fuel with
  | zero => intro c r hr; simp [next_bset_loop] at hr
  | succ n ih =>
    intro c r hr hnn
    rw [next_bset_loop_succ] at hr
    split at hr
    · rename_i hcont
      rcases ih _ r hr hnn with ⟨h0, _⟩ | hk
      · exact absurd h0 hcont.1
      · exact Or.inr hk
    · have hr' : next_bset_step h m N node_end bs c = r := by simpa using hr
      have hnn' : next_bset_step h m N node_end bs c ≠ NULL := by rw [hr']; exact hnn
      have hs := (next_bset_step_nonnull h m N node_end bs c hnn').1
      by_cases hc : c = NULL
      · left
        refine ⟨hc, ?_⟩
        rw [← hr', hs, hc]
        simp [next_bset_candidate]
      · right
        obtain ⟨_, k, hk, hform⟩ := next_bset_candidate_form h m N bs c hbs hc
        exact ⟨k, hk, by rw [← hr', hs, hform]⟩

theorem next_bset_loop_terminates (h : Header) (m : Mem) (N node_end bs : Nat) (hbs : 0 < bs) :
    ∀ (n c : Nat), c ≠ NULL → node_end < n + 1 + c →
      ∃ r, next_bset_loop h m N node_end bs (n + 1) c = some r := by
  intro n
  induction n with
  | zero =>
    intro c hc hlt
    rw [next_bset_loop_succ]
    split
    · rename_i hcont
      obtain ⟨hs, hlt'⟩ := next_bset_step_nonnull h m N node_end bs c hcont.1
      have hgt := (next_bset_candidate_form h m N bs c hbs hc).1
      omega
    · exact ⟨_, rfl⟩
  | succ n ih =>
    intro c hc hlt
    rw [next_bset_loop_succ]
    split
    · rename_i hcont
      obtain ⟨hs, hlt'⟩ := next_bset_step_nonnull h m N node_end bs c hcont.1
      have hgt := (next_bset_candidate_form h m N bs c hbs hc).1
      exact ih _ hcont.1 (by omega)
    · exact ⟨_, rfl⟩

/-- The loop of `benz_bch_next_bset` ends within the `p_end + 1` iterations the
model gives it, whatever the node holds, when the block size is positive. -/
theorem next_bset_loop_total (h : Header) (m : Mem) (N node_end c sb : Nat)
    (hbs : 0 < benz_bch_get_block_size h m sb) :
    ∃ r, benz_bch_next_bset h m N node_end c sb = some r := by
  unfold benz_bch_next_bset
  rw [next_bset_loop_succ]
  split
  · rename_i hcont
    obtain ⟨hs, hlt⟩ := next_bset_step_nonnull h m N node_end _ c hcont.1
    have hpos : next_bset_step h m N node_end (benz_bch_get_block_size h m sb) c ≠ 0 := hcont.1
    have key : ∀ f n, f = n + 1 → node_end < f +
        next_bset_step h m N node_end (benz_bch_get_block_size h m sb) c →
        ∃ r, next_bset_loop h m N node_end (benz_bch_get_block_size h m sb) f
          (next_bset_step h m N node_end (benz_bch_get_block_size h m sb) c) = some r := by
      intro f n hf hlt2
      subst hf
      exact next_bset_loop_terminates h m N node_end _ hbs n _ hcont.1 hlt2
    exact key node_end (node_end - 1) (by omega) (by omega)
  · exact ⟨_, rfl⟩

/-- C9: with a positive block size, a non-null bset returned by
`benz_bch_next_bset` starts at `N.keys`, and then `c` was null, or at an offset
`k * block_size + sizeof(struct bch_csum)` from the node `N` with `k ≥ 1`. -/
theorem C9_bset_alignment (h : Header) (m : Mem) (N node_end c sb r : Nat)
    (hbs : 0 < benz_bch_get_block_size h m sb)
    (hr : benz_bch_next_bset h m N node_end c sb = some r) (hnn : r ≠ NULL) :
    (c = NULL ∧ r = N + h.btree_node_keys) ∨
    ∃ k, 1 ≤ k ∧ r = N + (k * benz_bch_get_block_size h m sb + h.sizeof_bch_csum) :=
  next_bset_loop_form h m N node_end _ hbs _ c r hr hnn

/-- C9 at a concrete node: after the first bset at 8328 the walker returns the
bset at 8720 = 8192 + 1 * 512 + 16. -/
theorem C9_bset_alignment_witness :
    benz_bch_next_bset hdr nodeTwoBsets 8192 9216 8328 4096 = some 8720 ∧
    ((8328 = NULL ∧ 8720 = 8192 + hdr.btree_node_keys) ∨
     ∃ k, 1 ≤ k ∧
       8720 = 8192 + (k * benz_bch_get_block_size hdr nodeTwoBsets 4096 + hdr.sizeof_bch_csum)) :=
  ⟨by decide, C9_bset_alignment hdr nodeTwoBsets 8192 9216 8328 4096 8720 (by decide) (by decide)
    (by decide)⟩

/-! ## Superblock fields (C10) -/

/-- C10 (the code at the failing input): the superblock at 4096 has `u64s = 2`,
so `benz_bch_get_sb_size` gives it 752 + 16 bytes, and its field region holds at
byte 752 one field of type 6; `benz_bch_next_sb_field` ends its walk at byte
`u64s * 8 = 16` of the superblock and returns null for type 6. -/
theorem C10_next_sb_field_misses_field :
    benz_bch_get_sb_size hdr sbOneField 4096 = 752 + 16 ∧
    hdr.sb_field_type.get sbOneField (4096 + 752) = 6 ∧
    hdr.sb_field_u64s.get sbOneField (4096 + 752) = 2 ∧
    ∀ fuel, benz_bch_next_sb_field hdr sbOneField (fuel + 1) 4096 NULL 6 = some NULL := by
  refine ⟨by decide, by decide, by decide, ?_⟩
  intro fuel
  have h1 : benz_bch_next_sibling sbOneField 4096 hdr.sizeof_bch_sb
      (4096 + hdr.sb_u64s.get sbOneField 4096 * BCH_U64S_SIZE) NULL hdr.U64S_BCH_SB_FIELD = NULL := by
    decide
  simp [benz_bch_next_sb_field, next_sb_field_loop, h1]

/-! ## The key decoder: what it keeps of the raw key -/

theorem parse_fold_inv (P : bkey_local → Prop)
    (hassign : ∀ i v r, P r → P (parse_assign i v r)) (h : Header) (m : Mem) (format : Nat) :
    ∀ (l : List Nat) (st : Nat × bkey_local), P st.2 →
      P (l.foldl (parse_field h m format) st).2 := by
  intro l
  induction l with
  | nil => intro st hst; exact hst
  | cons i l ih =>
    intro st hst
    rw [List.foldl_cons]
    apply ih
    unfold parse_field
    dsimp only
    split
    · exact hst
    · exact hassign _ _ _ hst

theorem parse_assign_type (i v : Nat) (r : bkey_local) : (parse_assign i v r).type = r.type := by
  unfold parse_assign
  repeat (first | rfl | split)

theorem parse_assign_u64s (i v : Nat) (r : bkey_local) : (parse_assign i v r).u64s = r.u64s := by
  unfold parse_assign
  repeat (first | rfl | split)

theorem parse_assign_size_lt (i v : Nat) (r : bkey_local) (hr : r.size < 2 ^ 32) :
    (parse_assign i v r).size < 2 ^ 32 := by
  unfold parse_assign
  repeat (first | exact hr | exact Nat.mod_lt _ (by decide) | split)

theorem parse_bkey_type (h : Header) (m : Mem) (k F : Nat) :
    (benz_bch_parse_bkey h m k F).type = h.bkey_type.get m k := by
  unfold benz_bch_parse_bkey
  dsimp only
  split
  · rfl
  · split
    · exact parse_fold_inv (fun r => r.type = h.bkey_type.get m k)
        (fun i v r hr => (parse_assign_type i v r).trans hr) h m F _ _ rfl
    · split <;> rfl

theorem parse_bkey_u64s (h : Header) (m : Mem) (k F : Nat) :
    (benz_bch_parse_bkey h m k F).u64s = h.bkey_u64s.get m k := by
  unfold benz_bch_parse_bkey
  dsimp only
  split
  · rfl
  · split
    · exact parse_fold_inv (fun r => r.u64s = h.bkey_u64s.get m k)
        (fun i v r hr => (parse_assign_u64s i v r).trans hr) h m F _ _ rfl
    · split <;> rfl

theorem parse_bkey_size_lt (h : Header) (m : Mem) (k F : Nat) (hw : h.bkey_size.width ≤ 32) :
    (benz_bch_parse_bkey h m k F).size < 2 ^ 32 := by
  unfold benz_bch_parse_bkey
  dsimp only
  have h0 : (0 : Nat) < 2 ^ 32 := by decide
  split
  · exact h0
  · split
    · exact parse_fold_inv (fun r => r.size < 2 ^ 32)
        (fun i v r hr => parse_assign_size_lt i v r hr) h m F _ _ h0
    · split
      · exact lt_of_lt_of_le (Field.get_lt _ m k) (Nat.pow_le_pow_right (by decide) hw)
      · exact h0

/-! ## Extent records (C5, C6, C7) -/

theorem mul_sub64_cast (a b : Nat) :
    (((sub64 a b * 512) % 2 ^ 64 : Nat) : ℤ) = ((a : ℤ) - b) * 512 % 2 ^ 64 := by
  unfold sub64
  push_cast
  omega

/-- The record `Bcachefs_iter_make_extent` builds for a key of type extent that
has a value. -/
theorem make_extent_of_extent (h : Header) (m : Mem) (iter : Bcachefs_iterator)
    (hne : h.KEY_TYPE_extent ≠ h.KEY_TYPE_inline_data)
    (hv : iter.deepest.bch_val ≠ NULL)
    (ht : h.bkey_type.get m iter.deepest.bkey = h.KEY_TYPE_extent) :
    Bcachefs_iter_make_extent h m iter =
      { inode := (benz_bch_parse_bkey h m iter.deepest.bkey
          (iter.deepest.btree_node + h.btree_node_format)).p_inode
        file_offset := (sub64 (benz_bch_parse_bkey h m iter.deepest.bkey
            (iter.deepest.btree_node + h.btree_node_format)).p_offset
          (benz_bch_parse_bkey h m iter.deepest.bkey
            (iter.deepest.btree_node + h.btree_node_format)).size * 512) % 2 ^ 64
        offset := (h.extent_ptr_offset.get m iter.deepest.bch_val * 512) % 2 ^ 64
        size := ((benz_bch_parse_bkey h m iter.deepest.bkey
          (iter.deepest.btree_node + h.btree_node_format)).size * 512) % 2 ^ 64 } := by
  have ht' := parse_bkey_type h m iter.deepest.bkey (iter.deepest.btree_node + h.btree_node_format)
  rw [ht] at ht'
  simp only [Bcachefs_iter_make_extent, benz_bch_file_offset_size, ht', hne, hv, ne_eq,
    not_false_eq_true, and_self, if_true, if_false, benz_bch_get_extent_offset, BCH_SECTOR_SIZE]

/-- C5: for an iterator (with any chain of children) whose deepest level stands
on a key of type extent with first value `v`, `Bcachefs_iter_make_extent`
returns `inode = key.p.inode`, `file_offset = (key.p.offset - key.size) * 512`
as a 64-bit value, `offset = v.offset * 512` and `size = key.size * 512`, where
`key` is the decoded logical key; `key.size` is a 32-bit member and `v.offset`
a bit-field of at most 44 bits. -/
theorem C5_make_extent (h : Header) (m : Mem) (iter : Bcachefs_iterator)
    (hne : h.KEY_TYPE_extent ≠ h.KEY_TYPE_inline_data)
    (hsize : h.bkey_size.width ≤ 32) (hoff : h.extent_ptr_offset.width ≤ 44)
    (hv : iter.deepest.bch_val ≠ NULL)
    (ht : h.bkey_type.get m iter.deepest.bkey = h.KEY_TYPE_extent) :
    let key := benz_bch_parse_bkey h m iter.deepest.bkey
      (iter.deepest.btree_node + h.btree_node_format)
    let E := Bcachefs_iter_make_extent h m iter
    E.inode = key.p_inode ∧
    (E.file_offset : ℤ) = ((key.p_offset : ℤ) - key.size) * 512 % 2 ^ 64 ∧
    E.offset = h.extent_ptr_offset.get m iter.deepest.bch_val * 512 ∧
    E.size = key.size * 512 := by
  intro key E
  have hE : E = _ := make_extent_of_extent h m iter hne hv ht
  have h1 : key.size < 2 ^ 32 := parse_bkey_size_lt h m _ _ hsize
  have h2 : h.extent_ptr_offset.get m iter.deepest.bch_val < 2 ^ 44 :=
    lt_of_lt_of_le (Field.get_lt _ m _) (Nat.pow_le_pow_right (by decide) hoff)
  rw [hE]
  refine ⟨rfl, mul_sub64_cast _ _, ?_, ?_⟩
  · show (h.extent_ptr_offset.get m iter.deepest.bch_val * 512) % 2 ^ 64 = _
    omega
  · show (key.size * 512) % 2 ^ 64 = _
    omega

/-- C5 at the seed scenario: the key `{p.inode = 1, p.offset = 8, size = 8}` with
`v.offset = 8` gives `{inode = 1, file_offset = 0, offset = 4096, size = 4096}`. -/
theorem C5_make_extent_witness :
    Bcachefs_iter_make_extent hdr nodeOneExtent iterOneExtent = ⟨1, 0, 4096, 4096⟩ ∧
    (let key := benz_bch_parse_bkey hdr nodeOneExtent iterOneExtent.deepest.bkey
      (iterOneExtent.deepest.btree_node + hdr.btree_node_format)
     let E := Bcachefs_iter_make_extent hdr nodeOneExtent iterOneExtent
     E.inode = key.p_inode ∧
     (E.file_offset : ℤ) = ((key.p_offset : ℤ) - key.size) * 512 % 2 ^ 64 ∧
     E.offset = hdr.extent_ptr_offset.get nodeOneExtent iterOneExtent.deepest.bch_val * 512 ∧
     E.size = key.size * 512) :=
  ⟨by decide, C5_make_extent hdr nodeOneExtent iterOneExtent (by decide) (by decide) (by decide)
    (by decide) (by decide)⟩

/-- C6 (as stated, refuted): for the inline-data key of the seed scenario
(`p.offset = 1`, `size = 1`, `u64s = 5`, a 3-word body) the record has
`file_offset = 0` and `size = 16`, the bytes of the value region, so
`file_offset + size` is 16 and not `p.offset * 512 = 512`. -/
theorem C6_inline_data_counterexample :
    hdr.bkey_type.get nodeInline iterInline.deepest.bkey = hdr.KEY_TYPE_inline_data ∧
    (benz_bch_parse_bkey hdr nodeInline iterInline.deepest.bkey
      (iterInline.deepest.btree_node + hdr.btree_node_format)).p_offset = 1 ∧
    (benz_bch_parse_bkey hdr nodeInline iterInline.deepest.bkey
      (iterInline.deepest.btree_node + hdr.btree_node_format)).size = 1 ∧
    (Bcachefs_iter_make_extent hdr nodeInline iterInline).file_offset +
      (Bcachefs_iter_make_extent hdr nodeInline iterInline).size = 16 ∧
    ((Bcachefs_iter_make_extent hdr nodeInline iterInline).file_offset +
      (Bcachefs_iter_make_extent hdr nodeInline iterInline).size) % 2 ^ 64 ≠
      ((benz_bch_parse_bkey hdr nodeInline iterInline.deepest.bkey
        (iterInline.deepest.btree_node + hdr.btree_node_format)).p_offset * 512) % 2 ^ 64 := by
  decide

/-- C6 (amended): for every record `E` that `Bcachefs_iter_make_extent` returns
for a key of type extent that has a value (any `p.offset`, any `size`),
`E.file_offset + E.size == key.p.offset * 512` in 64-bit arithmetic. -/
theorem C6_extent_end (h : Header) (m : Mem) (iter : Bcachefs_iterator)
    (hne : h.KEY_TYPE_extent ≠ h.KEY_TYPE_inline_data)
    (hv : iter.deepest.bch_val ≠ NULL)
    (ht : h.bkey_type.get m iter.deepest.bkey = h.KEY_TYPE_extent) :
    ((Bcachefs_iter_make_extent h m iter).file_offset +
      (Bcachefs_iter_make_extent h m iter).size) % 2 ^ 64 =
    ((benz_bch_parse_bkey h m iter.deepest.bkey
      (iter.deepest.btree_node + h.btree_node_format)).p_offset * 512) % 2 ^ 64 := by
  rw [make_extent_of_extent h m iter hne hv ht]
  simp only [sub64]
  omega

/-- C6 (amended) at the seed scenario of one extent: `0 + 4096 = 8 * 512`. -/
theorem C6_extent_end_witness :
    (Bcachefs_iter_make_extent hdr nodeOneExtent iterOneExtent).file_offset = 0 ∧
    (Bcachefs_iter_make_extent hdr nodeOneExtent iterOneExtent).size = 4096 ∧
    ((Bcachefs_iter_make_extent hdr nodeOneExtent iterOneExtent).file_offset +
      (Bcachefs_iter_make_extent hdr nodeOneExtent iterOneExtent).size) % 2 ^ 64 =
    ((benz_bch_parse_bkey hdr nodeOneExtent iterOneExtent.deepest.bkey
      (iterOneExtent.deepest.btree_node + hdr.btree_node_format)).p_offset * 512) % 2 ^ 64 :=
  ⟨by decide, by decide,
    C6_extent_end hdr nodeOneExtent iterOneExtent (by decide) (by decide) (by decide)⟩

/-- The record `Bcachefs_iter_make_extent` builds for a key of type inline_data
that has a value. -/
theorem make_extent_of_inline (h : Header) (m : Mem) (iter : Bcachefs_iterator)
    (hne : h.KEY_TYPE_extent ≠ h.KEY_TYPE_inline_data)
    (hv : iter.deepest.bch_val ≠ NULL)
    (ht : h.bkey_type.get m iter.deepest.bkey = h.KEY_TYPE_inline_data) :
    Bcachefs_iter_make_extent h m iter =
      { inode := (benz_bch_parse_bkey h m iter.deepest.bkey
          (iter.deepest.btree_node + h.btree_node_format)).p_inode
        file_offset := (sub64 (benz_bch_parse_bkey h m iter.deepest.bkey
            (iter.deepest.btree_node + h.btree_node_format)).p_offset
          (benz_bch_parse_bkey h m iter.deepest.bkey
            (iter.deepest.btree_node + h.btree_node_format)).size * 512) % 2 ^ 64
        offset := (sub64 iter.deepest.bch_val iter.deepest.btree_node +
          (h.extent_ptr_offset.get m (iter.deepest.btree_ptr + h.ptr_start) * 512) % 2 ^ 64)
            % 2 ^ 64
        size := sub64 ((h.bkey_u64s.get m iter.deepest.bkey * 8) % 2 ^ 64)
          (sub64 iter.deepest.bch_val iter.deepest.bkey) } := by
  have ht' := parse_bkey_type h m iter.deepest.bkey (iter.deepest.btree_node + h.btree_node_format)
  have hu := parse_bkey_u64s h m iter.deepest.bkey (iter.deepest.btree_node + h.btree_node_format)
  rw [ht] at ht'
  simp only [Bcachefs_iter_make_extent, benz_bch_file_offset_size, ht', hu, hne.symm, hv, ne_eq,
    not_false_eq_true, and_self, and_true, and_false, if_true, if_false,
    benz_bch_get_extent_offset, benz_bch_inline_data_offset, BCH_SECTOR_SIZE, BCH_U64S_SIZE]

theorem btree_node_size_lt (h : Header) (m : Mem) (sb : Nat) :
    benz_bch_get_btree_node_size h m sb < 2 ^ 25 := by
  unfold benz_bch_get_btree_node_size BCH_SECTOR_SIZE
  omega

/-- C7: for an iterator whose deepest level stands on a key `k` of type
inline_data with its first value `v` inside the node buffer,
`Bcachefs_iter_make_extent` returns `file_offset = (p.offset - key.size) * 512`
as a 64-bit value, `offset = (v - node_base) + node_ptr.start.offset * 512` and
`size = k.u64s * 8 - (v - k)`, which is `(k.u64s - key_u64s) * 8`, the bytes of
the value region of `k`. -/
theorem C7_make_extent_inline (h : Header) (m : Mem) (iter : Bcachefs_iterator) (sb : Nat)
    (hne : h.KEY_TYPE_extent ≠ h.KEY_TYPE_inline_data)
    (hB : h.BKEY_U64s < 256) (hF : h.format_key_u64s.width ≤ 8) (hU : h.bkey_u64s.width ≤ 8)
    (hoff : h.extent_ptr_offset.width ≤ 44)
    (hk : iter.deepest.bkey ≠ NULL)
    (hpos : iter.deepest.bch_val = _Bcachefs_iter_next_bch_val h m iter.deepest.bkey
      (iter.deepest.btree_node + h.btree_node_format))
    (hv : iter.deepest.bch_val ≠ NULL)
    (hin : iter.deepest.btree_node ≤ iter.deepest.bch_val ∧
      iter.deepest.bch_val < iter.deepest.btree_node + benz_bch_get_btree_node_size h m sb)
    (ht : h.bkey_type.get m iter.deepest.bkey = h.KEY_TYPE_inline_data) :
    let k := iter.deepest.bkey
    let v := iter.deepest.bch_val
    let key := benz_bch_parse_bkey h m k (iter.deepest.btree_node + h.btree_node_format)
    let key_u64s :=
      if h.bkey_format.get m k = h.KEY_FORMAT_LOCAL_BTREE then
        h.format_key_u64s.get m (iter.deepest.btree_node + h.btree_node_format)
      else h.BKEY_U64s
    let E := Bcachefs_iter_make_extent h m iter
    (E.file_offset : ℤ) = ((key.p_offset : ℤ) - key.size) * 512 % 2 ^ 64 ∧
    E.offset = (v - iter.deepest.btree_node) +
      h.extent_ptr_offset.get m (iter.deepest.btree_ptr + h.ptr_start) * 512 ∧
    E.size = h.bkey_u64s.get m k * 8 - (v - k) ∧
    E.size = (h.bkey_u64s.get m k - key_u64s) * 8 := by
  intro k v key key_u64s E
  have hE : E = _ := make_extent_of_inline h m iter hne hv ht
  have hval := next_bch_val_eq h m k (iter.deepest.btree_node + h.btree_node_format) hk hB hF
  have hu : h.bkey_u64s.get m k < 2 ^ 8 :=
    lt_of_lt_of_le (Field.get_lt _ m _) (Nat.pow_le_pow_right (by decide) hU)
  have ho : h.extent_ptr_offset.get m (iter.deepest.btree_ptr + h.ptr_start) < 2 ^ 44 :=
    lt_of_lt_of_le (Field.get_lt _ m _) (Nat.pow_le_pow_right (by decide) hoff)
  have hns := btree_node_size_lt h m sb
  have hvk : v = k + key_u64s * 8 ∧ key_u64s < h.bkey_u64s.get m k := by
    have hv' : v = _ := hpos
    rw [hval] at hv'
    by_cases hgt : h.bkey_u64s.get m k > key_u64s
    · rw [if_pos hgt] at hv'
      exact ⟨hv', hgt⟩
    · rw [if_neg hgt] at hv'
      exact absurd hv' hv
  obtain ⟨hv1, hv2⟩ := hvk
  have hin1 : iter.deepest.btree_node ≤ v := hin.1
  have hin2 : v < iter.deepest.btree_node + benz_bch_get_btree_node_size h m sb := hin.2
  rw [hE]
  refine ⟨mul_sub64_cast _ _, ?_, ?_, ?_⟩
  · show (sub64 v iter.deepest.btree_node + _ % 2 ^ 64) % 2 ^ 64 = _
    unfold sub64
    omega
  · show sub64 ((h.bkey_u64s.get m k * 8) % 2 ^ 64) (sub64 v k) = _
    unfold sub64
    omega
  · show sub64 ((h.bkey_u64s.get m k * 8) % 2 ^ 64) (sub64 v k) = _
    unfold sub64
    omega

/-- C7 at the seed scenario: `u64s = 5` with a 3-word key body gives size 16, at
offset 184 of the node, whose device offset is 2048 sectors. -/
theorem C7_make_extent_inline_witness :
    Bcachefs_iter_make_extent hdr nodeInline iterInline = ⟨2, 0, 184 + 2048 * 512, 16⟩ ∧
    (let k := iterInline.deepest.bkey
     let v := iterInline.deepest.bch_val
     let key := benz_bch_parse_bkey hdr nodeInline k
       (iterInline.deepest.btree_node + hdr.btree_node_format)
     let key_u64s :=
       if hdr.bkey_format.get nodeInline k = hdr.KEY_FORMAT_LOCAL_BTREE then
         hdr.format_key_u64s.get nodeInline (iterInline.deepest.btree_node + hdr.btree_node_format)
       else hdr.BKEY_U64s
     let E := Bcachefs_iter_make_extent hdr nodeInline iterInline
     (E.file_offset : ℤ) = ((key.p_offset : ℤ) - key.size) * 512 % 2 ^ 64 ∧
     E.offset = (v - iterInline.deepest.btree_node) +
       hdr.extent_ptr_offset.get nodeInline (iterInline.deepest.btree_ptr + hdr.ptr_start) * 512 ∧
     E.size = hdr.bkey_u64s.get nodeInline k * 8 - (v - k) ∧
     E.size = (hdr.bkey_u64s.get nodeInline k - key_u64s) * 8) :=
  ⟨by decide, C7_make_extent_inline hdr nodeInline iterInline 4096 (by decide) (by decide)
    (by decide) (by decide) (by decide) (by decide) (by decide) (by decide) (by decide)
    (by decide)⟩

/-! ## Packed-key decoding (C3) -/

theorem loadLE_lt (m : Mem) : ∀ (n a : Nat), loadLE m a n < 256 ^ n := by
  intro n
  induction n with
  | zero => intro a; simp [loadLE]
  | succ n ih =>
    intro a
    have h1 := ih (a + 1)
    have h2 : byteAt m a < 256 := Nat.mod_lt _ (by decide)
    rw [loadLE, pow_succ]
    omega

theorem parse_assign_field (n i v : Nat) (r : bkey_local) (hn : n < 6) (hi : i < 6) :
    (parse_assign n v r).field i =
      if i = n then (if n = 2 ∨ n = 3 ∨ n = 4 then v % 2 ^ 32 else v) else r.field i := by
  interval_cases n <;> interval_cases i <;> simp [parse_assign, bkey_local.field]

theorem uintXX_eq_loadLE (m : Mem) (a bits : Nat)
    (hb : bits = 8 ∨ bits = 16 ∨ bits = 32 ∨ bits = 64) :
    benz_uintXX_as_uint64 m a bits = loadLE m a (bits / 8) := by
  rcases hb with hb | hb | hb | hb <;> subst hb <;> simp [benz_uintXX_as_uint64]

/-- The loop invariant of the field loop of `benz_bch_parse_bkey`. -/
theorem parse_fold_spec (h : Header) (m : Mem) (k F : Nat) (ret : bkey_local)
    (hw : ∀ i, i < 6 →
      (format_bits_per_field h m F i = 0 ∨ format_bits_per_field h m F i = 8 ∨
        format_bits_per_field h m F i = 16 ∨ format_bits_per_field h m F i = 32 ∨
        format_bits_per_field h m F i = 64) ∧
      format_field_offset h m F i + format_bits_per_field h m F i ≠ 2 ^ 64) :
    ∀ n, n ≤ 6 →
      ((List.range n).foldl (parse_field h m F) (k + h.format_key_u64s.get m F * 8, ret)).1 =
        k + h.format_key_u64s.get m F * 8 - spec_bytes_before h m F n ∧
      ∀ i, i < n → spec_field_present h m F i →
        ((List.range n).foldl (parse_field h m F) (k + h.format_key_u64s.get m F * 8, ret)).2.field i
          = spec_field_value h m k F i := by
  intro n
  induction n with
  | zero => intro _; exact ⟨by simp [spec_bytes_before], fun i hi => absurd hi (Nat.not_lt_zero i)⟩
  | succ n ih =>
    intro hn
    obtain ⟨ih1, ih2⟩ := ih (by omega)
    obtain ⟨hwid, hsum⟩ := hw n (by omega)
    have hoff : format_field_offset h m F n < 2 ^ 64 := by
      have := loadLE_lt m 8 (F + h.format_field_offset + 8 * n)
      simpa [format_field_offset] using this
    rw [List.range_succ, List.foldl_append, List.foldl_cons, List.foldl_nil]
    generalize (List.range n).foldl (parse_field h m F) (k + h.format_key_u64s.get m F * 8, ret)
      = st at ih1 ih2 ⊢
    by_cases hp : spec_field_present h m F n
    · -- the field is present: the code does not skip it
      have hne : ¬ (format_field_offset h m F n + format_bits_per_field h m F n) % 2 ^ 64 = 0 := by
        unfold spec_field_present at hp
        omega
      have hstep : parse_field h m F st n =
          (st.1 - format_bits_per_field h m F n / 8,
           parse_assign n
            (if format_bits_per_field h m F n ≠ 0 then
              (format_field_offset h m F n +
                benz_uintXX_as_uint64 m (st.1 - format_bits_per_field h m F n / 8)
                  (format_bits_per_field h m F n)) % 2 ^ 64
             else format_field_offset h m F n) st.2) := by
        simp only [parse_field, if_neg hne]
      rw [hstep]
      refine ⟨?_, ?_⟩
      · show st.1 - _ = _
        rw [ih1, spec_bytes_before, if_pos hp, Nat.sub_sub]
      · intro i hi hpi
        show (parse_assign n _ st.2).field i = _
        rw [parse_assign_field n i _ st.2 (by omega) (by omega)]
        by_cases hin : i = n
        · subst hin
          rw [if_pos rfl, ih1]
          unfold spec_field_value
          dsimp only
          have hval : (if format_bits_per_field h m F i ≠ 0 then
              (format_field_offset h m F i +
                benz_uintXX_as_uint64 m
                  (k + h.format_key_u64s.get m F * 8 - spec_bytes_before h m F i -
                    format_bits_per_field h m F i / 8)
                  (format_bits_per_field h m F i)) % 2 ^ 64
             else format_field_offset h m F i) =
            (loadLE m (k + h.format_key_u64s.get m F * 8 - spec_bytes_before h m F i -
                format_bits_per_field h m F i / 8) (format_bits_per_field h m F i / 8) +
              format_field_offset h m F i) % 2 ^ 64 := by
            rcases hwid with h0 | h8
            · rw [h0]
              simp only [ne_eq, not_true_eq_false, if_false, Nat.zero_div, loadLE, Nat.zero_add]
              exact (Nat.mod_eq_of_lt hoff).symm
            · have hnz : format_bits_per_field h m F i ≠ 0 := by omega
              rw [if_pos hnz, uintXX_eq_loadLE m _ _ h8, Nat.add_comm]
          rw [hval]
        · rw [if_neg hin]
          exact ih2 i (by omega) hpi
    · -- the field is absent: the code skips it
      have heq : (format_field_offset h m F n + format_bits_per_field h m F n) % 2 ^ 64 = 0 := by
        unfold spec_field_present at hp
        omega
      have hstep : parse_field h m F st n = st := by
        simp only [parse_field, if_pos heq]
      rw [hstep]
      refine ⟨?_, ?_⟩
      · rw [ih1, spec_bytes_before, if_neg hp, Nat.add_zero]
      · intro i hi hpi
        by_cases hin : i = n
        · subst hin
          exact absurd hpi hp
        · exact ih2 i (by omega) hpi

/-- C3 (as stated, refuted), a field of 24 bits: the node format gives the
inode 24 bits, a multiple of 8, and the key body ends in the bytes 3, 2, 1;
the specification's value is their little-endian integer 66051, the code
stores `2 ^ 64 - 1`, what `benz_uintXX_as_uint64` returns for a width that is
not 8, 16, 32 or 64.  And a field whose offset plus width is `2 ^ 64`: width 8,
`field_offset = 2 ^ 64 - 8`; the field is present and its value is
`(1 + 2 ^ 64 - 8) mod 2 ^ 64`, the code skips it and leaves 0. -/
theorem C3_parse_bkey_counterexample :
    (hdr.bkey_format.get nodeWidth24 8352 = hdr.KEY_FORMAT_LOCAL_BTREE ∧
     format_is_short hdr nodeWidth24 8272 = false ∧
     (∀ i, i < 6 → spec_field_present hdr nodeWidth24 8272 i →
        8 ∣ format_bits_per_field hdr nodeWidth24 8272 i ∧
        format_bits_per_field hdr nodeWidth24 8272 i ≤ 64) ∧
     spec_field_present hdr nodeWidth24 8272 0 ∧
     spec_field_value hdr nodeWidth24 8352 8272 0 = 66051 ∧
     (benz_bch_parse_bkey hdr nodeWidth24 8352 8272).field 0 = 2 ^ 64 - 1) ∧
    (hdr.bkey_format.get nodeOffsetWrap 8352 = hdr.KEY_FORMAT_LOCAL_BTREE ∧
     format_is_short hdr nodeOffsetWrap 8272 = false ∧
     (∀ i, i < 6 → spec_field_present hdr nodeOffsetWrap 8272 i →
        8 ∣ format_bits_per_field hdr nodeOffsetWrap 8272 i ∧
        format_bits_per_field hdr nodeOffsetWrap 8272 i ≤ 64) ∧
     spec_field_present hdr nodeOffsetWrap 8272 0 ∧
     spec_field_value hdr nodeOffsetWrap 8352 8272 0 = 2 ^ 64 - 7 ∧
     (benz_bch_parse_bkey hdr nodeOffsetWrap 8352 8272).field 0 = 0) := by
  decide

/-- C3 (amended): for a key `k` in local-btree format and a non-short node
format `F` in which every field has width 0, 8, 16, 32 or 64 and
`field_offset + bits_per_field` is not `2 ^ 64`, `benz_bch_parse_bkey` gives each
present field `i` (width and offset not both zero), in the order inode,
offset, snapshot, size, version.hi, version.lo, the value
`(LE(b_i) + F.field_offset[i]) mod 2 ^ 64`, cut to 32 bits for snapshot, size
and version.hi, where `b_i` is the run of `bits_per_field[i] / 8` bytes ending
at byte `F.key_u64s * 8` of `k` minus the byte widths of the present fields
before `i`. -/
theorem C3_parse_bkey_amended (h : Header) (m : Mem) (k F : Nat)
    (hfmt : h.bkey_format.get m k = h.KEY_FORMAT_LOCAL_BTREE)
    (hshort : format_is_short h m F = false)
    (hw : ∀ i, i < 6 →
      (format_bits_per_field h m F i = 0 ∨ format_bits_per_field h m F i = 8 ∨
        format_bits_per_field h m F i = 16 ∨ format_bits_per_field h m F i = 32 ∨
        format_bits_per_field h m F i = 64) ∧
      format_field_offset h m F i + format_bits_per_field h m F i ≠ 2 ^ 64) :
    ∀ i, i < 6 → spec_field_present h m F i →
      (benz_bch_parse_bkey h m k F).field i = spec_field_value h m k F i := by
  intro i hi hp
  have hinv := (parse_fold_spec h m k F
    { u64s := h.bkey_u64s.get m k, format := h.bkey_format.get m k,
      needs_whiteout := h.bkey_needs_whiteout.get m k, type := h.bkey_type.get m k,
      key_u64s := 0, version_hi := 0, version_lo := 0, size := 0,
      p_inode := 0, p_offset := 0, p_snapshot := 0 } hw 6 (le_refl 6)).2 i hi hp
  rw [← hinv]
  simp only [benz_bch_parse_bkey, hfmt, hshort, BKEY_NR_FIELDS, BCH_U64S_SIZE, bkey_local.field]
  simp

/-- C3 (amended) at the inline-data key of the seed scenario: one byte each for
inode, offset and size; the decoded inode is the last byte of the key body. -/
theorem C3_parse_bkey_amended_witness :
    spec_field_present hdr nodeInline 8272 0 ∧
    (benz_bch_parse_bkey hdr nodeInline 8352 8272).field 0 = 2 ∧
    (benz_bch_parse_bkey hdr nodeInline 8352 8272).field 0 =
      spec_field_value hdr nodeInline 8352 8272 0 :=
  ⟨by decide, by decide,
    C3_parse_bkey_amended hdr nodeInline 8352 8272 (by decide) (by decide) (by decide) 0
      (by decide) (by decide)⟩

/-! ## Values yielded from a bset (C8) -/

theorem bch_val_from_bset_loop_val (h : Header) (m : Mem) (bset_end : Nat) :
    ∀ (fuel : Nat) (s s1 : IterState) (v : Nat),
      bch_val_from_bset_loop h m bset_end fuel s = some (v, s1) → v ≠ NULL →
      s1.btree_node = s.btree_node ∧
      v = _Bcachefs_iter_next_bch_val h m s1.bkey (s.btree_node + h.btree_node_format) := by
  intro fuel
  induction fuel with
  | zero => intro s s1 v hr; simp [bch_val_from_bset_loop] at hr
  | succ n ih =>
    intro s s1 v hr hv
    rw [bch_val_from_bset_loop] at hr
    split at hr
    · exact absurd hr (by simp)
    · rename_i bkey _
      dsimp only at hr
      split at hr
      · simp only [Option.some.injEq, Prod.mk.injEq] at hr
        exact absurd hr.1.symm hv
      · split at hr
        · exact ih { s with bkey := bkey } s1 v hr hv
        · simp only [Option.some.injEq, Prod.mk.injEq] at hr
          obtain ⟨h1, h2⟩ := hr
          subst h2
          exact ⟨rfl, h1.symm⟩

/-- C8: for a key `k`, with `key_u64s` the `key_u64s` of the node format `F`
when `k` is in local-btree format and `BKEY_U64s` otherwise,
`_Bcachefs_iter_next_bch_val` returns `k + key_u64s * 8` if `k.u64s > key_u64s`
and null otherwise; and every non-null value `bch_val_from_bset` yields is that
first value of the key the iterator then stands on, so that key has
`u64s > key_u64s`: a key without values is never yielded. -/
theorem C8_value_region (h : Header) (m : Mem)
    (hB : h.BKEY_U64s < 256) (hF : h.format_key_u64s.width ≤ 8) :
    (∀ k F, k ≠ NULL →
      _Bcachefs_iter_next_bch_val h m k F =
        if h.bkey_u64s.get m k >
            (if h.bkey_format.get m k = h.KEY_FORMAT_LOCAL_BTREE then h.format_key_u64s.get m F
             else h.BKEY_U64s) then
          k + (if h.bkey_format.get m k = h.KEY_FORMAT_LOCAL_BTREE then h.format_key_u64s.get m F
             else h.BKEY_U64s) * 8
        else NULL) ∧
    (∀ fuel s s1 v, bch_val_from_bset h m fuel s = some (v, s1) → v ≠ NULL →
      s1.bkey ≠ NULL ∧
      h.bkey_u64s.get m s1.bkey >
        (if h.bkey_format.get m s1.bkey = h.KEY_FORMAT_LOCAL_BTREE then
          h.format_key_u64s.get m (s.btree_node + h.btree_node_format)
         else h.BKEY_U64s) ∧
      v = s1.bkey +
        (if h.bkey_format.get m s1.bkey = h.KEY_FORMAT_LOCAL_BTREE then
          h.format_key_u64s.get m (s.btree_node + h.btree_node_format)
         else h.BKEY_U64s) * 8) := by
  refine ⟨fun k F hk => next_bch_val_eq h m k F hk hB hF, ?_⟩
  intro fuel s s1 v hr hv
  unfold bch_val_from_bset at hr
  split at hr
  · simp only [Option.some.injEq, Prod.mk.injEq] at hr
    exact absurd hr.1.symm hv
  · obtain ⟨_, hval⟩ := bch_val_from_bset_loop_val h m _ fuel s s1 v hr hv
    have hk : s1.bkey ≠ NULL := by
      intro h0
      rw [h0] at hval
      simp [_Bcachefs_iter_next_bch_val] at hval
      exact hv hval
    rw [next_bch_val_eq h m _ _ hk hB hF] at hval
    by_cases hgt : h.bkey_u64s.get m s1.bkey >
        (if h.bkey_format.get m s1.bkey = h.KEY_FORMAT_LOCAL_BTREE then
          h.format_key_u64s.get m (s.btree_node + h.btree_node_format)
         else h.BKEY_U64s)
    · rw [if_pos hgt] at hval
      exact ⟨hk, hgt, hval⟩
    · rw [if_neg hgt] at hval
      exact absurd hval hv

/-- C8 at the inline-data key of the seed scenario: `u64s = 5`, `key_u64s = 3`,
the value region starts at `8352 + 24`. -/
theorem C8_value_region_witness :
    _Bcachefs_iter_next_bch_val hdr nodeInline 8352 8272 = 8352 + 3 * 8 ∧
    _Bcachefs_iter_next_bch_val hdr nodeInline 8352 8272 =
      if hdr.bkey_u64s.get nodeInline 8352 >
          (if hdr.bkey_format.get nodeInline 8352 = hdr.KEY_FORMAT_LOCAL_BTREE then
            hdr.format_key_u64s.get nodeInline 8272
           else hdr.BKEY_U64s) then
        8352 + (if hdr.bkey_format.get nodeInline 8352 = hdr.KEY_FORMAT_LOCAL_BTREE then
            hdr.format_key_u64s.get nodeInline 8272
           else hdr.BKEY_U64s) * 8
      else NULL :=
  ⟨by decide,
    (C8_value_region hdr nodeInline (by decide) (by decide)).1 8352 8272 (by decide)⟩

/-! ## Traversal at the seed scenarios (C1, C2) -/

/-- C1 (the code at the claim's own scenario): the root node holds a single key
of type `btree_ptr_v2` pointing at a leaf with three extent keys.  A child
iterator opened on that pointer returns the three leaf values and then null;
the root iterator returns null at the first call and at each of the three calls
after it, because `Bcachefs_iter_next` tests the type of the root's own current
key, still the `btree_ptr_v2` key, on the value that came up from the child and
tries to open that value as a node. -/
theorem C1_descent_returns_null :
    hdr.bkey_type.get memDescent 8352 = hdr.KEY_TYPE_btree_ptr_v2 ∧
    leafValuesDescent 4 = some [65736, 65784, 65832, NULL] ∧
    iter_next_values hdr mallocEx handleEx 40 4 ⟨memDescent, 0⟩
      (iterFresh hdr.BTREE_ID_extents) = some [NULL, NULL, NULL, NULL] := by
  decide!

/-- C2 (the code at the failing input): the only bset of the leaf has
`u64s = 3` and its payload, `[8352, 8376)`, is one extent key of three words
whose value region is not empty (first value at 8368); `benz_bch_next_bkey`
ends the bset at `bset + u64s * 8 = 8352`, so the first call of
`Bcachefs_iter_next` returns null. -/
theorem C2_last_key_not_yielded :
    hdr.bset_u64s.get memShortKey 8328 = 3 ∧
    8328 + hdr.sizeof_bset = 8352 ∧
    hdr.bkey_u64s.get memShortKey 8352 = 3 ∧
    hdr.bkey_type.get memShortKey 8352 = hdr.KEY_TYPE_extent ∧
    _Bcachefs_iter_next_bch_val hdr memShortKey 8352 (8192 + hdr.btree_node_format) = 8368 ∧
    benz_bch_next_bkey hdr memShortKey 1 8328 NULL hdr.KEY_TYPE_MAX = some NULL ∧
    iter_next_values hdr mallocEx handleEx 40 1 ⟨memShortKey, 0⟩
      (iterFresh hdr.BTREE_ID_extents) = some [NULL] := by
  decide!

/-! ## The root entry of a tree (C11) -/

theorem next_jset_entry_loop_succ (h : Header) (m : Mem) (p sizeof_p type fuel c : Nat) :
    next_jset_entry_loop h m p sizeof_p type (fuel + 1) c =
      if benz_bch_next_sibling m p sizeof_p (p + h.sb_field_u64s.get m p * BCH_U64S_SIZE) c
            h.U64S_JSET_ENTRY ≠ NULL ∧ type ≠ h.BCH_JSET_ENTRY_NR ∧
          h.jset_entry_type.get m (benz_bch_next_sibling m p sizeof_p
            (p + h.sb_field_u64s.get m p * BCH_U64S_SIZE) c h.U64S_JSET_ENTRY) ≠ type then
        next_jset_entry_loop h m p sizeof_p type fuel (benz_bch_next_sibling m p sizeof_p
          (p + h.sb_field_u64s.get m p * BCH_U64S_SIZE) c h.U64S_JSET_ENTRY)
      else some (benz_bch_next_sibling m p sizeof_p
        (p + h.sb_field_u64s.get m p * BCH_U64S_SIZE) c h.U64S_JSET_ENTRY) := rfl

theorem jset_entry_for_loop_succ (h : Header) (m : Mem) (clean type fuel j : Nat) :
    jset_entry_for_loop h m clean type (fuel + 1) j =
      if j ≠ NULL ∧ h.jset_entry_btree_id.get m j ≠ type then
        match benz_bch_next_jset_entry h m (fuel + 1) clean h.sizeof_bch_sb_field_clean j
            h.BCH_JSET_ENTRY_btree_root with
        | none => none
        | some next => jset_entry_for_loop h m clean type fuel next
      else some j := rfl

theorem first_root_entry_succ (h : Header) (m : Mem) (clean id n c : Nat) :
    first_root_entry h m clean id (n + 1) c =
      if benz_bch_next_sibling m clean h.sizeof_bch_sb_field_clean
          (clean + h.sb_field_u64s.get m clean * BCH_U64S_SIZE) c h.U64S_JSET_ENTRY = NULL then
        some NULL
      else if h.jset_entry_type.get m (benz_bch_next_sibling m clean h.sizeof_bch_sb_field_clean
            (clean + h.sb_field_u64s.get m clean * BCH_U64S_SIZE) c h.U64S_JSET_ENTRY) =
            h.BCH_JSET_ENTRY_btree_root ∧
          h.jset_entry_btree_id.get m (benz_bch_next_sibling m clean h.sizeof_bch_sb_field_clean
            (clean + h.sb_field_u64s.get m clean * BCH_U64S_SIZE) c h.U64S_JSET_ENTRY) = id then
        some (benz_bch_next_sibling m clean h.sizeof_bch_sb_field_clean
          (clean + h.sb_field_u64s.get m clean * BCH_U64S_SIZE) c h.U64S_JSET_ENTRY)
      else first_root_entry h m clean id n (benz_bch_next_sibling m clean
        h.sizeof_bch_sb_field_clean (clean + h.sb_field_u64s.get m clean * BCH_U64S_SIZE) c
        h.U64S_JSET_ENTRY) := rfl

/-- The two nested loops of the code (filter by entry type, then by tree) find
what the one-pass search finds, with any fuel that covers the entries the
search looks at. -/
theorem jset_search_refines (h : Header) (m : Mem) (clean id : Nat)
    (hNR : h.BCH_JSET_ENTRY_btree_root ≠ h.BCH_JSET_ENTRY_NR) :
    ∀ (n c r : Nat), first_root_entry h m clean id n c = some r →
      ∀ (fa ff : Nat), n ≤ fa → n ≤ ff →
        (match benz_bch_next_jset_entry h m fa clean h.sizeof_bch_sb_field_clean c
            h.BCH_JSET_ENTRY_btree_root with
         | none => none
         | some j => jset_entry_for_loop h m clean id ff j) = some r := by
  intro n
  induction n with
  | zero => intro c r hr; simp [first_root_entry] at hr
  | succ n ih =>
    intro c r hr fa ff hfa hff
    obtain ⟨fa, rfl⟩ : ∃ k, fa = k + 1 := ⟨fa - 1, by omega⟩
    obtain ⟨ff, rfl⟩ : ∃ k, ff = k + 1 := ⟨ff - 1, by omega⟩
    rw [first_root_entry_succ] at hr
    unfold benz_bch_next_jset_entry
    rw [next_jset_entry_loop_succ]
    generalize benz_bch_next_sibling m clean h.sizeof_bch_sb_field_clean
      (clean + h.sb_field_u64s.get m clean * BCH_U64S_SIZE) c h.U64S_JSET_ENTRY = e at hr ⊢
    by_cases he : e = NULL
    · rw [if_pos he] at hr
      rw [if_neg (fun hc => hc.1 he)]
      simp only [jset_entry_for_loop_succ, he]
      simpa using hr
    · rw [if_neg he] at hr
      by_cases ht : h.jset_entry_type.get m e = h.BCH_JSET_ENTRY_btree_root
      · rw [if_neg (fun hc => hc.2.2 ht)]
        by_cases hid : h.jset_entry_btree_id.get m e = id
        · rw [if_pos ⟨ht, hid⟩] at hr
          simp only [jset_entry_for_loop_succ]
          rw [if_neg (fun hc => hc.2 hid)]
          exact hr
        · rw [if_neg (fun hc => hid hc.2)] at hr
          simp only [jset_entry_for_loop_succ]
          rw [if_pos ⟨he, hid⟩]
          exact ih e r hr (ff + 1) ff (by omega) (by omega)
      · rw [if_neg (fun hc => ht hc.1)] at hr
        rw [if_pos ⟨he, hNR, ht⟩]
        exact ih e r hr fa (ff + 1) (by omega) (by omega)

/-- Where the lookup of the clean field succeeds, `Bcachefs_iter_next_jset_entry`
returns what a search through the entries of the clean field in on-disk order
returns: the first entry that has type `BCH_JSET_ENTRY_btree_root` and
`btree_id == id`, null when the end of the field is reached without one.  The
result is there with any fuel `n` that covers the entries gone through and the
lookup of the field. -/
theorem next_jset_entry_refines (h : Header) (m : Mem) (this : Handle) (s : IterState)
    (clean n r : Nat)
    (hNR : h.BCH_JSET_ENTRY_btree_root ≠ h.BCH_JSET_ENTRY_NR)
    (hclean : benz_bch_next_sb_field h m n this.sb NULL h.BCH_SB_FIELD_clean = some clean)
    (hj : s.jset_entry = NULL)
    (hr : first_root_entry h m clean s.type n NULL = some r) :
    Bcachefs_iter_next_jset_entry h m n this s = some r := by
  unfold Bcachefs_iter_next_jset_entry
  rw [hclean, hj]
  exact jset_search_refines h m clean s.type hNR n NULL r hr n n (le_refl n) (le_refl n)

/-- The search at a clean field with three entries: an entry of another type,
the root of tree 1 and the root of tree 0; for tree 0 the third entry (4976)
is returned. -/
theorem next_jset_entry_refines_example :
    benz_bch_next_sb_field hdr memClean 10 handleEx.sb NULL hdr.BCH_SB_FIELD_clean = some 4848 ∧
    first_root_entry hdr memClean 4848 0 10 NULL = some 4976 ∧
    Bcachefs_iter_next_jset_entry hdr memClean 10 handleEx
      (stateNull hdr.BTREE_ID_extents) = some 4976 :=
  ⟨by decide!, by decide!,
    next_jset_entry_refines hdr memClean handleEx (stateNull hdr.BTREE_ID_extents) 4848 10 4976
      (by decide) (by decide!) rfl (by decide!)⟩

/-- C11 (the code at the failing input): the superblock at 4096 has `u64s = 15`
(`benz_bch_get_sb_size` gives it 752 + 120 bytes) and its field region is the
clean field at 4848, whose first entry (4872) is the root entry of tree 0: the
search through the entries of that field finds it.  The lookup of the clean
field ends its walk at byte `u64s * 8 = 120` of the superblock and returns
null, and `Bcachefs_iter_next_jset_entry` walks the entries of the null field:
it reads the field length at address 0 and returns null for tree 0.  Changing
the bytes at the addresses 0 and 30 makes it return the address 24. -/
theorem C11_clean_field_not_found :
    sb_magic_matches hdr memCleanSmall 4096 = true ∧
    benz_bch_get_sb_size hdr memCleanSmall 4096 = 752 + 120 ∧
    hdr.sb_field_type.get memCleanSmall 4848 = hdr.BCH_SB_FIELD_clean ∧
    hdr.sb_field_u64s.get memCleanSmall 4848 = 15 ∧
    hdr.jset_entry_type.get memCleanSmall 4872 = hdr.BCH_JSET_ENTRY_btree_root ∧
    hdr.jset_entry_btree_id.get memCleanSmall 4872 = hdr.BTREE_ID_extents ∧
    first_root_entry hdr memCleanSmall 4848 hdr.BTREE_ID_extents 10 NULL = some 4872 ∧
    benz_bch_next_sb_field hdr memCleanSmall 10 4096 NULL hdr.BCH_SB_FIELD_clean = some NULL ∧
    Bcachefs_iter_next_jset_entry hdr memCleanSmall 10 handleEx
      (stateNull hdr.BTREE_ID_extents) = some NULL ∧
    (∀ a, a ≠ 0 → a ≠ 30 → memCleanSmallPoked a = memCleanSmall a) ∧
    Bcachefs_iter_next_jset_entry hdr memCleanSmallPoked 10 handleEx
      (stateNull hdr.BTREE_ID_extents) = some 24 := by
  refine ⟨by decide!, by decide!, by decide!, by decide!, by decide!, by decide!, by decide!,
    by decide!, by decide!, ?_, by decide!⟩
  intro a h0 h30
  simp [memCleanSmallPoked, h0, h30]

/-! ## The root pointer of a tree (C12) -/

theorem next_bch_val_simp (h : Header) (m : Mem) (k c sizeof_c : Nat) :
    benz_bch_next_bch_val h m k c sizeof_c =
      if c + sizeof_c < k + h.bkey_u64s.get m k * 8 then c + sizeof_c else NULL := by
  simp only [benz_bch_next_bch_val, BCH_U64S_SIZE, NULL]
  split <;> split <;> omega

theorem next_btree_ptr_loop_succ (h : Header) (m : Mem) (k fuel v : Nat) :
    next_btree_ptr_loop h m k (fuel + 1) v =
      if v ≠ NULL ∧ h.extent_ptr_unused.get m (v + h.ptr_start) ≠ 0 then
        next_btree_ptr_loop h m k fuel
          (benz_bch_next_bch_val h m k v h.sizeof_bch_btree_ptr_v2)
      else some v := rfl

/-- The loop of `Bcachefs_iter_next_btree_ptr`, started on candidate `i` (or on
null when candidate `i` is past the end of the key) with every earlier
candidate flagged unused, ends on the first candidate whose flag is clear, or
on null when there is none. -/
theorem next_btree_ptr_loop_spec (h : Header) (m : Mem) (k b : Nat)
    (hS : 0 < h.sizeof_bch_btree_ptr_v2) (hb : 0 < b) :
    ∀ (fuel i : Nat),
      1 ≤ fuel → k + h.bkey_u64s.get m k * 8 < b + i * h.sizeof_bch_btree_ptr_v2 + fuel →
      (∀ j, j < i → h.extent_ptr_unused.get m
        (b + j * h.sizeof_bch_btree_ptr_v2 + h.ptr_start) ≠ 0) →
      ∃ r, next_btree_ptr_loop h m k fuel
          (if b + i * h.sizeof_bch_btree_ptr_v2 < k + h.bkey_u64s.get m k * 8 then
            b + i * h.sizeof_bch_btree_ptr_v2 else NULL) = some r ∧
        ((r = NULL ∧ ∀ j, b + j * h.sizeof_bch_btree_ptr_v2 < k + h.bkey_u64s.get m k * 8 →
            h.extent_ptr_unused.get m (b + j * h.sizeof_bch_btree_ptr_v2 + h.ptr_start) ≠ 0) ∨
         (∃ j, r = b + j * h.sizeof_bch_btree_ptr_v2 ∧
            b + j * h.sizeof_bch_btree_ptr_v2 < k + h.bkey_u64s.get m k * 8 ∧
            h.extent_ptr_unused.get m (r + h.ptr_start) = 0 ∧
            ∀ l, l < j → h.extent_ptr_unused.get m
              (b + l * h.sizeof_bch_btree_ptr_v2 + h.ptr_start) ≠ 0)) := by
  intro fuel
  induction fuel with
  | zero => intro i h1; omega
  | succ n ih =>
    intro i _ hlt hprev
    rw [next_btree_ptr_loop_succ]
    by_cases hin : b + i * h.sizeof_bch_btree_ptr_v2 < k + h.bkey_u64s.get m k * 8
    · rw [if_pos hin]
      have hne : b + i * h.sizeof_bch_btree_ptr_v2 ≠ NULL := by
        show b + i * h.sizeof_bch_btree_ptr_v2 ≠ 0
        omega
      by_cases hu : h.extent_ptr_unused.get m
          (b + i * h.sizeof_bch_btree_ptr_v2 + h.ptr_start) = 0
      · rw [if_neg (fun hc => hc.2 hu)]
        exact ⟨_, rfl, Or.inr ⟨i, rfl, hin, hu, hprev⟩⟩
      · rw [if_pos ⟨hne, hu⟩, next_bch_val_simp]
        have hstep : b + i * h.sizeof_bch_btree_ptr_v2 + h.sizeof_bch_btree_ptr_v2 =
            b + (i + 1) * h.sizeof_bch_btree_ptr_v2 := by ring
        rw [hstep]
        apply ih (i + 1) (by omega) (by omega)
        intro j hj
        by_cases hji : j = i
        · rw [hji]; exact hu
        · exact hprev j (by omega)
    · rw [if_neg hin, if_neg (fun hc => hc.1 rfl)]
      refine ⟨NULL, rfl, Or.inl ⟨rfl, ?_⟩⟩
      intro j hj
      apply hprev
      by_contra hge
      have hle : i ≤ j := by omega
      have := Nat.mul_le_mul_right h.sizeof_bch_btree_ptr_v2 hle
      omega

theorem next_btree_ptr_spec (h : Header) (m : Mem) (s : IterState) (fuel K : Nat)
    (hB : h.BKEY_U64s < 256) (hS : 0 < h.sizeof_bch_btree_ptr_v2)
    (hK : K = jset_entry_key h s.jset_entry)
    (hj : s.jset_entry ≠ NULL) (hp : s.btree_ptr = NULL)
    (hfuel : h.bkey_u64s.get m K * 8 < fuel) :
    ∃ r, Bcachefs_iter_next_btree_ptr h m fuel s = some r ∧
      ((r = NULL ∧ ∀ i, K + h.BKEY_U64s * 8 + i * h.sizeof_bch_btree_ptr_v2 <
            K + h.bkey_u64s.get m K * 8 →
          h.extent_ptr_unused.get m
            (K + h.BKEY_U64s * 8 + i * h.sizeof_bch_btree_ptr_v2 + h.ptr_start) ≠ 0) ∨
       (∃ i, r = K + h.BKEY_U64s * 8 + i * h.sizeof_bch_btree_ptr_v2 ∧
          K + h.BKEY_U64s * 8 + i * h.sizeof_bch_btree_ptr_v2 < K + h.bkey_u64s.get m K * 8 ∧
          h.extent_ptr_unused.get m
            (K + h.BKEY_U64s * 8 + i * h.sizeof_bch_btree_ptr_v2 + h.ptr_start) = 0 ∧
          ∀ l, l < i → h.extent_ptr_unused.get m
            (K + h.BKEY_U64s * 8 + l * h.sizeof_bch_btree_ptr_v2 + h.ptr_start) ≠ 0)) := by
  have hKpos : 0 < K := by
    have : s.jset_entry ≠ 0 := hj
    rw [hK, jset_entry_key]
    omega
  obtain ⟨r, hr, hchar⟩ := next_btree_ptr_loop_spec h m K (K + h.BKEY_U64s * 8) hS (by omega)
    fuel 0 (by omega) (by omega) (fun j hj0 => absurd hj0 (Nat.not_lt_zero j))
  refine ⟨r, ?_, ?_⟩
  · simp only [Bcachefs_iter_next_btree_ptr, hp, ne_eq, not_true_eq_false, if_false,
      first_bch_val_eq, Nat.mod_eq_of_lt hB, ← hK]
    rw [← hr]
    congr 1
    simp only [Nat.zero_mul, Nat.add_zero, NULL]
    split <;> split <;> omega
  · rcases hchar with ⟨h0, hall⟩ | ⟨i, hi, hlt, hu, hprev⟩
    · exact Or.inl ⟨h0, hall⟩
    · exact Or.inr ⟨i, hi, hlt, by rw [← hi]; exact hu, hprev⟩

/-- C12: for a journal root entry with key `K` and an iterator whose `btree_ptr`
is null, `Bcachefs_iter_next_btree_ptr` returns, with any fuel above
`K.u64s * 8`, the first of the candidates
`K + BKEY_U64s * 8 + i * sizeof(struct bch_btree_ptr_v2)` that start before
`K + K.u64s * 8` whose `start.unused` flag is 0, and null if every candidate
has the flag set. -/
theorem C12_next_btree_ptr (h : Header) (m : Mem) (s : IterState) (fuel : Nat)
    (hB : h.BKEY_U64s < 256) (hS : 0 < h.sizeof_bch_btree_ptr_v2)
    (hj : s.jset_entry ≠ NULL) (hp : s.btree_ptr = NULL)
    (hfuel : h.bkey_u64s.get m (jset_entry_key h s.jset_entry) * 8 < fuel) :
    let K := jset_entry_key h s.jset_entry
    let cand := fun i => K + h.BKEY_U64s * 8 + i * h.sizeof_bch_btree_ptr_v2
    ∃ r, Bcachefs_iter_next_btree_ptr h m fuel s = some r ∧
      ((r = NULL ∧ ∀ i, cand i < K + h.bkey_u64s.get m K * 8 →
          h.extent_ptr_unused.get m (cand i + h.ptr_start) ≠ 0) ∨
       (∃ i, r = cand i ∧ cand i < K + h.bkey_u64s.get m K * 8 ∧
          h.extent_ptr_unused.get m (cand i + h.ptr_start) = 0 ∧
          ∀ l, l < i → h.extent_ptr_unused.get m (cand l + h.ptr_start) ≠ 0)) :=
  next_btree_ptr_spec h m s fuel (jset_entry_key h s.jset_entry) hB hS rfl hj hp hfuel

/-- C12 at the scenario of two pointers: the first candidate (5048) has
`start.unused = 1`, the second (5088) is returned. -/
theorem C12_next_btree_ptr_witness :
    hdr.extent_ptr_unused.get memTwoPtrs (5048 + hdr.ptr_start) = 1 ∧
    Bcachefs_iter_next_btree_ptr hdr memTwoPtrs 200 { stateNull 0 with jset_entry := 5000 }
      = some 5088 ∧
    (let K := jset_entry_key hdr 5000
     let cand := fun i => K + hdr.BKEY_U64s * 8 + i * hdr.sizeof_bch_btree_ptr_v2
     ∃ r, Bcachefs_iter_next_btree_ptr hdr memTwoPtrs 200 { stateNull 0 with jset_entry := 5000 }
        = some r ∧
      ((r = NULL ∧ ∀ i, cand i < K + hdr.bkey_u64s.get memTwoPtrs K * 8 →
          hdr.extent_ptr_unused.get memTwoPtrs (cand i + hdr.ptr_start) ≠ 0) ∨
       (∃ i, r = cand i ∧ cand i < K + hdr.bkey_u64s.get memTwoPtrs K * 8 ∧
          hdr.extent_ptr_unused.get memTwoPtrs (cand i + hdr.ptr_start) = 0 ∧
          ∀ l, l < i → hdr.extent_ptr_unused.get memTwoPtrs (cand l + hdr.ptr_start) ≠ 0))) :=
  ⟨by decide, by decide,
    C12_next_btree_ptr hdr memTwoPtrs { stateNull 0 with jset_entry := 5000 } 200 (by decide)
      (by decide) (by decide) (by decide) (by decide)⟩

/-! ## Closing an iterator (C17) -/

theorem iter_fini_eq (h : Header) : ∀ iter : Bcachefs_iterator,
    Bcachefs_iter_fini h iter = (1, iterClosed h)
  | .mk s none => by
    simp [Bcachefs_iter_fini, iterClosed]
  | .mk s (some n) => by
    have ih := iter_fini_eq h n
    simp [Bcachefs_iter_fini, ih, iterClosed]

/-- C17: for every iterator, with any chain of children, `Bcachefs_iter_fini`
returns 1 and leaves type `BTREE_ID_NR`, `btree_node == NULL`, no child and
every other member null; applied again to that closed iterator it returns 1
and leaves it as it is. -/
theorem C17_iter_fini_idempotent (h : Header) (iter : Bcachefs_iterator) :
    (Bcachefs_iter_fini h iter).1 = 1 ∧
    (Bcachefs_iter_fini h iter).2 =
      .mk { type := h.BTREE_ID_NR, jset_entry := NULL, btree_ptr := NULL, bset := NULL,
            bkey := NULL, bch_val := NULL, btree_node := NULL } none ∧
    (Bcachefs_iter_fini h (Bcachefs_iter_fini h iter).2).1 = 1 ∧
    (Bcachefs_iter_fini h (Bcachefs_iter_fini h iter).2).2 = (Bcachefs_iter_fini h iter).2 := by
  rw [iter_fini_eq h iter]
  refine ⟨rfl, rfl, ?_, ?_⟩
  · show (Bcachefs_iter_fini h (iterClosed h)).1 = 1
    rw [iter_fini_eq]
  · show (Bcachefs_iter_fini h (iterClosed h)).2 = iterClosed h
    rw [iter_fini_eq]

/-! ## Bit-fields of the superblock (C18) -/

theorem flag_bits_eq (x first last : Nat) (hx : x < 2 ^ 64) (hfl : first < last)
    (hl : last ≤ 64) :
    benz_get_flag_bits x first last = (x / 2 ^ first) % 2 ^ (last - first) := by
  unfold benz_get_flag_bits
  have h64 : (2 : Nat) ^ 64 = 2 ^ last * 2 ^ (64 - last) := by
    rw [← pow_add]; congr 1; omega
  have hlast : (2 : Nat) ^ last = 2 ^ first * 2 ^ (last - first) := by
    rw [← pow_add]; congr 1; omega
  have hshift : (2 : Nat) ^ (64 - last + first) = 2 ^ first * 2 ^ (64 - last) := by
    rw [← pow_add]; congr 1; omega
  have _ := hx
  rw [h64, Nat.mul_mod_mul_right, hshift,
    Nat.mul_div_mul_right _ _ (Nat.pos_pow_of_pos _ (by decide)), hlast,
    Nat.mod_mul_right_div_self]

/-- C18: for a 64-bit word `x` and `0 <= first < last <= 64`,
`benz_get_flag_bits(x, first, last)` is `(x / 2^first) mod 2^(last - first)`;
hence `benz_bch_get_btree_node_size(sb)` is
`((sb.flags[0] / 2^12) mod 2^16) * 512` and `benz_bch_get_block_size(sb)` is
`sb.block_size * 512`, both products being below `2^64`. -/
theorem C18_flag_bits (h : Header) (m : Mem) (sb : Nat)
    (hflags : h.sb_flags0.width ≤ 64) (hblock : h.sb_block_size.width ≤ 16) :
    (∀ x first last, x < 2 ^ 64 → first < last → last ≤ 64 →
      benz_get_flag_bits x first last = (x / 2 ^ first) % 2 ^ (last - first)) ∧
    benz_bch_get_btree_node_size h m sb = (h.sb_flags0.get m sb / 2 ^ 12) % 2 ^ 16 * 512 ∧
    (h.sb_flags0.get m sb / 2 ^ 12) % 2 ^ 16 * 512 < 2 ^ 64 ∧
    benz_bch_get_block_size h m sb = h.sb_block_size.get m sb * 512 ∧
    h.sb_block_size.get m sb * 512 < 2 ^ 64 := by
  have hx : h.sb_flags0.get m sb < 2 ^ 64 :=
    lt_of_lt_of_le (Field.get_lt _ m sb) (Nat.pow_le_pow_right (by decide) hflags)
  have hb : h.sb_block_size.get m sb < 2 ^ 16 :=
    lt_of_lt_of_le (Field.get_lt _ m sb) (Nat.pow_le_pow_right (by decide) hblock)
  refine ⟨fun x first last h1 h2 h3 => flag_bits_eq x first last h1 h2 h3, ?_, ?_, ?_, ?_⟩
  · unfold benz_bch_get_btree_node_size BCH_SECTOR_SIZE
    rw [flag_bits_eq _ 12 28 hx (by decide) (by decide)]
    omega
  · omega
  · unfold benz_bch_get_block_size BCH_SECTOR_SIZE
    omega
  · omega

/-- C18 at the superblock of the examples: `flags[0] = 16 * 4096` gives a node
size of 16 sectors, `block_size = 1` a block of 512 bytes. -/
theorem C18_flag_bits_witness :
    benz_get_flag_bits (16 * 4096) 12 28 = 16 ∧
    benz_bch_get_btree_node_size hdr nodeOneExtent 4096 = 8192 ∧
    benz_bch_get_block_size hdr nodeOneExtent 4096 = 512 ∧
    benz_bch_get_btree_node_size hdr nodeOneExtent 4096 =
      (hdr.sb_flags0.get nodeOneExtent 4096 / 2 ^ 12) % 2 ^ 16 * 512 :=
  ⟨by decide, by decide, by decide,
    (C18_flag_bits hdr nodeOneExtent 4096 (by decide) (by decide)).2.1⟩

/-! ## Keys of a bset (C19) -/

theorem next_sibling_ge (m : Mem) (p sizeof_p p_end c : Nat) (spec : u64s_spec)
    (hc : c = NULL ∨ p + sizeof_p ≤ c)
    (hnn : benz_bch_next_sibling m p sizeof_p p_end c spec ≠ NULL) :
    p + sizeof_p ≤ benz_bch_next_sibling m p sizeof_p p_end c spec ∧
    benz_bch_next_sibling m p sizeof_p p_end c spec < p_end := by
  simp only [benz_bch_next_sibling] at hnn ⊢
  generalize hX : (if c = NULL then p + sizeof_p
    else c + (read_u64s m c spec + spec.start) % 2 ^ 64 * BCH_U64S_SIZE % 2 ^ 64) = X at hnn ⊢
  have hXge : p + sizeof_p ≤ X := by
    rw [← hX]
    split
    · exact le_refl _
    · rename_i h0
      rcases hc with hc | hc
      · exact absurd hc h0
      · omega
  by_cases hge : X ≥ p_end
  · rw [if_pos hge] at hnn
    exact absurd rfl hnn
  · rw [if_neg hge]
    exact ⟨hXge, by omega⟩

theorem next_bkey_loop_range (h : Header) (m : Mem) (B type : Nat) :
    ∀ (fuel c k : Nat), (c = NULL ∨ B + h.sizeof_bset ≤ c) →
      next_bkey_loop h m B type fuel c = some k → k ≠ NULL →
      B + h.sizeof_bset ≤ k ∧ k < B + h.bset_u64s.get m B * 8 := by
  intro fuel
  induction fuel with
  | zero => intro c k _ hr; simp [next_bkey_loop] at hr
  | succ n ih =>
    intro c k hc hr hk
    rw [next_bkey_loop] at hr
    split at hr
    · rename_i hcont
      have hrange := next_sibling_ge m B h.sizeof_bset _ c h.U64S_BKEY hc hcont.1
      exact ih _ k (Or.inr hrange.1) hr hk
    · simp only [Option.some.injEq] at hr
      rw [← hr] at hk ⊢
      have hrange := next_sibling_ge m B h.sizeof_bset _ c h.U64S_BKEY hc hk
      exact ⟨hrange.1, by simpa [BCH_U64S_SIZE] using hrange.2⟩

/-- C19: every key of a bset `B` reached from null by following the results of
`benz_bch_next_bkey(B, c, KEY_TYPE_MAX)` starts in
`[B + sizeof(struct bset), B + sizeof(struct bset) + B.u64s * 8)`; the code in
fact keeps it below `B + B.u64s * 8`. -/
theorem C19_key_in_bset (h : Header) (m : Mem) (B : Nat) :
    ∀ (n k : Nat), nth_bkey h m B n = some k → k ≠ NULL →
      (B + h.sizeof_bset ≤ k ∧ k < B + h.sizeof_bset + h.bset_u64s.get m B * 8) ∧
      k < B + h.bset_u64s.get m B * 8 := by
  intro n
  induction n with
  | zero =>
    intro k hr hk
    have hrange := next_bkey_loop_range h m B h.KEY_TYPE_MAX 1 NULL k (Or.inl rfl) hr hk
    exact ⟨⟨hrange.1, by omega⟩, hrange.2⟩
  | succ n ih =>
    intro k hr hk
    rw [nth_bkey] at hr
    split at hr
    · exact absurd hr (by simp)
    · rename_i c hc
      have hcr : c = NULL ∨ B + h.sizeof_bset ≤ c := by
        by_cases h0 : c = NULL
        · exact Or.inl h0
        · exact Or.inr (ih c hc h0).1.1
      have hrange := next_bkey_loop_range h m B h.KEY_TYPE_MAX 1 c k hcr hr hk
      exact ⟨⟨hrange.1, by omega⟩, hrange.2⟩

/-- C19 at the leaf of the descent scenario, read as a bset at address
`136 + 2097152` of the image: its second key. -/
theorem C19_key_in_bset_witness :
    nth_bkey hdr imageDescent.bytes 2097288 1 = some (2097288 + 24 + 48) ∧
    ((2097288 + hdr.sizeof_bset ≤ 2097288 + 24 + 48 ∧
      2097288 + 24 + 48 <
        2097288 + hdr.sizeof_bset + hdr.bset_u64s.get imageDescent.bytes 2097288 * 8) ∧
     2097288 + 24 + 48 < 2097288 + hdr.bset_u64s.get imageDescent.bytes 2097288 * 8) :=
  ⟨by decide!, C19_key_in_bset hdr imageDescent.bytes 2097288 1 (2097288 + 24 + 48)
    (by decide!) (by decide)⟩

/-! ## Directory entries (C20) -/

/-- Every iterator is a chain of levels that ends in a level without child. -/
theorem iterator_is_chain : ∀ iter : Bcachefs_iterator,
    ∃ parents last, iter = Bcachefs_iterator.ofChain parents last
  | .mk s none => ⟨[], s, rfl⟩
  | .mk s (some n) => by
    obtain ⟨ps, l, hn⟩ := iterator_is_chain n
    exact ⟨s :: ps, l, by rw [hn]; rfl⟩

/-- C20: for every iterator chain, whatever its parent levels hold, the record
`Bcachefs_iter_make_dirent` returns is made from the level without child, the
deepest one, alone: with `k` its key and `v` its value,
`parent_inode = p.inode` of the logical key decoded from `k` with that level's
node format, `inode = v.d_inum`, `type = v.d_type` and `name = &v.d_name`. -/
theorem C20_make_dirent (h : Header) (m : Mem) (parents : List IterState) (last : IterState) :
    Bcachefs_iter_make_dirent h m (Bcachefs_iterator.ofChain parents last) =
      { parent_inode :=
          (benz_bch_parse_bkey h m last.bkey (last.btree_node + h.btree_node_format)).p_inode
        inode := h.dirent_d_inum.get m last.bch_val
        type := h.dirent_d_type.get m last.bch_val
        name := last.bch_val + h.dirent_d_name } := by
  induction parents with
  | nil => rfl
  | cons p ps ih =>
    rw [← ih]
    rfl

/-- The directory entry of the seed scenario: parent 100, inode 200, the name
"a" at byte 9 of the value. -/
theorem make_dirent_example :
    Bcachefs_iter_make_dirent hdr nodeDirent iterDirent = ⟨100, 200, 8, 8392 + 9⟩ ∧
    byteAt nodeDirent (8392 + 9) = 97 ∧ byteAt nodeDirent (8392 + 10) = 0 := by
  decide

/-- With `KEY_TYPE_MAX` the loop of `benz_bch_next_bkey` runs once: the call
returns the next sibling. -/
theorem next_bkey_max (h : Header) (m : Mem) (fuel B c : Nat) :
    benz_bch_next_bkey h m (fuel + 1) B c h.KEY_TYPE_MAX =
      some (benz_bch_next_sibling m B h.sizeof_bset (B + h.bset_u64s.get m B * BCH_U64S_SIZE) c
        h.U64S_BKEY) := by
  simp [benz_bch_next_bkey, next_bkey_loop]

/-! ## Trees other than extents and dirents (C13) -/

theorem bch_val_from_bset_loop_type (h : Header) (m : Mem) (bset_end : Nat) :
    ∀ (fuel : Nat) (s s1 : IterState) (v : Nat),
      bch_val_from_bset_loop h m bset_end fuel s = some (v, s1) → s1.type = s.type := by
  intro fuel
  induction fuel with
  | zero => intro s s1 v hr; simp [bch_val_from_bset_loop] at hr
  | succ n ih =>
    intro s s1 v hr
    rw [bch_val_from_bset_loop] at hr
    split at hr
    · exact absurd hr (by simp)
    · rename_i bkey _
      dsimp only at hr
      split at hr
      · simp only [Option.some.injEq, Prod.mk.injEq] at hr
        rw [← hr.2]
      · split at hr
        · exact ih { s with bkey := bkey } s1 v hr
        · simp only [Option.some.injEq, Prod.mk.injEq] at hr
          rw [← hr.2]

theorem bch_val_from_bset_type (h : Header) (m : Mem) (fuel : Nat) (s s1 : IterState) (v : Nat)
    (hr : bch_val_from_bset h m fuel s = some (v, s1)) : s1.type = s.type := by
  unfold bch_val_from_bset at hr
  split at hr
  · simp only [Option.some.injEq, Prod.mk.injEq] at hr
    rw [← hr.2]
  · exact bch_val_from_bset_loop_type h m _ fuel s s1 v hr

theorem nested_btree_s (next : World → Bcachefs_iterator → IterResult) (w w1 : World)
    (iter iter1 : Bcachefs_iterator) (v : Nat)
    (hr : bch_val_from_nested_btree next w iter = some (v, w1, iter1)) : iter1.s = iter.s := by
  unfold bch_val_from_nested_btree at hr
  split at hr
  · split at hr
    · exact absurd hr (by simp)
    · split at hr <;>
      · simp only [Option.some.injEq, Prod.mk.injEq] at hr
        rw [← hr.2.2]
        rfl
  · simp only [Option.some.injEq, Prod.mk.injEq] at hr
    rw [← hr.2.2]

/-- A value that `_Bcachefs_iter_next` returns without going through
`Bcachefs_iter_next` again leaves the type of the iterator as it was. -/
theorem iter_next_inner_type (h : Header) (this : Handle) (fuel T : Nat)
    (next : World → Bcachefs_iterator → IterResult)
    (hnext : ∀ w it r, it.s.type = T → next w it = some r → r.1 = NULL)
    (w w1 : World) (iter iter1 : Bcachefs_iterator) (v : Nat) (hT : iter.s.type = T)
    (hr : _Bcachefs_iter_next h this fuel next w iter = some (v, w1, iter1)) :
    v = NULL ∨ iter1.s.type = T := by
  unfold _Bcachefs_iter_next at hr
  split at hr
  · exact absurd hr (by simp)
  · rename_i bval wn itn hnested
    have hs := nested_btree_s next w wn iter itn bval hnested
    split at hr
    · simp only [Option.some.injEq, Prod.mk.injEq] at hr
      right
      rw [← hr.2.2, hs, hT]
    · split at hr
      · exact absurd hr (by simp)
      · rename_i bval2 s2 hbset
        have hs2 := bch_val_from_bset_type h wn.mem fuel itn.s s2 bval2 hbset
        split at hr
        · simp only [Option.some.injEq, Prod.mk.injEq] at hr
          right
          rw [← hr.2.2]
          show s2.type = T
          rw [hs2, hs, hT]
        · split at hr
          · exact absurd hr (by simp)
          · rename_i bset _
            split at hr
            · left
              exact hnext _ _ _ (by show s2.type = T; rw [hs2, hs, hT]) hr
            · simp only [Option.some.injEq, Prod.mk.injEq] at hr
              left
              exact hr.1.symm

/-- For an iterator whose tree is neither extents nor dirents every result of
`Bcachefs_iter_next` is null. -/
theorem iter_next_other_null (h : Header) (malloc : Nat → Nat) (this : Handle) (T : Nat)
    (hE : T ≠ h.BTREE_ID_extents) (hD : T ≠ h.BTREE_ID_dirents) :
    ∀ (fuel : Nat) (w : World) (iter : Bcachefs_iterator) (r : Nat × World × Bcachefs_iterator),
      iter.s.type = T → Bcachefs_iter_next h malloc this fuel w iter = some r → r.1 = NULL := by
  intro fuel
  induction fuel with
  | zero => intro w iter r _ hr; simp [Bcachefs_iter_next] at hr
  | succ n ih =>
    intro w iter r hT hr
    rw [Bcachefs_iter_next] at hr
    dsimp only at hr
    split at hr
    · exact absurd hr (by simp)
    · rename_i bch_val w1 iter1 hinner
      have htype := iter_next_inner_type h this (n + 1) T _ ih w w1 iter iter1 bch_val hT hinner
      split at hr
      · simp only [Option.some.injEq] at hr
        rw [← hr]
      · rename_i hv
        have ht1 : iter1.s.type = T := by
          rcases htype with h0 | h1
          · exact absurd h0 hv
          · exact h1
        rw [if_neg (by rw [ht1]; exact fun hc => hc.elim hE hD)] at hr
        simp only [Option.some.injEq] at hr
        rw [← hr]

/-- C13 (as stated, refuted): on the node of the one-extent scenario an
iterator of tree 1 returns null at its first call, although the node is not
exhausted: its first key has a value, the one an extents iterator returns. -/
theorem C13_other_tree_counterexample :
    (1 ≠ hdr.BTREE_ID_extents ∧ 1 ≠ hdr.BTREE_ID_dirents) ∧
    iter_next_values hdr mallocEx handleEx 40 1 ⟨nodeOneExtent, 0⟩ (iterFresh 1) = some [NULL] ∧
    iter_next_values hdr mallocEx handleEx 40 1 ⟨nodeOneExtent, 0⟩
      (iterFresh hdr.BTREE_ID_extents) = some [8392] := by
  decide!

/-! ## Opening an iterator (C15, C16) -/

/-- C15 (the code at the failing input): the clean field of the superblock has
root entries for the trees 0 and 1 only.  For tree 2 the lookup of the root
entry returns null; `Bcachefs_iter_next_btree_ptr` then takes the key of the
null entry, at address `NULL + offsetof(struct jset_entry, start) = 8`, and
reads its length there: changing the byte at address 8, and nothing else,
changes what it returns. -/
theorem C15_missing_root_reads_null_page :
    Bcachefs_iter_next_jset_entry hdr memClean 200 handleEx
      { stateNull hdr.BTREE_ID_dirents with btree_node := mallocEx 0 } = some NULL ∧
    jset_entry_key hdr NULL = 8 ∧
    (∀ a, a < 4096 → a ≠ 8 → memCleanPoked a = memClean a) ∧
    Bcachefs_iter_next_btree_ptr hdr memClean 200
      { stateNull hdr.BTREE_ID_dirents with btree_node := mallocEx 0 } = some NULL ∧
    Bcachefs_iter_next_btree_ptr hdr memCleanPoked 200
      { stateNull hdr.BTREE_ID_dirents with btree_node := mallocEx 0 } = some 48 := by
  refine ⟨by decide!, by decide, ?_, by decide!, by decide!⟩
  intro a _ ha
  simp [memCleanPoked, ha]

/-- C16 (the code at the failing input): the root pointer of the extents tree
points past the end of the image, so the root node cannot be read.
`Bcachefs_iter` returns 0 and leaves the iterator with its type, its root entry
and its node buffer (`btree_node = 65536`), not in the state
`Bcachefs_iter_fini` produces. -/
theorem C16_failed_iter_not_closed :
    iterOpened memCleanFar hdr.BTREE_ID_extents =
      some (0, { type := hdr.BTREE_ID_extents, jset_entry := 4976, btree_ptr := NULL,
                 bset := NULL, bkey := NULL, bch_val := NULL, btree_node := 65536 }) ∧
    (Bcachefs_iter_fini hdr (iterClosed hdr)).2.s =
      { type := hdr.BTREE_ID_NR, jset_entry := NULL, btree_ptr := NULL, bset := NULL,
        bkey := NULL, bch_val := NULL, btree_node := NULL } ∧
    iterOpened memClean hdr.BTREE_ID_extents =
      some (1, { type := hdr.BTREE_ID_extents, jset_entry := 4976, btree_ptr := 5024,
                 bset := NULL, bkey := NULL, bch_val := NULL, btree_node := 65536 }) := by
  decide!

/-- `benz_bch_get_sb_size` for a non-null superblock: 0 exactly when the magic
differs from `BCACHE_MAGIC`, provided the size with the magic matching does not
wrap to 0. -/
theorem get_sb_size_zero_iff (h : Header) (m : Mem) (sb : Nat) (hsb : sb ≠ NULL)
    (hsize : 0 < h.sizeof_bch_sb)
    (hfit : h.sizeof_bch_sb + h.sb_u64s.get m sb * BCH_U64S_SIZE < 2 ^ 64) :
    (benz_bch_get_sb_size h m sb = 0 ↔ sb_magic_matches h m sb = false) ∧
    (sb_magic_matches h m sb = true →
      benz_bch_get_sb_size h m sb = h.sizeof_bch_sb + h.sb_u64s.get m sb * BCH_U64S_SIZE) := by
  unfold benz_bch_get_sb_size
  rw [if_neg hsb]
  by_cases hm : sb_magic_matches h m sb = true
  · rw [if_pos hm, Nat.mod_eq_of_lt hfit]
    refine ⟨⟨fun h0 => ?_, fun hf => ?_⟩, fun _ => rfl⟩
    · omega
    · rw [hm] at hf; cases hf
  · rw [if_neg hm]
    refine ⟨⟨fun _ => ?_, fun _ => rfl⟩, fun ht => absurd ht hm⟩
    simpa using hm

/-- C14 (code bug): on the image `imageBadMagic`, whose superblock is read at
sector 8 (the first `benz_bch_fread_sb` returns 1) and whose magic is not
`BCACHE_MAGIC` (`benz_bch_get_sb_size` of what was read is 0), `Bcachefs_open`
does not return 0 with the handle closed.  `benz_bch_realloc_sb` calls
`realloc(sb, 0)`: where that frees the block and returns null, the block is
freed a second time, which is undefined behaviour (`none`); where it returns
an object of size zero, the second read falls back to the minimal size,
succeeds, and `Bcachefs_open` returns 1 with the file open, `size = 8192` and
`sb` set.  (On the same image with the right magic it returns 1 either way.) -/
theorem C14_open_bad_magic :
    (benz_bch_fread_sb hdr heapEmpty.mem (mallocEx 0) 0 (some imageBadMagic)).1 = 1 ∧
    sb_magic_matches hdr
      (benz_bch_fread_sb hdr heapEmpty.mem (mallocEx 0) 0 (some imageBadMagic)).2
      (mallocEx 0) = false ∧
    benz_bch_get_sb_size hdr
      (benz_bch_fread_sb hdr heapEmpty.mem (mallocEx 0) 0 (some imageBadMagic)).2
      (mallocEx 0) = 0 ∧
    (Bcachefs_open hdr .frees_and_returns_null mallocEx (some imageBadMagic)
      handleClosed heapEmpty).isNone = true ∧
    (benz_bch_realloc_sb hdr .frees_and_returns_null mallocEx
      { mem := (benz_bch_fread_sb hdr heapEmpty.mem (mallocEx 0) 0 (some imageBadMagic)).2
        live := [mallocEx 0]
        nalloc := 1 } (mallocEx 0) 0).isNone = true ∧
    openOutcome .returns_object imageBadMagic = some (1, true, 8192, mallocEx 1) ∧
    openOutcome .frees_and_returns_null imageGoodMagic = some (1, true, 8192, mallocEx 1) ∧
    openOutcome .returns_object imageGoodMagic = some (1, true, 8192, mallocEx 1) := by
  decide!

/-! ## Position and choice of the next bset (C21, C22, C25) -/

theorem roundup_least (x b : Nat) (hb : 0 < b) :
    b ∣ roundup x b ∧ x ≤ roundup x b ∧ ∀ y, b ∣ y → x ≤ y → roundup x b ≤ y := by
  unfold roundup
  refine ⟨Dvd.intro_left _ rfl, ?_, ?_⟩
  · have h1 := Nat.div_add_mod (x + b - 1) b
    have h2 := Nat.mod_lt (x + b - 1) hb
    have h3 : (x + b - 1) / b * b = b * ((x + b - 1) / b) := Nat.mul_comm _ _
    omega
  · rintro y ⟨k, rfl⟩ hxy
    rw [Nat.mul_comm b k]
    apply Nat.mul_le_mul_right
    apply Nat.le_of_lt_succ
    rw [Nat.div_lt_iff_lt_mul hb, Nat.succ_mul, Nat.mul_comm k b]
    omega

/-- The candidate after a bset `c` of the node `N`: with `x` the offset of the
end of `c` in the node, it is at offset `(x / block_size + 1) * block_size`
plus the size of a checksum, the first block boundary strictly after `x`. -/
theorem next_bset_candidate_eq (h : Header) (m : Mem) (N bs c : Nat) (hbs : 0 < bs)
    (hc : c ≠ NULL) :
    next_bset_candidate h m N bs c =
      N + ((c - N + (h.sizeof_bset + h.bset_u64s.get m c * BCH_U64S_SIZE)) / bs + 1) * bs +
        h.sizeof_bch_csum := by
  simp only [next_bset_candidate, if_neg hc]
  have hr := roundup_block (c - N + (h.sizeof_bset + h.bset_u64s.get m c * BCH_U64S_SIZE)) bs hbs
  omega

/-- Where the end of `c` is not on a block boundary, the candidate after `c` is
at the rounded-up offset plus the size of a checksum. -/
theorem next_bset_candidate_roundup (h : Header) (m : Mem) (N bs c : Nat) (hbs : 0 < bs)
    (hc : c ≠ NULL)
    (hx : (c - N + (h.sizeof_bset + h.bset_u64s.get m c * BCH_U64S_SIZE)) % bs ≠ 0) :
    next_bset_candidate h m N bs c =
      N + roundup (c - N + (h.sizeof_bset + h.bset_u64s.get m c * BCH_U64S_SIZE)) bs +
        h.sizeof_bch_csum := by
  rw [next_bset_candidate_eq h m N bs c hbs hc]
  generalize c - N + (h.sizeof_bset + h.bset_u64s.get m c * BCH_U64S_SIZE) = x at hx ⊢
  have hdiv : (x + bs - 1) / bs = x / bs + 1 := by
    have h1 := Nat.div_add_mod x bs
    have h2 := Nat.mod_lt x hbs
    apply Nat.div_eq_of_lt_le
    · rw [Nat.add_mul, Nat.one_mul, Nat.mul_comm]
      omega
    · rw [Nat.succ_mul, Nat.add_mul, Nat.one_mul, Nat.mul_comm]
      omega
  unfold roundup
  rw [hdiv]

/-- C21 (the code at the failing input): block size 512; the first bset of the
node at 8192 is at offset `o = 136` and has `u64s = 44`, so
`o + sizeof(struct bset) + u64s * 8 = 512`, a multiple of the block size, and
`roundup(512, 512) + sizeof(struct bch_csum) = 528`: the claim's candidate is
8720, where the second bset of the node lies.  The code's candidate is at
offset `2 * 512 + 16`, beyond the end of the node, and `benz_bch_next_bset`
returns null: the second bset is never reached. -/
theorem C21_aligned_end_skips_block :
    benz_bch_get_block_size hdr nodeAlignedEnd 4096 = 512 ∧
    (8328 - 8192) + hdr.sizeof_bset + hdr.bset_u64s.get nodeAlignedEnd 8328 * 8 = 512 ∧
    8192 + roundup 512 512 + hdr.sizeof_bch_csum = 8720 ∧
    hdr.bset_u64s.get nodeAlignedEnd 8720 = 3 ∧
    benz_bch_next_bset hdr nodeAlignedEnd 8192 9216 NULL 4096 = some 8328 ∧
    next_bset_candidate hdr nodeAlignedEnd 8192 512 8328 = 8192 + 2 * 512 + hdr.sizeof_bch_csum ∧
    benz_bch_next_bset hdr nodeAlignedEnd 8192 9216 8328 4096 = some NULL := by
  decide

theorem bset_candidates_shift (h : Header) (m : Mem) (N bs c : Nat) :
    ∀ j, bset_candidates h m N bs c (j + 1) =
      bset_candidates h m N bs (next_bset_candidate h m N bs c) j := by
  intro j
  induction j with
  | zero => rfl
  | succ j ih =>
    show next_bset_candidate h m N bs (bset_candidates h m N bs c (j + 1)) = _
    rw [ih]
    rfl

theorem next_bset_candidate_ne_null (h : Header) (m : Mem) (N bs c : Nat) (hbs : 0 < bs)
    (hN : N ≠ NULL) : next_bset_candidate h m N bs c ≠ NULL := by
  by_cases hc : c = NULL
  · simp only [next_bset_candidate, if_pos hc]
    have : N ≠ 0 := hN
    show N + h.btree_node_keys ≠ 0
    omega
  · have := (next_bset_candidate_form h m N bs c hbs hc).1
    show next_bset_candidate h m N bs c ≠ 0
    omega

/-- The result of the loop of `benz_bch_next_bset` in terms of the candidates
it examines. -/
theorem next_bset_loop_first (h : Header) (m : Mem) (N node_end bs : Nat) (hbs : 0 < bs)
    (hN : N ≠ NULL) :
    ∀ (fuel c r : Nat), next_bset_loop h m N node_end bs fuel c = some r →
      ∃ i, (∀ j, j < i → bset_candidates h m N bs c j < node_end ∧
              h.bset_u64s.get m (bset_candidates h m N bs c j) = 0) ∧
        ((r = bset_candidates h m N bs c i ∧ r ≠ NULL ∧ r < node_end ∧
            h.bset_u64s.get m r ≠ 0) ∨
         (r = NULL ∧ node_end ≤ bset_candidates h m N bs c i)) := by
  intro fuel
  induction fuel with
  | zero => intro c r hr; simp [next_bset_loop] at hr
  | succ n ih =>
    intro c r hr
    rw [next_bset_loop_succ] at hr
    have hnn := next_bset_candidate_ne_null h m N bs c hbs hN
    by_cases hge : next_bset_candidate h m N bs c ≥ node_end
    · have hs : next_bset_step h m N node_end bs c = NULL := by
        simp only [next_bset_step, if_pos hge]
      rw [hs, if_neg (fun hc => hc.1 rfl)] at hr
      simp only [Option.some.injEq] at hr
      exact ⟨0, fun j hj => absurd hj (Nat.not_lt_zero j), Or.inr ⟨hr.symm, hge⟩⟩
    · have hs : next_bset_step h m N node_end bs c = next_bset_candidate h m N bs c := by
        simp only [next_bset_step, if_neg hge]
      rw [hs] at hr
      by_cases hz : h.bset_u64s.get m (next_bset_candidate h m N bs c) = 0
      · rw [if_pos ⟨hnn, hz⟩] at hr
        obtain ⟨i, hbefore, hres⟩ := ih _ r hr
        refine ⟨i + 1, ?_, ?_⟩
        · intro j hj
          cases j with
          | zero => exact ⟨Nat.lt_of_not_ge hge, hz⟩
          | succ j =>
            rw [bset_candidates_shift]
            exact hbefore j (by omega)
        · rw [bset_candidates_shift]
          exact hres
      · rw [if_neg (fun hc => hz hc.2)] at hr
        simp only [Option.some.injEq] at hr
        refine ⟨0, fun j hj => absurd hj (Nat.not_lt_zero j), Or.inl ⟨hr.symm, ?_, ?_, ?_⟩⟩
        · rw [← hr]; exact hnn
        · rw [← hr]; exact Nat.lt_of_not_ge hge
        · rw [← hr]; exact hz

/-- C22: with a positive block size, `benz_bch_next_bset` returns, and its
result is either a bset that starts before `node_end` and has `u64s != 0`, the
first such candidate in the sequence of candidates after `c` (every candidate
before it starts before `node_end` and has `u64s == 0`), or null; it is null
exactly when a candidate at or beyond `node_end` comes before any such bset. -/
theorem C22_next_bset_first_nonempty (h : Header) (m : Mem) (N node_end c sb : Nat)
    (hbs : 0 < benz_bch_get_block_size h m sb) (hN : N ≠ NULL) :
    ∃ r, benz_bch_next_bset h m N node_end c sb = some r ∧
      ((r ≠ NULL ∧ r < node_end ∧ h.bset_u64s.get m r ≠ 0 ∧
          ∃ i, r = bset_candidates h m N (benz_bch_get_block_size h m sb) c i ∧
            ∀ j, j < i →
              bset_candidates h m N (benz_bch_get_block_size h m sb) c j < node_end ∧
              h.bset_u64s.get m (bset_candidates h m N (benz_bch_get_block_size h m sb) c j) = 0)
        ∨ r = NULL) ∧
      (r = NULL ↔
        ∃ i, node_end ≤ bset_candidates h m N (benz_bch_get_block_size h m sb) c i ∧
          ∀ j, j < i →
            bset_candidates h m N (benz_bch_get_block_size h m sb) c j < node_end ∧
            h.bset_u64s.get m (bset_candidates h m N (benz_bch_get_block_size h m sb) c j) = 0) := by
  obtain ⟨r, hr⟩ := next_bset_loop_total h m N node_end c sb hbs
  refine ⟨r, hr, ?_⟩
  obtain ⟨i, hbefore, hres⟩ := next_bset_loop_first h m N node_end _ hbs hN _ c r hr
  rcases hres with ⟨hri, hnn, hlt, hu⟩ | ⟨h0, hge⟩
  · refine ⟨Or.inl ⟨hnn, hlt, hu, i, hri, hbefore⟩, fun h0 => absurd h0 hnn, ?_⟩
    rintro ⟨i2, hge2, hbefore2⟩
    rcases Nat.lt_trichotomy i i2 with hlt2 | heq | hgt
    · exact absurd (hbefore2 i hlt2).2 (by rw [← hri]; exact hu)
    · subst heq
      rw [← hri] at hge2
      omega
    · have := (hbefore i2 hgt).1
      omega
  · exact ⟨Or.inr h0, fun _ => ⟨i, hge, hbefore⟩, fun _ => h0⟩

/-- C22 at the node of two bsets: after the first bset the second (8720, with
`u64s = 6`) is returned, the first candidate after 8328. -/
theorem C22_next_bset_first_nonempty_witness :
    benz_bch_next_bset hdr nodeTwoBsets 8192 9216 8328 4096 = some 8720 ∧
    bset_candidates hdr nodeTwoBsets 8192 512 8328 0 = 8720 ∧
    ∃ r, benz_bch_next_bset hdr nodeTwoBsets 8192 9216 8328 4096 = some r ∧
      ((r ≠ NULL ∧ r < 9216 ∧ hdr.bset_u64s.get nodeTwoBsets r ≠ 0 ∧
          ∃ i, r = bset_candidates hdr nodeTwoBsets 8192
              (benz_bch_get_block_size hdr nodeTwoBsets 4096) 8328 i ∧
            ∀ j, j < i →
              bset_candidates hdr nodeTwoBsets 8192
                (benz_bch_get_block_size hdr nodeTwoBsets 4096) 8328 j < 9216 ∧
              hdr.bset_u64s.get nodeTwoBsets (bset_candidates hdr nodeTwoBsets 8192
                (benz_bch_get_block_size hdr nodeTwoBsets 4096) 8328 j) = 0)
        ∨ r = NULL) ∧
      (r = NULL ↔
        ∃ i, 9216 ≤ bset_candidates hdr nodeTwoBsets 8192
            (benz_bch_get_block_size hdr nodeTwoBsets 4096) 8328 i ∧
          ∀ j, j < i →
            bset_candidates hdr nodeTwoBsets 8192
              (benz_bch_get_block_size hdr nodeTwoBsets 4096) 8328 j < 9216 ∧
            hdr.bset_u64s.get nodeTwoBsets (bset_candidates hdr nodeTwoBsets 8192
              (benz_bch_get_block_size hdr nodeTwoBsets 4096) 8328 j) = 0) :=
  ⟨by decide, by decide,
    C22_next_bset_first_nonempty hdr nodeTwoBsets 8192 9216 8328 4096 (by decide) (by decide)⟩

/-- C25: with a positive block size `benz_bch_next_bset` returns for every node
buffer, every `node_end` and every current bset (the loop ends within the
`node_end + 1` iterations it is given), because every iteration after the
first moves the candidate forward by more than the size of a checksum. -/
theorem C25_next_bset_terminates (h : Header) (m : Mem) (N node_end c sb : Nat)
    (hbs : 0 < benz_bch_get_block_size h m sb) :
    (∃ r, benz_bch_next_bset h m N node_end c sb = some r) ∧
    ∀ c1, c1 ≠ NULL →
      c1 + h.sizeof_bch_csum + 1 ≤
        next_bset_candidate h m N (benz_bch_get_block_size h m sb) c1 := by
  refine ⟨next_bset_loop_total h m N node_end c sb hbs, ?_⟩
  intro c1 hc1
  simp only [next_bset_candidate, if_neg hc1]
  have h2 := Nat.mod_lt (c1 - N + (h.sizeof_bset + h.bset_u64s.get m c1 * BCH_U64S_SIZE)) hbs
  generalize (c1 - N + (h.sizeof_bset + h.bset_u64s.get m c1 * BCH_U64S_SIZE)) %
    benz_bch_get_block_size h m sb = r at h2 ⊢
  generalize h.bset_u64s.get m c1 * BCH_U64S_SIZE = u
  omega

/-- C25 at a node of eight blocks that holds zeros from its third block on: the
walk from the first bset passes the candidates with `u64s = 0` at the block
boundaries and returns null at the end of the node. -/
theorem C25_next_bset_terminates_witness :
    benz_bch_next_bset hdr nodeAlignedEnd 8192 (8192 + 8 * 512) 8328 4096 = some NULL ∧
    ((∃ r, benz_bch_next_bset hdr nodeAlignedEnd 8192 (8192 + 8 * 512) 8328 4096 = some r) ∧
     ∀ c1, c1 ≠ NULL →
      c1 + hdr.sizeof_bch_csum + 1 ≤
        next_bset_candidate hdr nodeAlignedEnd 8192
          (benz_bch_get_block_size hdr nodeAlignedEnd 4096) c1) :=
  ⟨by decide!, C25_next_bset_terminates hdr nodeAlignedEnd 8192 (8192 + 8 * 512) 8328 4096
    (by decide)⟩

/-! ## The presence test of the key decoder (C23) -/

/-- A field whose offset plus width is 0 modulo `2 ^ 64` is skipped by the field
loop of `benz_bch_parse_bkey`: nothing is assigned, the read position stays. -/
theorem parse_field_skip (h : Header) (m : Mem) (format i : Nat) (st : Nat × bkey_local)
    (hsum : (format_field_offset h m format i + format_bits_per_field h m format i) % 2 ^ 64 = 0) :
    parse_field h m format st i = st := by
  simp only [parse_field, if_pos hsum]

/-- For a 64-bit offset and an 8-bit width, offset plus width is 0 modulo
`2 ^ 64` when both are zero, and also when the offset is `2 ^ 64` minus a
non-zero width. -/
theorem presence_test_zero_iff (off bits : Nat) (hoff : off < 2 ^ 64) (hbits : bits < 256) :
    (off + bits) % 2 ^ 64 = 0 ↔ (bits = 0 ∧ off = 0) ∨ (bits ≠ 0 ∧ off = 2 ^ 64 - bits) := by
  omega

/-- C23 (the code at the failing input): field 0 of the node format has
`bits_per_field = 8` and `field_offset = 2 ^ 64 - 8`, neither of them zero; the
test `value + bits_per_field == 0` of the code holds in `uint64_t`, and the
field is treated as absent: whatever the state, the read position is not moved
and nothing is assigned, and the decoded inode is 0.  With `field_offset` one
less the byte is read and the position moves. -/
theorem C23_presence_test_wraps :
    format_bits_per_field hdr nodeOffsetWrap 8272 0 = 8 ∧
    format_field_offset hdr nodeOffsetWrap 8272 0 = 2 ^ 64 - 8 ∧
    (∀ st, parse_field hdr nodeOffsetWrap 8272 st 0 = st) ∧
    hdr.bkey_format.get nodeOffsetWrap 8352 = hdr.KEY_FORMAT_LOCAL_BTREE ∧
    format_is_short hdr nodeOffsetWrap 8272 = false ∧
    (benz_bch_parse_bkey hdr nodeOffsetWrap 8352 8272).p_inode = 0 ∧
    format_field_offset hdr nodeOffsetBelow 8272 0 = 2 ^ 64 - 9 ∧
    (∀ st, (parse_field hdr nodeOffsetBelow 8272 st 0).1 = st.1 - 1) ∧
    (benz_bch_parse_bkey hdr nodeOffsetBelow 8352 8272).p_inode = 2 ^ 64 - 8 := by
  refine ⟨by decide, by decide, fun st => parse_field_skip _ _ _ _ st (by decide), by decide,
    by decide, by decide, by decide, ?_, by decide⟩
  intro st
  have hbits : format_bits_per_field hdr nodeOffsetBelow 8272 0 = 8 := by decide
  simp only [parse_field]
  rw [if_neg (by decide), hbits]

/-! ## Elements of length 0 (C24) -/

theorem next_sb_field_loop_succ (h : Header) (m : Mem) (p type fuel c : Nat) :
    next_sb_field_loop h m p type (fuel + 1) c =
      if benz_bch_next_sibling m p h.sizeof_bch_sb (p + h.sb_u64s.get m p * BCH_U64S_SIZE) c
            h.U64S_BCH_SB_FIELD ≠ NULL ∧ type ≠ h.BCH_SB_FIELD_NR ∧
          h.sb_field_type.get m (benz_bch_next_sibling m p h.sizeof_bch_sb
            (p + h.sb_u64s.get m p * BCH_U64S_SIZE) c h.U64S_BCH_SB_FIELD) ≠ type then
        next_sb_field_loop h m p type fuel (benz_bch_next_sibling m p h.sizeof_bch_sb
          (p + h.sb_u64s.get m p * BCH_U64S_SIZE) c h.U64S_BCH_SB_FIELD)
      else some (benz_bch_next_sibling m p h.sizeof_bch_sb
        (p + h.sb_u64s.get m p * BCH_U64S_SIZE) c h.U64S_BCH_SB_FIELD) := rfl

/-- A walker step that returns its own argument is returned by every further
step. -/
theorem iterate_fixed (f : Nat → Nat) (e : Nat) (he : f e = e) : ∀ n, Nat.iterate f n e = e := by
  intro n
  induction n with
  | zero => rfl
  | succ n ih => rw [Function.iterate_succ_apply, he, ih]

/-- C24 (the code at the failing input): regions whose first element has the
decoded length 0 while bytes remain.  `benz_bch_next_sibling` returns that
element for itself, so iterating it from null never reaches null; the key loop
of `bch_val_from_bset` and the filtering loops of `benz_bch_next_sb_field` and
`benz_bch_next_jset_entry` run out of every fuel: they do not end. -/
theorem C24_zero_length_never_ends :
    read_u64s memZeroLength 8352 hdr.U64S_BKEY = 0 ∧
    (∀ n, Nat.iterate (fun c => benz_bch_next_sibling memZeroLength 8328 hdr.sizeof_bset
        (8328 + hdr.bset_u64s.get memZeroLength 8328 * BCH_U64S_SIZE) c hdr.U64S_BKEY)
        (n + 1) NULL = 8352) ∧
    (∀ fuel, bch_val_from_bset hdr memZeroLength fuel
        { (iterFresh hdr.BTREE_ID_extents).s with bset := 8328 } = none) ∧
    (∀ fuel, benz_bch_next_sb_field hdr memZeroLength fuel 4096 NULL hdr.BCH_SB_FIELD_clean
        = none) ∧
    (∀ fuel, benz_bch_next_jset_entry hdr memZeroLength fuel 20000
        hdr.sizeof_bch_sb_field_clean NULL hdr.BCH_JSET_ENTRY_btree_root = none) := by
  refine ⟨by decide, ?_, ?_, ?_, ?_⟩
  · intro n
    rw [Function.iterate_succ_apply]
    exact iterate_fixed _ 8352 (by decide) n
  · have hkey : ∀ fuel bkey, bkey = NULL ∨ bkey = 8352 →
        bch_val_from_bset_loop hdr memZeroLength
          (Bcachefs_iter_bset_end hdr memZeroLength
            { (iterFresh hdr.BTREE_ID_extents).s with bset := 8328 }) fuel
          { (iterFresh hdr.BTREE_ID_extents).s with bset := 8328, bkey := bkey } = none := by
      intro fuel
      induction fuel with
      | zero => intro bkey _; rfl
      | succ n ih =>
        intro bkey hb
        rw [bch_val_from_bset_loop, next_bkey_max]
        have hstep : benz_bch_next_sibling memZeroLength 8328 hdr.sizeof_bset
            (8328 + hdr.bset_u64s.get memZeroLength 8328 * BCH_U64S_SIZE) bkey hdr.U64S_BKEY
            = 8352 := by
          rcases hb with hb | hb <;> subst hb <;> decide
        simp only [hstep]
        rw [if_neg (by decide), if_pos (by decide)]
        exact ih 8352 (Or.inr rfl)
    intro fuel
    unfold bch_val_from_bset
    rw [if_neg (by decide)]
    exact hkey fuel NULL (Or.inl rfl)
  · have hloop : ∀ fuel c, c = NULL ∨ c = 4848 →
        next_sb_field_loop hdr memZeroLength 4096 hdr.BCH_SB_FIELD_clean fuel c = none := by
      intro fuel
      induction fuel with
      | zero => intro c _; rfl
      | succ n ih =>
        intro c hc
        have hstep : benz_bch_next_sibling memZeroLength 4096 hdr.sizeof_bch_sb
            (4096 + hdr.sb_u64s.get memZeroLength 4096 * BCH_U64S_SIZE) c hdr.U64S_BCH_SB_FIELD
            = 4848 := by
          rcases hc with hc | hc <;> subst hc <;> decide
        rw [next_sb_field_loop_succ, hstep, if_pos (by decide)]
        exact ih 4848 (Or.inr rfl)
    intro fuel
    exact hloop fuel NULL (Or.inl rfl)
  · have hloop : ∀ fuel c, c = NULL ∨ c = 20024 →
        next_jset_entry_loop hdr memZeroLength 20000 hdr.sizeof_bch_sb_field_clean
          hdr.BCH_JSET_ENTRY_btree_root fuel c = none := by
      intro fuel
      induction fuel with
      | zero => intro c _; rfl
      | succ n ih =>
        intro c hc
        have hstep : benz_bch_next_sibling memZeroLength 20000 hdr.sizeof_bch_sb_field_clean
            (20000 + hdr.sb_field_u64s.get memZeroLength 20000 * BCH_U64S_SIZE) c
            hdr.U64S_JSET_ENTRY = 20024 := by
          rcases hc with hc | hc <;> subst hc <;> decide
        rw [next_jset_entry_loop_succ, hstep, if_pos (by decide)]
        exact ih 20024 (Or.inr rfl)
    intro fuel
    exact hloop fuel NULL (Or.inl rfl)

/-! ## The iterator after exhaustion (C26) -/

theorem nested_btree_no_child (next : World → Bcachefs_iterator → IterResult) (w : World)
    (s : IterState) :
    bch_val_from_nested_btree next w (.mk s none) = some (NULL, w, .mk s none) := rfl

/-- The key walk of `bch_val_from_bset` at the start of a bset: the first key
is at `bset + sizeof(struct bset)`; when it lies in the bset and in the valid
part of the node and has a value, that value is returned. -/
theorem bch_val_from_bset_first (h : Header) (m : Mem) (n : Nat) (s : IterState)
    (hbset : s.bset ≠ NULL) (hkey : s.bkey = NULL)
    (hk0 : s.bset + h.sizeof_bset < s.bset + h.bset_u64s.get m s.bset * 8)
    (hk0e : s.bset + h.sizeof_bset < Bcachefs_iter_bset_end h m s)
    (hv0 : _Bcachefs_iter_next_bch_val h m (s.bset + h.sizeof_bset)
      (s.btree_node + h.btree_node_format) ≠ NULL) :
    bch_val_from_bset h m (n + 1) s =
      some (_Bcachefs_iter_next_bch_val h m (s.bset + h.sizeof_bset)
          (s.btree_node + h.btree_node_format),
        { s with bkey := s.bset + h.sizeof_bset }) := by
  have hsib : benz_bch_next_sibling m s.bset h.sizeof_bset
      (s.bset + h.bset_u64s.get m s.bset * BCH_U64S_SIZE) s.bkey h.U64S_BKEY =
      s.bset + h.sizeof_bset := by
    simp only [benz_bch_next_sibling, hkey, BCH_U64S_SIZE, if_true]
    rw [if_neg (by omega)]
  unfold bch_val_from_bset
  rw [if_neg hbset, bch_val_from_bset_loop, next_bkey_max, hsib]
  simp only []
  rw [if_neg (by omega), if_neg (fun hc => hv0 hc.2)]

/-- The first bset of a node, `&node->keys`, is what `benz_bch_next_bset` returns
from null when it starts before the end of the node and has `u64s != 0`. -/
theorem next_bset_from_null (h : Header) (m : Mem) (N node_end sb : Nat)
    (hB0 : N + h.btree_node_keys < node_end)
    (hu : h.bset_u64s.get m (N + h.btree_node_keys) ≠ 0) :
    benz_bch_next_bset h m N node_end NULL sb = some (N + h.btree_node_keys) := by
  unfold benz_bch_next_bset
  rw [next_bset_loop_succ]
  have hs : next_bset_step h m N node_end (benz_bch_get_block_size h m sb) NULL =
      N + h.btree_node_keys := by
    simp only [next_bset_step, next_bset_candidate, if_pos]
    rw [if_neg (by omega)]
  rw [hs, if_neg (fun hc => hu hc.2)]

/-- `Bcachefs_iter_next` hands on a non-null value of `_Bcachefs_iter_next` when
the tree is extents or dirents and the current key is not a B-tree pointer,
recording it in `bch_val`. -/
theorem iter_next_yield (h : Header) (malloc : Nat → Nat) (this : Handle) (n : Nat)
    (w w1 : World) (iter : Bcachefs_iterator) (s1 : IterState)
    (nx : Option Bcachefs_iterator) (v : Nat)
    (hinner : _Bcachefs_iter_next h this (n + 1) (Bcachefs_iter_next h malloc this n) w iter =
      some (v, w1, .mk s1 nx))
    (hv : v ≠ NULL)
    (hT : s1.type = h.BTREE_ID_extents ∨ s1.type = h.BTREE_ID_dirents)
    (hleaf : h.bkey_type.get w1.mem s1.bkey ≠ h.KEY_TYPE_btree_ptr_v2) :
    Bcachefs_iter_next h malloc this (n + 1) w iter =
      some (v, w1, .mk { s1 with bch_val := v } nx) := by
  rw [Bcachefs_iter_next]
  dsimp only
  rw [hinner]
  dsimp only
  rw [if_neg hv]
  simp only [Bcachefs_iterator.s, Bcachefs_iterator.next_it]
  rw [if_pos hT, if_neg hleaf]

/-- A call on an iterator without child whose `bset` and `bkey` are null takes
the first bset of the node and returns the first value of its first key. -/
theorem iter_next_from_start (h : Header) (malloc : Nat → Nat) (this : Handle) (n : Nat)
    (w : World) (s : IterState)
    (hT : s.type = h.BTREE_ID_extents ∨ s.type = h.BTREE_ID_dirents)
    (hbset : s.bset = NULL) (hkey : s.bkey = NULL) (hnode : s.btree_node ≠ NULL)
    (hB0 : s.btree_node + h.btree_node_keys < Bcachefs_iter_bset_end h w.mem s)
    (hu : h.bset_u64s.get w.mem (s.btree_node + h.btree_node_keys) ≠ 0)
    (hk0 : s.btree_node + h.btree_node_keys + h.sizeof_bset <
      s.btree_node + h.btree_node_keys +
        h.bset_u64s.get w.mem (s.btree_node + h.btree_node_keys) * 8)
    (hk0e : s.btree_node + h.btree_node_keys + h.sizeof_bset < Bcachefs_iter_bset_end h w.mem s)
    (hv0 : _Bcachefs_iter_next_bch_val h w.mem (s.btree_node + h.btree_node_keys + h.sizeof_bset)
      (s.btree_node + h.btree_node_format) ≠ NULL)
    (hleaf : h.bkey_type.get w.mem (s.btree_node + h.btree_node_keys + h.sizeof_bset) ≠
      h.KEY_TYPE_btree_ptr_v2) :
    Bcachefs_iter_next h malloc this (n + 2) w (.mk s none) =
      some (_Bcachefs_iter_next_bch_val h w.mem
          (s.btree_node + h.btree_node_keys + h.sizeof_bset)
          (s.btree_node + h.btree_node_format),
        w,
        .mk { s with
              bset := s.btree_node + h.btree_node_keys
              bkey := s.btree_node + h.btree_node_keys + h.sizeof_bset
              bch_val := _Bcachefs_iter_next_bch_val h w.mem
                (s.btree_node + h.btree_node_keys + h.sizeof_bset)
                (s.btree_node + h.btree_node_format) } none) := by
  have hB0nn : s.btree_node + h.btree_node_keys ≠ NULL := by
    have : s.btree_node ≠ 0 := hnode
    show s.btree_node + h.btree_node_keys ≠ 0
    omega
  -- the call on the first bset
  have hfirst : Bcachefs_iter_next h malloc this (n + 1) w
      (.mk { s with bset := s.btree_node + h.btree_node_keys } none) =
      some (_Bcachefs_iter_next_bch_val h w.mem
          (s.btree_node + h.btree_node_keys + h.sizeof_bset)
          (s.btree_node + h.btree_node_format),
        w,
        .mk { s with
              bset := s.btree_node + h.btree_node_keys
              bkey := s.btree_node + h.btree_node_keys + h.sizeof_bset
              bch_val := _Bcachefs_iter_next_bch_val h w.mem
                (s.btree_node + h.btree_node_keys + h.sizeof_bset)
                (s.btree_node + h.btree_node_format) } none) := by
    apply iter_next_yield h malloc this n w w _
      { s with bset := s.btree_node + h.btree_node_keys
               bkey := s.btree_node + h.btree_node_keys + h.sizeof_bset } none _ _ hv0 hT hleaf
    rw [_Bcachefs_iter_next, nested_btree_no_child]
    dsimp only
    rw [if_neg (fun hc => hc rfl)]
    simp only [Bcachefs_iterator.s, Bcachefs_iterator.next_it]
    rw [bch_val_from_bset_first h w.mem n { s with bset := s.btree_node + h.btree_node_keys }
      hB0nn hkey hk0 hk0e hv0]
    dsimp only
    rw [if_pos hv0]
  -- the call on the iterator without bset
  have hnext : Bcachefs_iter_next_bset h w.mem this s =
      some (s.btree_node + h.btree_node_keys) := by
    unfold Bcachefs_iter_next_bset
    rw [hbset]
    exact next_bset_from_null h w.mem s.btree_node _ this.sb hB0 hu
  apply iter_next_yield h malloc this (n + 1) w w _
    { s with bset := s.btree_node + h.btree_node_keys
             bkey := s.btree_node + h.btree_node_keys + h.sizeof_bset
             bch_val := _Bcachefs_iter_next_bch_val h w.mem
               (s.btree_node + h.btree_node_keys + h.sizeof_bset)
               (s.btree_node + h.btree_node_format) } none _ _ hv0 hT hleaf
  rw [_Bcachefs_iter_next, nested_btree_no_child]
  dsimp only
  rw [if_neg (fun hc => hc rfl)]
  simp only [Bcachefs_iterator.s, Bcachefs_iterator.next_it]
  have hnone : bch_val_from_bset h w.mem (n + 1 + 1) s = some (NULL, s) := by
    unfold bch_val_from_bset
    rw [if_pos hbset]
  rw [hnone]
  dsimp only
  rw [if_neg (fun hc => hc rfl), hnext]
  dsimp only
  rw [if_pos hB0nn]
  exact hfirst

/-! ## Trees other than extents and dirents: what a call does (C13) -/

theorem bch_val_from_bset_loop_frame (h : Header) (m : Mem) (bset_end : Nat) :
    ∀ (fuel : Nat) (s s1 : IterState) (v : Nat),
      bch_val_from_bset_loop h m bset_end fuel s = some (v, s1) →
      s1 = { s with bkey := s1.bkey } := by
  intro fuel
  induction fuel with
  | zero => intro s s1 v hr; simp [bch_val_from_bset_loop] at hr
  | succ n ih =>
    intro s s1 v hr
    rw [bch_val_from_bset_loop] at hr
    split at hr
    · exact absurd hr (by simp)
    · rename_i bkey _
      dsimp only at hr
      split at hr
      · simp only [Option.some.injEq, Prod.mk.injEq] at hr
        rw [← hr.2]
      · split at hr
        · exact ih { s with bkey := bkey } s1 v hr
        · simp only [Option.some.injEq, Prod.mk.injEq] at hr
          rw [← hr.2]

/-- `bch_val_from_bset` changes no member of the iterator other than `bkey`. -/
theorem bch_val_from_bset_frame (h : Header) (m : Mem) (fuel : Nat) (s s1 : IterState) (v : Nat)
    (hr : bch_val_from_bset h m fuel s = some (v, s1)) : s1 = { s with bkey := s1.bkey } := by
  unfold bch_val_from_bset at hr
  split at hr
  · simp only [Option.some.injEq, Prod.mk.injEq] at hr
    rw [← hr.2]
  · exact bch_val_from_bset_loop_frame h m _ fuel s s1 v hr

/-- The frame of `_Bcachefs_iter_next` on an iterator without child, given the
frame of the calls it makes through `next`. -/
theorem iter_next_inner_frame (h : Header) (this : Handle) (fuel T : Nat)
    (next : World → Bcachefs_iterator → IterResult)
    (hnext : ∀ (w : World) (s : IterState) (r : Nat × World × Bcachefs_iterator),
      s.type = T → next w (.mk s none) = some r →
      r.1 = NULL ∧ r.2.1 = w ∧ ∃ bset bkey, r.2.2 = .mk { s with bset := bset, bkey := bkey } none)
    (w w1 : World) (s : IterState) (it1 : Bcachefs_iterator) (v : Nat) (hT : s.type = T)
    (hr : _Bcachefs_iter_next h this fuel next w (.mk s none) = some (v, w1, it1)) :
    w1 = w ∧ ∃ bset bkey, it1 = .mk { s with bset := bset, bkey := bkey } none := by
  rw [_Bcachefs_iter_next, nested_btree_no_child] at hr
  dsimp only at hr
  rw [if_neg (fun hc => hc rfl)] at hr
  simp only [Bcachefs_iterator.s, Bcachefs_iterator.next_it] at hr
  split at hr
  · exact absurd hr (by simp)
  · rename_i bval s2 hbset
    have hframe := bch_val_from_bset_frame h w.mem fuel s s2 bval hbset
    have hT2 : s2.type = T := by rw [hframe]; exact hT
    split at hr
    · simp only [Option.some.injEq, Prod.mk.injEq] at hr
      refine ⟨hr.2.1.symm, s.bset, s2.bkey, ?_⟩
      rw [← hr.2.2, hframe]
    · split at hr
      · exact absurd hr (by simp)
      · rename_i bset _
        split at hr
        · obtain ⟨_, h2, b2, k2, h3⟩ := hnext w { s2 with bset := bset } (v, w1, it1) hT2 hr
          have h2' : w1 = w := h2
          have h3' : it1 = .mk { s2 with bset := b2, bkey := k2 } none := h3
          refine ⟨h2', b2, k2, ?_⟩
          rw [h3', hframe]
        · simp only [Option.some.injEq, Prod.mk.injEq] at hr
          refine ⟨hr.2.1.symm, NULL, s2.bkey, ?_⟩
          rw [← hr.2.2, hframe]

/-- For an iterator without child whose tree is neither extents nor dirents a
call of `Bcachefs_iter_next` that returns, returns null, leaves the memory and
the allocation count as they were, opens no child and changes no member of the
iterator other than `bset` and `bkey`. -/
theorem iter_next_other_frame (h : Header) (malloc : Nat → Nat) (this : Handle) (T : Nat)
    (hE : T ≠ h.BTREE_ID_extents) (hD : T ≠ h.BTREE_ID_dirents) :
    ∀ (fuel : Nat) (w : World) (s : IterState) (r : Nat × World × Bcachefs_iterator),
      s.type = T → Bcachefs_iter_next h malloc this fuel w (.mk s none) = some r →
      r.1 = NULL ∧ r.2.1 = w ∧
        ∃ bset bkey, r.2.2 = .mk { s with bset := bset, bkey := bkey } none := by
  intro fuel
  induction fuel with
  | zero => intro w s r _ hr; simp [Bcachefs_iter_next] at hr
  | succ n ih =>
    intro w s r hT hr
    rw [Bcachefs_iter_next] at hr
    dsimp only at hr
    split at hr
    · exact absurd hr (by simp)
    · rename_i bch_val w1 iter1 hinner
      obtain ⟨hw, b, k, hit⟩ :=
        iter_next_inner_frame h this (n + 1) T _ ih w w1 s iter1 bch_val hT hinner
      have ht1 : iter1.s.type = T := by rw [hit]; exact hT
      split at hr
      · simp only [Option.some.injEq] at hr
        rw [← hr]
        exact ⟨rfl, hw, b, k, hit⟩
      · rw [if_neg (by rw [ht1]; exact fun hc => hc.elim hE hD)] at hr
        simp only [Option.some.injEq] at hr
        rw [← hr]
        exact ⟨rfl, hw, b, k, hit⟩

/-- For a tree that is neither extents nor dirents, a key with a value that the
key walk of the current bset reaches is passed over: the call returns null and
the iterator stands on that key. -/
theorem iter_next_other_passes_key (h : Header) (malloc : Nat → Nat) (this : Handle) (n : Nat)
    (w : World) (s s2 : IterState) (v : Nat)
    (hE : s.type ≠ h.BTREE_ID_extents) (hD : s.type ≠ h.BTREE_ID_dirents)
    (hbset : bch_val_from_bset h w.mem (n + 1) s = some (v, s2)) (hv : v ≠ NULL) :
    Bcachefs_iter_next h malloc this (n + 1) w (.mk s none) = some (NULL, w, .mk s2 none) := by
  have hT2 : s2.type = s.type := bch_val_from_bset_type h w.mem (n + 1) s s2 v hbset
  rw [Bcachefs_iter_next]
  dsimp only
  rw [_Bcachefs_iter_next, nested_btree_no_child]
  dsimp only
  rw [if_neg (fun hc => hc rfl)]
  simp only [Bcachefs_iterator.s, Bcachefs_iterator.next_it]
  rw [hbset]
  dsimp only
  rw [if_pos hv]
  dsimp only
  rw [if_neg hv]
  rw [if_neg (by rw [hT2]; exact fun hc => hc.elim hE hD)]

/-- C13 (amended): for every iterator whose tree is neither extents nor dirents
`Bcachefs_iter_next` yields no value: every call that returns, returns null.
For such an iterator without child a call that returns performs no interior
descent: the memory and the allocation count are as before, no child is
opened, and no member of the iterator other than `bset` and `bkey` changes.
And when the key walk of the current bset reaches a key with a value, whatever
the key's type, the call returns null and the iterator stands on that key. -/
theorem C13_other_tree_yields_null (h : Header) (malloc : Nat → Nat) (this : Handle)
    (fuel : Nat) (w : World) (iter : Bcachefs_iterator)
    (hE : iter.s.type ≠ h.BTREE_ID_extents) (hD : iter.s.type ≠ h.BTREE_ID_dirents) :
    (∀ r, Bcachefs_iter_next h malloc this fuel w iter = some r → r.1 = NULL) ∧
    (iter.next_it = none →
      ∀ r, Bcachefs_iter_next h malloc this fuel w iter = some r →
        r.2.1 = w ∧ r.2.2.next_it = none ∧ r.2.2.s.type = iter.s.type ∧
        r.2.2.s.jset_entry = iter.s.jset_entry ∧ r.2.2.s.btree_ptr = iter.s.btree_ptr ∧
        r.2.2.s.btree_node = iter.s.btree_node ∧ r.2.2.s.bch_val = iter.s.bch_val) ∧
    (iter.next_it = none →
      ∀ v s2, bch_val_from_bset h w.mem (fuel + 1) iter.s = some (v, s2) → v ≠ NULL →
        Bcachefs_iter_next h malloc this (fuel + 1) w iter = some (NULL, w, .mk s2 none) ∧
        v = _Bcachefs_iter_next_bch_val h w.mem s2.bkey
          (iter.s.btree_node + h.btree_node_format)) := by
  refine ⟨fun r hr => iter_next_other_null h malloc this iter.s.type hE hD fuel w iter r rfl hr,
    ?_, ?_⟩
  · intro hnone r hr
    cases iter with
    | mk s nx =>
      have hnx : nx = none := hnone
      subst hnx
      obtain ⟨_, h2, b, k, h3⟩ :=
        iter_next_other_frame h malloc this s.type hE hD fuel w s r rfl hr
      rw [h3]
      exact ⟨h2, rfl, rfl, rfl, rfl, rfl, rfl⟩
  · intro hnone v s2 hbset hv
    cases iter with
    | mk s nx =>
      have hnx : nx = none := hnone
      subst hnx
      refine ⟨iter_next_other_passes_key h malloc this fuel w s s2 v hE hD hbset hv, ?_⟩
      unfold bch_val_from_bset at hbset
      split at hbset
      · simp only [Option.some.injEq, Prod.mk.injEq] at hbset
        exact absurd hbset.1.symm hv
      · exact (bch_val_from_bset_loop_val h w.mem _ (fuel + 1) s s2 v hbset hv).2

/-- C13 (amended) at the one-extent node: an iterator of tree 1 in the first
bset reaches the key 8352, whose value is 8392; the call returns null and
leaves the iterator on that key. -/
theorem C13_other_tree_yields_null_witness :
    bch_val_from_bset hdr nodeOneExtent (39 + 1) iterOtherTree.s =
      some (8392, { iterOtherTree.s with bkey := 8352 }) ∧
    Bcachefs_iter_next hdr mallocEx handleEx (39 + 1) ⟨nodeOneExtent, 0⟩ iterOtherTree =
      some (NULL, ⟨nodeOneExtent, 0⟩, .mk { iterOtherTree.s with bkey := 8352 } none) ∧
    (∀ r, Bcachefs_iter_next hdr mallocEx handleEx 39 ⟨nodeOneExtent, 0⟩ iterOtherTree = some r →
      r.1 = NULL) :=
  ⟨by decide!,
    ((C13_other_tree_yields_null hdr mallocEx handleEx 39 ⟨nodeOneExtent, 0⟩ iterOtherTree
      (by decide) (by decide)).2.2 rfl 8392 { iterOtherTree.s with bkey := 8352 } (by decide!)
      (by decide)).1,
    (C13_other_tree_yields_null hdr mallocEx handleEx 39 ⟨nodeOneExtent, 0⟩ iterOtherTree
      (by decide) (by decide)).1⟩

/-! ## The traversal does not read `bch_val` (C26) -/

end Bcachefs
